import Mathlib

/-!
# The block pipeline of the inscription indexer

A shallow embedding of `explorer/indexer.go` (the fast check, the whitelist
filter, the receipt enricher, the parse-and-apply loop and the block retry
loop) and of `devents/model.go` (the builders of the statistics record and of
the balance events, and the deduplicating flush batch), followed by the
properties established about them.

Conventions of the embedding:

* a Go slice is a `List`, a pointer that may be `nil` is an `Option`;
* a `*big.Int` field is an `Int`;
* a slice of transaction pointers is a list of transaction values; where the
  code writes through such a pointer, the written transaction is returned, and
  the retry loop carries the block with the written transactions along;
* the external collaborators (chain node, protocol registry, decoders, state
  cache) are fields of the `Explorer` record, so every definition is executable
  once they are supplied;
* side effects (cache writes, enqueued block events) are threaded through an
  explicit `PipelineState`.
-/

set_option autoImplicit false

namespace Indexer

/-! ## Data model -/

/-- Go `xycommon.RpcTransaction`, with the fields the pipeline and the event
materializer read. `Gas`, `GasPrice`, `TxIndex`, `BlockNumber` and `ChainID` are
the big integers of the struct, of any size and sign; `ChainID` is a pointer
that may be nil. -/
structure RpcTransaction where
  Hash : String
  From : String
  To : String
  Input : String
  Events : List String
  Gas : Int
  GasPrice : Int
  TxIndex : Int
  BlockNumber : Int
  ChainID : Option Int
deriving DecidableEq, Repr

/-- Go `xycommon.RpcReceipt`: `Status` holds `r.Status.Int64()`, the two gas
fields are the big integers compared against zero. -/
structure RpcReceipt where
  Status : Int
  EffectiveGasPrice : Int
  GasUsed : Int
deriving DecidableEq, Repr

/-- Go `xycommon.RpcBlock`: `Number` holds `block.Number.Uint64()`, the only way
the pipeline reads the block number. -/
structure RpcBlock where
  Number : Nat
  Hash : String
  Time : Nat
  Transactions : List RpcTransaction
deriving DecidableEq, Repr

/-- Go `xyerrors.InsError`, as built by `xyerrors.NewInsError(code, msg)`. -/
structure InsError where
  Code : Int
  Msg : String
deriving DecidableEq, Repr

/-- Metadata resolved by the protocol registry for a transaction. -/
structure MetaData where
  Chain : String
  Protocol : String
  Tick : String
  Operate : String
deriving DecidableEq, Repr

/-- Whitelist section of the configuration. -/
structure Whitelist where
  Protocols : List String
  Ticks : List String
deriving DecidableEq, Repr

/-- Filters section of the configuration; `Whitelist` is a nilable pointer. -/
structure FiltersConfig where
  Whitelist : Option Whitelist
deriving DecidableEq, Repr

/-- The part of `config.Config` the pipeline reads; `Filters` is a nilable
pointer. `DataPrefix` stands for `common.DataPrefix`, filled from
`chain.data_prefix`. -/
structure Config where
  ChainName : String
  DataPrefix : String
  ScanLimit : Nat
  Filters : Option FiltersConfig
deriving DecidableEq, Repr

/-! ## String helpers of the Go standard library -/

/-- Go `strings.HasPrefix`. -/
def HasPrefix (s p : String) : Bool :=
  p.data.isPrefixOf s.data

/-- Equality of two strings once the ASCII letters of both are lower-cased:
what Go `strings.EqualFold` computes on ASCII strings. It is not the library
function, which folds every Unicode letter; it serves the sample data and says
of two ASCII strings that they differ only in letter case. -/
def asciiEqualFold (s t : String) : Bool :=
  s.data.map Char.toLower == t.data.map Char.toLower

/-! ## Fast check and extraction -/

/-- Go `Explorer.fastChecking`. -/
def fastChecking (cfg : Config) (tx : RpcTransaction) : Bool :=
  if tx.Events.length > 0 then
    true
  else
    let trxContent := tx.Input
    if !HasPrefix trxContent "0x" then
      false
    else if HasPrefix trxContent cfg.DataPrefix then
      true
    else
      false

/-- Loop of `extractTxsFromBlock`: `txs` is the slice appended to. -/
def extractLoop (cfg : Config) : List RpcTransaction → List RpcTransaction → List RpcTransaction
  | [], txs => txs
  | tx :: rest, txs =>
    if !fastChecking cfg tx then
      extractLoop cfg rest txs
    else
      extractLoop cfg rest (txs ++ [tx])

/-- Go `Explorer.extractTxsFromBlock`; the nil slice returned for a nil or
empty block is the empty list. -/
def extractTxsFromBlock (cfg : Config) (block : Option RpcBlock) : List RpcTransaction :=
  match block with
  | none => []
  | some b =>
    if b.Transactions.length = 0 then
      []
    else
      extractLoop cfg b.Transactions []

/-! ## Whitelist -/

/-- The `for _, v := range list` search shared by the two whitelist checks.
`EqualFold` is Go `strings.EqualFold`, equality under the simple Unicode case
folding of the standard library, whose tables are outside the program: the
checks take it as an argument. -/
def anyEqualFold (EqualFold : String → String → Bool) (s : String) : List String → Bool
  | [] => false
  | v :: rest => if EqualFold v s then true else anyEqualFold EqualFold s rest

/-- Go `Explorer.protocolEnabled`. -/
def protocolEnabled (EqualFold : String → String → Bool) (cfg : Config) (protocol : String) :
    Bool :=
  match cfg.Filters with
  | none => true
  | some f =>
    match f.Whitelist with
    | none => true
    | some w =>
      if w.Protocols.length ≤ 0 then
        true
      else
        anyEqualFold EqualFold protocol w.Protocols

/-- Go `Explorer.tickEnabled`. -/
def tickEnabled (EqualFold : String → String → Bool) (cfg : Config) (tick : String) : Bool :=
  match cfg.Filters with
  | none => true
  | some f =>
    match f.Whitelist with
    | none => true
    | some w =>
      if w.Ticks.length ≤ 0 then
        true
      else
        anyEqualFold EqualFold tick w.Ticks

/-! ## Receipt enricher -/

/-- First loop of `validReceiptTxs`: the set of distinct hashes, in first
occurrence order. -/
def txHashList : List RpcTransaction → List String → List String
  | [], acc => acc
  | item :: rest, acc =>
    if item.Hash ∈ acc then txHashList rest acc else txHashList rest (acc ++ [item.Hash])

/-- The worker pool of `validReceiptTxs`: every distinct hash is fetched once;
a fetch that errs or yields nil (`none`) stores nothing. -/
def receiptsMap (fetch : String → Option RpcReceipt) : List String → List (String × RpcReceipt)
  | [] => []
  | hash :: rest =>
    match fetch hash with
    | none => receiptsMap fetch rest
    | some r => (hash, r) :: receiptsMap fetch rest

/-- Go `sync.Map.Load` on the receipts map. -/
def receiptsLoad (m : List (String × RpcReceipt)) (hash : String) : Option RpcReceipt :=
  m.lookup hash

/-- Second loop of `validReceiptTxs`. -/
def validReceiptLoop (m : List (String × RpcReceipt)) :
    List RpcTransaction → List RpcTransaction → Except InsError (List RpcTransaction)
  | [], results => .ok results
  | item :: rest, results =>
    match receiptsLoad m item.Hash with
    | none => .error ⟨-100, "get tx[" ++ item.Hash ++ "] receipt nil"⟩
    | some r =>
      if r.Status ≠ 1 then
        validReceiptLoop m rest results
      else
        let item1 := if r.EffectiveGasPrice > 0 then { item with GasPrice := r.EffectiveGasPrice } else item
        let item2 := if r.GasUsed > 0 then { item1 with Gas := r.GasUsed } else item1
        validReceiptLoop m rest (results ++ [item2])

/-- Go `Explorer.validReceiptTxs`; `fetch` is `node.TransactionReceipt`, with
`none` for an error or a nil receipt. The transactions are values here, so the
in-place gas overwrite shows in the returned list. -/
def validReceiptTxs (fetch : String → Option RpcReceipt) (items : List RpcTransaction) :
    Except InsError (List RpcTransaction) :=
  validReceiptLoop (receiptsMap fetch (txHashList items [])) items []

/-! ## Protocol filter, parse-and-apply loop, retry loop -/

/-- Go `devents.Event`, the block event queued to the flusher. -/
structure Event (Model : Type) where
  Chain : String
  BlockNum : Nat
  BlockTime : Nat
  BlockHash : String
  ChainId : Int
  Items : List Model
deriving DecidableEq, Repr

/-- The two side effects of the parse-and-apply stage, in the order they
happen: a call of `UpdateCache` and a call of `dEvent.WriteDBAsync`. -/
inductive Effect (TxResult Model : Type) where
  | cacheUpdate (r : TxResult)
  | enqueue (ev : Event Model)
deriving DecidableEq, Repr

/-- The mutable state the pipeline works on: the state cache and the record
of the side effects performed so far. -/
structure PipelineState (Cache TxResult Model : Type) where
  cache : Cache
  trace : List (Effect TxResult Model)
deriving DecidableEq, Repr

/-- The `Explorer` receiver: configuration, protocol registry
(`protocol.GetProtocol`), the test `errors.Is(err, xyerrors.ErrInternal)` and
the two methods of its `txResultHandler`. `EqualFold` is the comparison
`strings.EqualFold` of the Go standard library that the whitelist checks
call. -/
structure Explorer (Cache TxResult Decoder Model : Type) where
  config : Config
  EqualFold : String → String → Bool
  GetProtocol : Config → RpcTransaction → Option (Decoder × MetaData)
  IsInternal : InsError → Bool
  UpdateCache : Cache → TxResult → Cache
  BuildModel : Cache → TxResult → Model

/-- What lies outside the process during one attempt on a block: the chain
node answering `TransactionReceipt` (`none` for an error or a nil receipt) and
the decoders answering `Parse`, which may consult the state cache. -/
structure Node (Cache TxResult Decoder : Type) where
  TransactionReceipt : String → Option RpcReceipt
  Parse : Decoder → Cache → Option RpcBlock → RpcTransaction → MetaData →
    Except InsError (List TxResult)

section Pipeline

variable {Cache TxResult Decoder Model : Type}

/-- Loop of `tryFilterTxs`: `validTxs` is the slice appended to. -/
def tryFilterLoop (e : Explorer Cache TxResult Decoder Model) :
    List RpcTransaction → List RpcTransaction → List RpcTransaction
  | [], validTxs => validTxs
  | tx :: rest, validTxs =>
    match e.GetProtocol e.config tx with
    | none => tryFilterLoop e rest validTxs
    | some (_, md) =>
      if !protocolEnabled e.EqualFold e.config md.Protocol then
        tryFilterLoop e rest validTxs
      else if !tickEnabled e.EqualFold e.config md.Tick then
        tryFilterLoop e rest validTxs
      else
        tryFilterLoop e rest (validTxs ++ [tx])

/-- Go `Explorer.tryFilterTxs`. -/
def tryFilterTxs (e : Explorer Cache TxResult Decoder Model) (txs : List RpcTransaction) :
    List RpcTransaction :=
  tryFilterLoop e txs []

/-- Inner loop of `handleTxs` (`for _, txResult := range txResults`): update
the cache, then build the model against the updated cache. -/
def updateLoop (e : Explorer Cache TxResult Decoder Model) :
    List TxResult → PipelineState Cache TxResult Model → List Model →
      PipelineState Cache TxResult Model × List Model
  | [], st, blockTxResults => (st, blockTxResults)
  | txResult :: rest, st, blockTxResults =>
    let cache1 := e.UpdateCache st.cache txResult
    let st1 : PipelineState Cache TxResult Model :=
      { cache := cache1, trace := st.trace ++ [Effect.cacheUpdate txResult] }
    updateLoop e rest st1 (blockTxResults ++ [e.BuildModel cache1 txResult])

/-- Outer loop of `handleTxs` (`for _, tx := range txs`). An internal error
leaves the loop at once with the state reached so far. -/
def handleTxsLoop (e : Explorer Cache TxResult Decoder Model) (nd : Node Cache TxResult Decoder)
    (block : Option RpcBlock) :
    List RpcTransaction → PipelineState Cache TxResult Model → List Model →
      PipelineState Cache TxResult Model × Except InsError (List Model)
  | [], st, blockTxResults => (st, .ok blockTxResults)
  | tx :: rest, st, blockTxResults =>
    match e.GetProtocol e.config tx with
    | none => handleTxsLoop e nd block rest st blockTxResults
    | some (pt, md) =>
      if !protocolEnabled e.EqualFold e.config md.Protocol then
        handleTxsLoop e nd block rest st blockTxResults
      else if !tickEnabled e.EqualFold e.config md.Tick then
        handleTxsLoop e nd block rest st blockTxResults
      else
        match nd.Parse pt st.cache block tx md with
        | .error err =>
          if e.IsInternal err then
            (st, .error err)
          else
            handleTxsLoop e nd block rest st blockTxResults
        | .ok txResults =>
          if txResults.length < 1 then
            handleTxsLoop e nd block rest st blockTxResults
          else
            let next := updateLoop e txResults st blockTxResults
            handleTxsLoop e nd block rest next.1 next.2

/-- Go `Explorer.writeDBAsync`. The event literal leaves `ChainId` out, so the
event carries the zero value. -/
def writeDBAsync (e : Explorer Cache TxResult Decoder Model)
    (st : PipelineState Cache TxResult Model) (block : Option RpcBlock)
    (txResults : List Model) : PipelineState Cache TxResult Model :=
  match block with
  | none => st
  | some b =>
    if txResults.length ≤ 0 then
      st
    else
      let event : Event Model :=
        { Chain := e.config.ChainName
          BlockNum := b.Number
          BlockTime := b.Time
          BlockHash := b.Hash
          ChainId := 0
          Items := txResults }
      { st with trace := st.trace ++ [Effect.enqueue event] }

/-- Go `Explorer.handleTxs`: the final state and the returned error (`none`
for nil). -/
def handleTxs (e : Explorer Cache TxResult Decoder Model) (nd : Node Cache TxResult Decoder)
    (st : PipelineState Cache TxResult Model) (block : Option RpcBlock)
    (txs : List RpcTransaction) : PipelineState Cache TxResult Model × Option InsError :=
  match handleTxsLoop e nd block txs st [] with
  | (st1, .error err) => (st1, some err)
  | (st1, .ok blockTxResults) => (writeDBAsync e st1 block blockTxResults, none)

/-- Specification wording: a transaction passes the protocol filter when the registry
finds a decoder for it and both its protocol and its tick are enabled. -/
def passesFilter (e : Explorer Cache TxResult Decoder Model) (tx : RpcTransaction) : Bool :=
  match e.GetProtocol e.config tx with
  | none => false
  | some (_, md) => protocolEnabled e.EqualFold e.config md.Protocol && tickEnabled e.EqualFold e.config md.Tick

/-- The elements of the slice handed to `validReceiptTxs`, as they are after
the call. The slice holds pointers, so the gas overwrites of the second loop
are made on the transactions themselves, one after the other, until the loop
returns. -/
def validReceiptItems (m : List (String × RpcReceipt)) : List RpcTransaction → List RpcTransaction
  | [] => []
  | item :: rest =>
    match receiptsLoad m item.Hash with
    | none => item :: rest
    | some r =>
      if r.Status ≠ 1 then
        item :: validReceiptItems m rest
      else
        let item1 := if r.EffectiveGasPrice > 0 then { item with GasPrice := r.EffectiveGasPrice } else item
        let item2 := if r.GasUsed > 0 then { item1 with Gas := r.GasUsed } else item1
        item2 :: validReceiptItems m rest

/-- Puts the transactions `items`, in order, back at the places of the
transactions of a block selected by `keep`. -/
def replaceKept (keep : RpcTransaction → Bool) :
    List RpcTransaction → List RpcTransaction → List RpcTransaction
  | [], _ => []
  | tx :: rest, items =>
    if keep tx then
      match items with
      | [] => tx :: replaceKept keep rest []
      | item :: items1 => item :: replaceKept keep rest items1
    else
      tx :: replaceKept keep rest items

/-- The block as `handleBlock` sees it once `validReceiptTxs` has run on its
extracted and filtered transactions: these are the pointers held by the block,
so the block shows their gas overwrites. -/
def blockAfterReceipts (e : Explorer Cache TxResult Decoder Model)
    (nd : Node Cache TxResult Decoder) (block : RpcBlock) : RpcBlock :=
  let txs := tryFilterTxs e (extractTxsFromBlock e.config (some block))
  let m := receiptsMap nd.TransactionReceipt (txHashList txs [])
  { block with
    Transactions :=
      replaceKept (fun tx => fastChecking e.config tx && passesFilter e tx) block.Transactions
        (validReceiptItems m txs) }

/-- One pass through the body of the `for` loop of `handleBlock` on a block
whose number is positive: the state and the block it leaves, and whether it
reached the final `return` (`true`) or a `continue` (`false`). -/
def attempt (e : Explorer Cache TxResult Decoder Model) (nd : Node Cache TxResult Decoder)
    (block : RpcBlock) (st : PipelineState Cache TxResult Model) :
    PipelineState Cache TxResult Model × RpcBlock × Bool :=
  let txs := extractTxsFromBlock e.config (some block)
  let txs := tryFilterTxs e txs
  let block1 := blockAfterReceipts e nd block
  match validReceiptTxs nd.TransactionReceipt txs with
  | .error _ => (st, block1, false)
  | .ok txs =>
    match handleTxs e nd st (some block1) txs with
    | (st1, some _) => (st1, block1, false)
    | (st1, none) => (st1, block1, true)

/-- How a run of `handleBlock` ends: it returned, it dereferenced a nil block,
or it is still retrying when the step budget is used up. -/
inductive Run (σ : Type) where
  | returned (st : σ)
  | panicked
  | retrying (st : σ)
deriving DecidableEq, Repr

/-- The `for` loop of `handleBlock`. `world retry` is the outside world during
the attempt numbered `retry`; `fuel` bounds the number of passes looked at. -/
def handleBlockLoop (e : Explorer Cache TxResult Decoder Model)
    (world : Nat → Node Cache TxResult Decoder) :
    Nat → Nat → RpcBlock → PipelineState Cache TxResult Model →
      Run (PipelineState Cache TxResult Model)
  | 0, _, _, st => .retrying st
  | fuel + 1, retry, block, st =>
    if block.Number ≤ 0 then
      .returned st
    else
      match attempt e (world retry) block st with
      | (st1, block1, false) => handleBlockLoop e world fuel (retry + 1) block1 st1
      | (st1, _, true) => .returned st1

/-- Go `Explorer.handleBlock`. The first statement logs `block.Number`, which
panics on a nil block. -/
def handleBlock (e : Explorer Cache TxResult Decoder Model)
    (world : Nat → Node Cache TxResult Decoder) (block : Option RpcBlock) (fuel : Nat)
    (st : PipelineState Cache TxResult Model) : Run (PipelineState Cache TxResult Model) :=
  match block with
  | none => .panicked
  | some b => handleBlockLoop e world fuel 0 b st

end Pipeline

/-! ## Event materializer: data model

The records of package `model` carry the fields the materializer writes; the
columns it never touches (`ID`, `CreatedAt`, `UpdatedAt`, `LastSN`, `Status`)
are left out. A `decimal.Decimal` is an exact decimal number, modelled by the
rational it denotes; a `time.Time` built by `time.Unix(sec, 0)` is modelled by
`sec`. -/

/-- Go `decimal.Decimal`: exact arithmetic and numeric comparison. -/
abbrev Decimal := Rat

/-- Go `devents.DBAction`. -/
inductive DBAction where
  | create
  | update
deriving DecidableEq, Repr

/-- A Go map keyed by `DBAction`: one slot per action. A map to pointers has
optional slots, a map to slices has list slots (empty for a missing key). -/
structure ByAction (α : Type) where
  create : α
  update : α
deriving DecidableEq, Repr

/-- The slot of an action. -/
def ByAction.get {α : Type} (m : ByAction α) : DBAction → α
  | .create => m.create
  | .update => m.update

/-- Go conversion `int64(x)` of an unsigned 64-bit value. -/
def toInt64 (n : Nat) : Int :=
  if n % 2 ^ 64 < 2 ^ 63 then ((n % 2 ^ 64 : Nat) : Int) else ((n % 2 ^ 64 : Nat) : Int) - 2 ^ 64

/-- Go conversion `uint64(x)` of a signed value. -/
def toUint64 (i : Int) : Nat :=
  (i % 2 ^ 64).toNat

/-- Go `(*big.Int).Uint64`: the low 64 bits of the absolute value. -/
def bigUint64 (x : Int) : Nat :=
  x.natAbs % 2 ^ 64

/-- Go `(*big.Int).Int64`: the low 64 bits of the absolute value converted to
`int64`, and negated in `int64` for a negative number. -/
def bigInt64 (x : Int) : Int :=
  let v := toInt64 (bigUint64 x)
  if x < 0 then toInt64 (toUint64 (-v)) else v

/-- Go `time.Unix(int64(sec), 0)`, as seconds since the epoch. -/
def timeUnix (sec : Nat) : Int :=
  toInt64 sec

/-- Go `model.InscriptionsStats`. -/
structure InscriptionsStats where
  SID : Nat
  Chain : String
  Protocol : String
  Tick : String
  Minted : Decimal
  MintCompletedTime : Option Int
  MintFirstBlock : Nat
  MintLastBlock : Nat
  Holders : Nat
  TxCnt : Nat
deriving DecidableEq, Repr

/-- Go `model.Inscriptions`. -/
structure Inscriptions where
  SID : Nat
  Chain : String
  Protocol : String
  Tick : String
  Name : String
  LimitPerMint : Decimal
  TotalSupply : Decimal
  DeployBy : String
  DeployHash : String
  DeployTime : Int
  TransferType : Int
  Decimals : Int
deriving DecidableEq, Repr

/-- Go `model.Balances`, with the fields `BuildBalance` writes. -/
structure Balances where
  SID : Nat
  Chain : String
  Protocol : String
  Address : String
  Tick : String
  Available : Decimal
  Balance : Decimal
deriving DecidableEq, Repr

/-- Go `model.BalanceTxn`. -/
structure BalanceTxn where
  Chain : String
  Protocol : String
  Event : Int
  Address : String
  Tick : String
  Amount : Decimal
  Available : Decimal
  Balance : Decimal
  TxHash : List (Fin 256)
  CreatedAt : Int
deriving DecidableEq, Repr

/-- Go `model.AddressTxs`. -/
structure AddressTxs where
  Event : Int
  TxHash : List (Fin 256)
  Address : String
  RelatedAddress : String
  Amount : Decimal
  Tick : String
  Protocol : String
  Operate : String
  Chain : String
  CreatedAt : Int
deriving DecidableEq, Repr

/-- Go `model.Transaction`, with the fields `BuildTx` writes. -/
structure Transaction where
  ChainId : Int
  Protocol : String
  Chain : String
  BlockHeight : Nat
  PositionInBlock : Nat
  BlockTime : Int
  TxHash : List (Fin 256)
  From : String
  To : String
  Op : String
  Tick : String
  Amount : Decimal
  Gas : Int
  GasPrice : Int
deriving DecidableEq, Repr

/-- Go `model.BlockStatus`, with the fields `BuildDBUpdateModel` writes. -/
structure BlockStatus where
  Chain : String
  BlockHash : String
  BlockNumber : Nat
  BlockTime : Int
  ChainId : Int
deriving DecidableEq, Repr

/-- Go `devents.DBModelEvent`. -/
structure DBModelEvent where
  Tx : Transaction
  Inscriptions : ByAction (Option Inscriptions)
  InscriptionStats : ByAction (Option InscriptionsStats)
  Balances : ByAction (List Balances)
  AddressTxs : List AddressTxs
  BalanceTxs : List BalanceTxn
deriving DecidableEq, Repr

/-- The deploy effect of a `TxResult`, with the fields the materializer
reads. -/
structure Deploy where
  Name : String
  MaxSupply : Rat
  MintLimit : Rat
  Decimal : Int
deriving DecidableEq, Repr

/-- The mint effect of a `TxResult`. -/
structure Mint where
  Minter : String
  Amount : Decimal
  Init : Bool
deriving DecidableEq, Repr

/-- One receive of a transfer effect. -/
structure Receive where
  Address : String
  Amount : Decimal
  Init : Bool
deriving DecidableEq, Repr

/-- The transfer effect of a `TxResult`. -/
structure Transfer where
  Sender : String
  Receives : List Receive
deriving DecidableEq, Repr

/-- Go `devents.TxResult`: metadata, block and transaction context, and the
effect pointers, each of which may be nil. -/
structure TxResult where
  MD : MetaData
  Block : RpcBlock
  Tx : RpcTransaction
  Deploy : Option Deploy
  Mint : Option Mint
  Transfer : Option Transfer
deriving DecidableEq, Repr

/-- An entry of the inscription store of the state cache, as read by the
materializer. -/
structure InscriptionEntry where
  SID : Nat
  TotalSupply : Decimal
deriving DecidableEq, Repr

/-- An entry of the statistics store of the state cache. `Holders` is signed:
the materializer converts it with `uint64(d.Holders)`. -/
structure StatsEntry where
  SID : Nat
  Minted : Decimal
  Holders : Int
  TxCnt : Nat
deriving DecidableEq, Repr

/-- An entry of the balance store of the state cache. -/
structure BalanceEntry where
  SID : Nat
  Available : Decimal
  Overall : Decimal
deriving DecidableEq, Repr

/-- The reads the materializer makes on `tc.cache`: `Inscription.Get`,
`InscriptionStats.Get` and `Balance.Get`. Each returns a pointer, `none` being
the nil pointer of a miss. -/
structure CacheView where
  Inscription : String → String → Option InscriptionEntry
  InscriptionStats : String → String → Option StatsEntry
  Balance : String → String → String → Option BalanceEntry

/-- Modelled from the spec: the operate strings `OperateDeploy`, `OperateMint`,
`OperateTransfer`, `OperateList`, `OperateDelist`, `OperateExchange`, whose
declarations are not among the sources. -/
def OperateDeploy : String := "deploy"

/-- Modelled from the spec: see `OperateDeploy`. -/
def OperateMint : String := "mint"

/-- Modelled from the spec: see `OperateDeploy`. -/
def OperateTransfer : String := "transfer"

/-- Modelled from the spec: see `OperateDeploy`. -/
def OperateList : String := "list"

/-- Modelled from the spec: see `OperateDeploy`. -/
def OperateDelist : String := "delist"

/-- Modelled from the spec: see `OperateDeploy`. -/
def OperateExchange : String := "exchange"

/-! ## Event materializer: hex helpers of go-ethereum `common` -/

/-- The lower-case hexadecimal digit of a value below 16. -/
def hexDigit (n : Nat) : Char :=
  "0123456789abcdef".data.getD n '0'

/-- Go `common.Bytes2Hex`: two lower-case digits per byte. -/
def Bytes2Hex : List (Fin 256) → String
  | [] => ""
  | b :: rest => ⟨hexDigit (b.val / 16) :: hexDigit (b.val % 16) :: (Bytes2Hex rest).data⟩

/-- The value of a hexadecimal digit, of either case. -/
def fromHexChar (c : Char) : Option Nat :=
  if 48 ≤ c.toNat ∧ c.toNat ≤ 57 then some (c.toNat - 48)
  else if 97 ≤ c.toNat ∧ c.toNat ≤ 102 then some (c.toNat - 87)
  else if 65 ≤ c.toNat ∧ c.toNat ≤ 70 then some (c.toNat - 55)
  else none

/-- Go `common.Hex2Bytes`: decodes pairs of digits and stops at the first
character that is not a digit, keeping the bytes decoded so far. -/
def Hex2Bytes : List Char → List (Fin 256)
  | a :: b :: rest =>
    match fromHexChar a, fromHexChar b with
    | some x, some y => Fin.ofNat (x * 16 + y) :: Hex2Bytes rest
    | _, _ => []
  | _ => []

/-- Go `common.FromHex`: drops a `0x` or `0X` head, pads an odd length with a
leading `0`, and decodes. -/
def FromHex (s : String) : List (Fin 256) :=
  let body : List Char :=
    match s.data with
    | '0' :: 'x' :: rest => rest
    | '0' :: 'X' :: rest => rest
    | cs => cs
  let size := (String.mk body).utf8ByteSize
  if size % 2 = 1 then Hex2Bytes ('0' :: body) else Hex2Bytes body

/-! ## Event materializer: builders -/

/-- Go `TxResultHandler.getEventByOperate`. -/
def getEventByOperate (operate : String) : Int :=
  if operate = OperateDeploy then 1
  else if operate = OperateMint then 2
  else if operate = OperateTransfer then 3
  else if operate = OperateList then 4
  else if operate = OperateDelist then 5
  else if operate = OperateExchange then 6
  else 0

/-- Go `TxResultHandler.BuildInscriptionStat`. `none` stands for the panic of
a nil dereference, when the statistics entry, or for a mint the inscription
entry, is not in the cache. -/
def BuildInscriptionStat (cache : CacheView) (e : TxResult) :
    Option (ByAction (Option InscriptionsStats)) :=
  match cache.InscriptionStats e.MD.Protocol e.MD.Tick with
  | none => none
  | some d =>
    let data : InscriptionsStats :=
      { SID := d.SID
        Chain := e.MD.Chain
        Protocol := e.MD.Protocol
        Tick := e.MD.Tick
        Minted := d.Minted
        MintCompletedTime := none
        MintFirstBlock := 0
        MintLastBlock := 0
        Holders := toUint64 d.Holders
        TxCnt := d.TxCnt }
    let minted : Option InscriptionsStats :=
      match e.Mint with
      | none => some data
      | some mint =>
        let data1 :=
          if d.Minted = mint.Amount then { data with MintFirstBlock := e.Block.Number } else data
        match cache.Inscription e.MD.Protocol e.MD.Tick with
        | none => none
        | some inscription =>
          if inscription.TotalSupply ≤ d.Minted then
            some { data1 with
              MintLastBlock := e.Block.Number
              MintCompletedTime := some (timeUnix e.Block.Time) }
          else
            some data1
    match minted with
    | none => none
    | some data2 =>
      if e.Deploy.isSome then
        some { create := some data2, update := none }
      else
        some { create := none, update := some data2 }

/-- Go `devents.BalanceTxEvent`. -/
structure BalanceTxEvent where
  Action : DBAction
  SID : Nat
  Address : String
  Amount : Decimal
  AvailableBalance : Decimal
  OverallBalance : Decimal
deriving DecidableEq, Repr

/-- The sum loop `sendTotalAmount = sendTotalAmount.Add(item.Amount)`. -/
def sendTotal : List Receive → Decimal → Decimal
  | [], total => total
  | item :: rest, total => sendTotal rest (total + item.Amount)

/-- The loop of `BuildBalanceTxEvents` over the receives of a transfer. -/
def receiveEvents (cache : CacheView) (md : MetaData) :
    List Receive → List BalanceTxEvent → Option (List BalanceTxEvent)
  | [], items => some items
  | item :: rest, items =>
    match cache.Balance md.Protocol md.Tick item.Address with
    | none => none
    | some receiveBalance =>
      let action := if item.Init then DBAction.create else DBAction.update
      receiveEvents cache md rest (items ++ [
        { Action := action
          SID := receiveBalance.SID
          Address := item.Address
          Amount := item.Amount
          AvailableBalance := receiveBalance.Available
          OverallBalance := receiveBalance.Overall }])

/-- Go `TxResultHandler.BuildBalanceTxEvents`. `none` stands for the panic of
a nil dereference, when a balance read misses. -/
def BuildBalanceTxEvents (cache : CacheView) (e : TxResult) : Option (List BalanceTxEvent) :=
  let afterMint : Option (List BalanceTxEvent) :=
    match e.Mint with
    | none => some []
    | some mint =>
      match cache.Balance e.MD.Protocol e.MD.Tick mint.Minter with
      | none => none
      | some balance =>
        let action := if mint.Init then DBAction.create else DBAction.update
        some [
          { Action := action
            SID := balance.SID
            Address := mint.Minter
            Amount := mint.Amount
            AvailableBalance := balance.Available
            OverallBalance := balance.Overall }]
  match afterMint with
  | none => none
  | some items =>
    match e.Transfer with
    | none => some items
    | some transfer =>
      let sendTotalAmount := sendTotal transfer.Receives 0
      match cache.Balance e.MD.Protocol e.MD.Tick transfer.Sender with
      | none => none
      | some senderBalance =>
        receiveEvents cache e.MD transfer.Receives (items ++ [
          { Action := DBAction.update
            SID := senderBalance.SID
            Address := transfer.Sender
            Amount := -sendTotalAmount
            AvailableBalance := senderBalance.Available
            OverallBalance := senderBalance.Overall }])

/-- The journal row `BuildBalance` builds for one balance event. -/
def balanceTxnOf (e : TxResult) (event : BalanceTxEvent) : BalanceTxn :=
  { Chain := e.MD.Chain
    Protocol := e.MD.Protocol
    Event := getEventByOperate e.MD.Operate
    Address := event.Address
    Tick := e.MD.Tick
    Amount := event.Amount
    Balance := event.OverallBalance
    Available := event.AvailableBalance
    TxHash := FromHex e.Tx.Hash
    CreatedAt := timeUnix e.Block.Time }

/-- The balance snapshot `BuildBalance` builds for one balance event. -/
def balancesOf (e : TxResult) (event : BalanceTxEvent) : Balances :=
  { SID := event.SID
    Chain := e.MD.Chain
    Protocol := e.MD.Protocol
    Address := event.Address
    Tick := e.MD.Tick
    Balance := event.OverallBalance
    Available := event.AvailableBalance }

/-- The loop of `BuildBalance` over the balance events. -/
def balanceLoop (e : TxResult) :
    List BalanceTxEvent → List BalanceTxn → ByAction (List Balances) →
      List BalanceTxn × ByAction (List Balances)
  | [], txns, balances => (txns, balances)
  | event :: rest, txns, balances =>
    let txns1 := txns ++ [balanceTxnOf e event]
    let balances1 : ByAction (List Balances) :=
      match event.Action with
      | .create => { balances with create := balances.create ++ [balancesOf e event] }
      | .update => { balances with update := balances.update ++ [balancesOf e event] }
    balanceLoop e rest txns1 balances1

/-- Go `TxResultHandler.BuildBalance`. -/
def BuildBalance (cache : CacheView) (e : TxResult) :
    Option (List BalanceTxn × ByAction (List Balances)) :=
  match BuildBalanceTxEvents cache e with
  | none => none
  | some balanceTxEvents => some (balanceLoop e balanceTxEvents [] ⟨[], []⟩)

/-- Go `model.TransferTypeHash`. -/
def TransferTypeHash : Int := 1

/-- Go `model.TransferTypeBalance`. -/
def TransferTypeBalance : Int := 2

/-- Go `TxResultHandler.BuildInscription`. A result without deploy effect
yields the nil map; `none` stands for the panic of a nil dereference, when the
inscription of a deploy is not in the cache. The literal does not set
`TransferType`, which keeps the zero value of its type. -/
def BuildInscription (cache : CacheView) (e : TxResult) :
    Option (ByAction (Option Inscriptions)) :=
  match e.Deploy with
  | none => some { create := none, update := none }
  | some deploy =>
    match cache.Inscription e.MD.Protocol e.MD.Tick with
    | none => none
    | some d =>
      some
        { create := some
            { SID := d.SID
              Chain := e.MD.Chain
              Protocol := e.MD.Protocol
              Tick := e.MD.Tick
              Name := deploy.Name
              LimitPerMint := deploy.MintLimit
              TotalSupply := deploy.MaxSupply
              DeployBy := e.Tx.From
              DeployHash := e.Tx.Hash
              DeployTime := timeUnix e.Block.Time
              TransferType := 0
              Decimals := deploy.Decimal }
          update := none }

/-- Go `devents.AddressTxEvent`. -/
structure AddressTxEvent where
  Address : String
  RelatedAddress : String
  Amount : Decimal
deriving DecidableEq, Repr

/-- The second loop of `BuildAddressTxEvents` over the receives of a
transfer. -/
def receiveAddressEvents (sender : String) :
    List Receive → List AddressTxEvent → List AddressTxEvent
  | [], items => items
  | item :: rest, items =>
    receiveAddressEvents sender rest (items ++ [
      { Address := item.Address
        RelatedAddress := sender
        Amount := item.Amount }])

/-- Go `TxResultHandler.BuildAddressTxEvents`. -/
def BuildAddressTxEvents (e : TxResult) : List AddressTxEvent :=
  let items : List AddressTxEvent := []
  let items1 :=
    match e.Deploy with
    | none => items
    | some _ => items ++ [{ Address := e.Tx.From, RelatedAddress := "", Amount := 0 }]
  let items2 :=
    match e.Mint with
    | none => items1
    | some mint => items1 ++ [{ Address := e.Tx.To, RelatedAddress := "", Amount := mint.Amount }]
  match e.Transfer with
  | none => items2
  | some transfer =>
    let sendTotalAmount := sendTotal transfer.Receives 0
    let sendToAddr :=
      match transfer.Receives with
      | [only] => only.Address
      | _ => ""
    receiveAddressEvents transfer.Sender transfer.Receives (items2 ++ [
      { Address := transfer.Sender
        RelatedAddress := sendToAddr
        Amount := -sendTotalAmount }])

/-- The journal row `BuildAddressTxs` builds for one address event. -/
def addressTxOf (e : TxResult) (item : AddressTxEvent) : AddressTxs :=
  { Event := getEventByOperate e.MD.Operate
    Address := item.Address
    RelatedAddress := item.RelatedAddress
    Amount := item.Amount
    TxHash := FromHex e.Tx.Hash
    Tick := e.MD.Tick
    Protocol := e.MD.Protocol
    Operate := e.MD.Operate
    Chain := e.MD.Chain
    CreatedAt := timeUnix e.Block.Time }

/-- The loop of `BuildAddressTxs`. -/
def addressTxLoop (e : TxResult) : List AddressTxEvent → List AddressTxs → List AddressTxs
  | [], txs => txs
  | item :: rest, txs => addressTxLoop e rest (txs ++ [addressTxOf e item])

/-- Go `TxResultHandler.BuildAddressTxs`. -/
def BuildAddressTxs (e : TxResult) : List AddressTxs :=
  addressTxLoop e (BuildAddressTxEvents e) []

/-- Go `TxResultHandler.BuildTx`. The big integers of the transaction are read
through `Uint64()` and `Int64()`, which keep the low 64 bits. -/
def BuildTx (e : TxResult) : Transaction :=
  let trx : Transaction :=
    { Chain := e.MD.Chain
      Protocol := e.MD.Protocol
      BlockHeight := bigUint64 e.Tx.BlockNumber
      PositionInBlock := bigUint64 e.Tx.TxIndex
      BlockTime := timeUnix e.Block.Time
      TxHash := FromHex e.Tx.Hash
      From := e.Tx.From
      To := e.Tx.To
      Op := e.MD.Operate
      Tick := e.MD.Tick
      Gas := bigInt64 e.Tx.Gas
      GasPrice := bigInt64 e.Tx.GasPrice
      ChainId := 0
      Amount := 0 }
  let trx1 : Transaction :=
    match e.Tx.ChainID with
    | none => { trx with ChainId := 0 }
    | some chainID => { trx with ChainId := bigInt64 chainID }
  if trx1.Op = OperateMint then
    match e.Mint with
    | some mint => { trx1 with Amount := mint.Amount }
    | none => trx1
  else if trx1.Op = OperateDeploy then
    { trx1 with Amount := 0 }
  else if trx1.Op = OperateTransfer then
    match e.Transfer with
    | some transfer => { trx1 with Amount := sendTotal transfer.Receives 0 }
    | none => trx1
  else
    trx1

/-- Go `TxResultHandler.BuildModel`. `none` stands for a panic in one of the
builders. -/
def BuildModel (cache : CacheView) (r : TxResult) : Option DBModelEvent :=
  match BuildInscription cache r with
  | none => none
  | some inscriptions =>
    match BuildInscriptionStat cache r with
    | none => none
    | some inscriptionStats =>
      match BuildBalance cache r with
      | none => none
      | some (balanceTxs, balances) =>
        some
          { Tx := BuildTx r
            Inscriptions := inscriptions
            InscriptionStats := inscriptionStats
            Balances := balances
            AddressTxs := BuildAddressTxs r
            BalanceTxs := balanceTxs }

/-! ## Event materializer: flush batch

A Go map is an association list with one entry per key: an assignment replaces
the value of a key already there and appends a new key. Go ranges over a map in
no fixed order; the flattened lists are given in the order the keys entered the
map, and the properties established about them do not depend on that order. -/

/-- Go map read `m[k]`. -/
def mapGet {K V : Type} [DecidableEq K] : List (K × V) → K → Option V
  | [], _ => none
  | (k1, v) :: rest, k => if k1 = k then some v else mapGet rest k

/-- Go map assignment `m[k] = v`. -/
def mapSet {K V : Type} [DecidableEq K] : List (K × V) → K → V → List (K × V)
  | [], k, v => [(k, v)]
  | (k1, v1) :: rest, k, v => if k1 = k then (k, v) :: rest else (k1, v1) :: mapSet rest k v

/-- Go `for _, item := range m { out = append(out, item) }`. -/
def mapValues {K V : Type} (m : List (K × V)) : List V :=
  m.map Prod.snd

/-- Go `devents.DBModels`, the deduplicating accumulator of a flush. -/
structure DBModels where
  Inscriptions : ByAction (List (Nat × Inscriptions))
  InscriptionStats : ByAction (List (Nat × InscriptionsStats))
  Balances : ByAction (List (Nat × Balances))
  Txs : List (String × Transaction)
  AddressTxs : List AddressTxs
  BalanceTxs : List BalanceTxn
deriving DecidableEq, Repr

/-- Go `devents.DBModelsFattened`, the flattened batch of a flush. -/
structure DBModelsFattened where
  Inscriptions : ByAction (List Inscriptions)
  InscriptionStats : ByAction (List InscriptionsStats)
  Balances : ByAction (List Balances)
  Txs : List Transaction
  AddressTxs : List AddressTxs
  BalanceTxs : List BalanceTxn
  BlockStatus : BlockStatus
deriving DecidableEq, Repr

/-- The body of `for action, item := range event.Inscriptions`, for the slot of
one action. -/
def setInscription (m : List (Nat × Inscriptions)) (slot : Option Inscriptions) :
    List (Nat × Inscriptions) :=
  match slot with
  | none => m
  | some item => mapSet m item.SID item

/-- The three `if` statements that carry the mint history of the entry already
in the map over to the new item. -/
def mergeStats (lastItem item : InscriptionsStats) : InscriptionsStats :=
  let item1 :=
    if lastItem.MintFirstBlock > 0 then
      { item with MintFirstBlock := lastItem.MintFirstBlock }
    else item
  let item2 :=
    if lastItem.MintLastBlock > 0 then
      { item1 with MintLastBlock := lastItem.MintLastBlock }
    else item1
  if lastItem.MintCompletedTime ≠ none then
    { item2 with MintCompletedTime := lastItem.MintCompletedTime }
  else item2

/-- The assignment of one statistics item, with the merge when its `SID` is
already in the map. -/
def putStats (m : List (Nat × InscriptionsStats)) (item : InscriptionsStats) :
    List (Nat × InscriptionsStats) :=
  match mapGet m item.SID with
  | some lastItem => mapSet m item.SID (mergeStats lastItem item)
  | none => mapSet m item.SID item

/-- The body of `for action, item := range event.InscriptionStats`, for the
slot of one action. -/
def setStats (m : List (Nat × InscriptionsStats)) (slot : Option InscriptionsStats) :
    List (Nat × InscriptionsStats) :=
  match slot with
  | none => m
  | some item => putStats m item

/-- The loop `for _, item := range items` over the balances of one action. -/
def setBalances (m : List (Nat × Balances)) : List Balances → List (Nat × Balances)
  | [] => m
  | item :: rest => setBalances (mapSet m item.SID item) rest

/-- The body of `for _, event := range blockEvent.Items`. The entries of
different actions go to different maps, so the order in which a range visits
the actions does not matter. -/
def applyEvent (dm : DBModels) (event : DBModelEvent) : DBModels :=
  { Inscriptions :=
      { create := setInscription dm.Inscriptions.create event.Inscriptions.create
        update := setInscription dm.Inscriptions.update event.Inscriptions.update }
    InscriptionStats :=
      { create := setStats dm.InscriptionStats.create event.InscriptionStats.create
        update := setStats dm.InscriptionStats.update event.InscriptionStats.update }
    Txs := mapSet dm.Txs (Bytes2Hex event.Tx.TxHash) event.Tx
    AddressTxs :=
      if event.AddressTxs.length > 0 then dm.AddressTxs ++ event.AddressTxs else dm.AddressTxs
    BalanceTxs :=
      if event.BalanceTxs.length > 0 then dm.BalanceTxs ++ event.BalanceTxs else dm.BalanceTxs
    Balances :=
      { create := setBalances dm.Balances.create event.Balances.create
        update := setBalances dm.Balances.update event.Balances.update } }

/-- The loop `for _, event := range blockEvent.Items`. -/
def applyItems : List DBModelEvent → DBModels → DBModels
  | [], dm => dm
  | event :: rest, dm => applyItems rest (applyEvent dm event)

/-- The loop `for _, blockEvent := range blocksEvents`. -/
def applyBlocks : List (Event DBModelEvent) → DBModels → DBModels
  | [], dm => dm
  | blockEvent :: rest, dm => applyBlocks rest (applyItems blockEvent.Items dm)

/-- The accumulator `BuildDBUpdateModel` starts from. -/
def emptyDBModels : DBModels :=
  { Inscriptions := ⟨[], []⟩, InscriptionStats := ⟨[], []⟩, Balances := ⟨[], []⟩
    Txs := [], AddressTxs := [], BalanceTxs := [] }

/-- Go `devents.BuildDBUpdateModel`. `none` stands for the panic of the index
`blocksEvents[len(blocksEvents)-1]` on an empty window. -/
def BuildDBUpdateModel (blocksEvents : List (Event DBModelEvent)) : Option DBModelsFattened :=
  let dm := applyBlocks blocksEvents emptyDBModels
  match blocksEvents.getLast? with
  | none => none
  | some lastBlockEvent =>
    let bs : BlockStatus :=
      { Chain := lastBlockEvent.Chain
        BlockHash := lastBlockEvent.BlockHash
        BlockNumber := lastBlockEvent.BlockNum
        BlockTime := timeUnix lastBlockEvent.BlockTime
        ChainId := lastBlockEvent.ChainId }
    some
      { Inscriptions :=
          { create := mapValues dm.Inscriptions.create
            update := mapValues dm.Inscriptions.update }
        InscriptionStats :=
          { create := mapValues dm.InscriptionStats.create
            update := mapValues dm.InscriptionStats.update }
        Balances :=
          { create := mapValues dm.Balances.create
            update := mapValues dm.Balances.update }
        Txs := mapValues dm.Txs
        AddressTxs := dm.AddressTxs
        BalanceTxs := dm.BalanceTxs
        BlockStatus := bs }

/-! ## UTXO store (`dcache/utxo.go`)

The `sync.Map` of the store is an association list from index strings to
notes. -/

/-- Go `dcache.UTXOItem`. -/
structure UTXOItem where
  Protocol : String
  Tick : String
  Amount : Decimal
  Owner : String
deriving DecidableEq, Repr

/-- Go `UTXO.idx`. -/
def UTXO.idx (sn : String) : String :=
  sn

/-- Go `UTXO.Add`. -/
def UTXO.Add (d : List (String × UTXOItem)) (protocol tick sn address : String)
    (amount : Decimal) : List (String × UTXOItem) :=
  let idx := UTXO.idx sn
  mapSet d idx { Protocol := protocol, Tick := tick, Amount := amount, Owner := address }

/-- Go `UTXO.Get`: `none` for `(false, nil)`. -/
def UTXO.Get (d : List (String × UTXOItem)) (sn : String) : Option UTXOItem :=
  let idx := UTXO.idx sn
  mapGet d idx

/-- Go `UTXO.Transfer`. The note is a pointer held by the map, so the
assignment to `item.Owner` changes the note stored under its index. -/
def UTXO.Transfer (d : List (String × UTXOItem)) (sn : String) (owner : String) :
    List (String × UTXOItem) :=
  match UTXO.Get d sn with
  | none => d
  | some item => mapSet d (UTXO.idx sn) { item with Owner := owner }

/-! ## Read service: `GetAddressBalance` (`jsonrpc/service.go`) -/

/-- Go `jsonrpc.UTXOBrief`. -/
structure UTXOBrief where
  Tick : String
  Amount : String
  RootHash : String
deriving DecidableEq, Repr

/-- Go `jsonrpc.BalanceBrief`. -/
structure BalanceBrief where
  Tick : String
  TransferType : Int
  DeployHash : String
  Balance : String
  Utxos : List UTXOBrief
deriving DecidableEq, Repr

/-- A row of the durable store read by `GetUtxosByAddress`. -/
structure UTXORow where
  Tick : String
  Amount : Decimal
  RootHash : String
deriving DecidableEq, Repr

/-- A value held by the response cache: a `*BalanceBrief`, or the response of
another method. -/
inductive CacheValue where
  | balanceBrief (resp : BalanceBrief)
  | other (tag : String)
deriving DecidableEq, Repr

/-- What `GetAddressBalance` returns: `(resp, nil)`, `(ErrRPCInternal, err)`
or `(nil, errors.New("Record not found"))`. -/
inductive RpcResult where
  | ok (resp : BalanceBrief)
  | internal (err : String)
  | notFound
deriving DecidableEq, Repr

/-- A query made on the durable store. -/
inductive DBQuery where
  | findInscriptionByTick (chain protocol tick : String)
  | findUserBalanceByTick (chain protocol tick address : String)
  | getUtxosByAddress (address chain protocol tick : String)
deriving DecidableEq, Repr

/-- The collaborators of the read service: the response cache (`Get`, `Set` on
a cache state `C`), the three store reads (`Except.error` for a returned error,
`none` for a nil row), `decimal.Decimal.String`, and `strings.ToLower` of the Go
standard library, which lower-cases every Unicode letter. -/
structure Service (C : Type) where
  ToLower : String → String
  CacheGet : C → String → Option CacheValue
  CacheSet : C → String → CacheValue → C
  FindInscriptionByTick : String → String → String → Except String (Option Inscriptions)
  FindUserBalanceByTick : String → String → String → String → Except String (Option Balances)
  GetUtxosByAddress : String → String → String → String → Except String (List UTXORow)
  DecimalString : Decimal → String

/-- The loop of `GetAddressBalance` over the notes of the address. -/
def utxoBriefs {C : Type} (s : Service C) : List UTXORow → List UTXOBrief → List UTXOBrief
  | [], utxos => utxos
  | u :: rest, utxos =>
    utxoBriefs s rest (utxos ++ [
      { Tick := u.Tick, Amount := s.DecimalString u.Amount, RootHash := u.RootHash }])

/-- The part of `GetAddressBalance` that runs on a cache miss: the cache left,
the queries made on the store in order, and the result. -/
def addressBalanceMiss {C : Type} (s : Service C) (cache : C) (cacheKey : String)
    (protocol chain tick address : String) : C × List DBQuery × RpcResult :=
  let q1 := DBQuery.findInscriptionByTick chain protocol tick
  match s.FindInscriptionByTick chain protocol tick with
  | .error err => (cache, [q1], .internal err)
  | .ok none => (cache, [q1], .notFound)
  | .ok (some inscription) =>
    let resp : BalanceBrief :=
      { Tick := inscription.Tick
        TransferType := inscription.TransferType
        DeployHash := inscription.DeployHash
        Balance := ""
        Utxos := [] }
    let q2 := DBQuery.findUserBalanceByTick chain protocol tick address
    match s.FindUserBalanceByTick chain protocol tick address with
    | .error err => (cache, [q1, q2], .internal err)
    | .ok none => (cache, [q1, q2], .notFound)
    | .ok (some balance) =>
      let resp1 := { resp with Balance := s.DecimalString balance.Balance }
      if inscription.TransferType = TransferTypeHash then
        let q3 := DBQuery.getUtxosByAddress address chain protocol tick
        match s.GetUtxosByAddress address chain protocol tick with
        | .error err => (cache, [q1, q2, q3], .internal err)
        | .ok result =>
          let resp2 := { resp1 with Utxos := utxoBriefs s result [] }
          (s.CacheSet cache cacheKey (.balanceBrief resp2), [q1, q2, q3], .ok resp2)
      else
        (s.CacheSet cache cacheKey (.balanceBrief resp1), [q1, q2], .ok resp1)

/-- Go `Service.GetAddressBalance`: the cache left, the queries made on the
store in order, and the result. -/
def GetAddressBalance {C : Type} (s : Service C) (cache : C)
    (protocol chain tick address : String) : C × List DBQuery × RpcResult :=
  let protocol := s.ToLower protocol
  let tick := s.ToLower tick
  let cacheKey := "addr_balance_" ++ chain ++ "_" ++ protocol ++ "_" ++ tick
  match s.CacheGet cache cacheKey with
  | some (.balanceBrief allIns) => (cache, [], .ok allIns)
  | _ => addressBalanceMiss s cache cacheKey protocol chain tick address

/-! ## Definitions used to state the properties -/

/-- Specification wording: the receipt fetched for a transaction reports status 1. -/
def receiptSucceeded (fetch : String → Option RpcReceipt) (tx : RpcTransaction) : Bool :=
  match fetch tx.Hash with
  | none => false
  | some r => decide (r.Status = 1)

/-- Specification wording: `out` is the transaction `tx` as kept by `validReceiptTxs`:
its receipt `r` reports status 1, the gas price is `r.EffectiveGasPrice` when
that is positive, the gas is `r.GasUsed` when that is positive, and every other
field is the one of `tx`. -/
def gasEnriched (fetch : String → Option RpcReceipt) (tx out : RpcTransaction) : Prop :=
  ∃ r, fetch tx.Hash = some r ∧ r.Status = 1 ∧
    out.GasPrice = (if r.EffectiveGasPrice > 0 then r.EffectiveGasPrice else tx.GasPrice) ∧
    out.Gas = (if r.GasUsed > 0 then r.GasUsed else tx.Gas) ∧
    out.Hash = tx.Hash ∧ out.From = tx.From ∧ out.To = tx.To ∧ out.Input = tx.Input ∧
    out.Events = tx.Events ∧ out.TxIndex = tx.TxIndex ∧ out.BlockNumber = tx.BlockNumber ∧
    out.ChainID = tx.ChainID

/-- The two conditional overwrites `validReceiptTxs` performs on a kept
transaction, as one function of the receipt. -/
def enrichTx (r : RpcReceipt) (item : RpcTransaction) : RpcTransaction :=
  let item1 := if r.EffectiveGasPrice > 0 then { item with GasPrice := r.EffectiveGasPrice } else item
  if r.GasUsed > 0 then { item1 with Gas := r.GasUsed } else item1

/-- Specification wording: `out` is the input transaction `tx` itself, up to the two
gas fields the enricher may overwrite. -/
def sameTx (tx out : RpcTransaction) : Prop :=
  { out with Gas := tx.Gas, GasPrice := tx.GasPrice } = tx

section PipelineSpec

variable {Cache TxResult Decoder Model : Type}

/-- The block events handed to the flusher, read off an effect trace. -/
def enqueued : List (Effect TxResult Model) → List (Event Model)
  | [] => []
  | Effect.cacheUpdate _ :: rest => enqueued rest
  | Effect.enqueue ev :: rest => ev :: enqueued rest

/-- The results `UpdateCache` was called with, read off an effect trace. -/
def cacheUpdates : List (Effect TxResult Model) → List TxResult
  | [] => []
  | Effect.cacheUpdate r :: rest => r :: cacheUpdates rest
  | Effect.enqueue _ :: rest => cacheUpdates rest

/-- Specification wording: the results a transaction contributes when the cache is
`c`: those of a successful `Parse`, and none when the transaction is filtered
out or `Parse` returns an error. -/
def txResultsAt (e : Explorer Cache TxResult Decoder Model) (nd : Node Cache TxResult Decoder)
    (block : Option RpcBlock) (c : Cache) (tx : RpcTransaction) : List TxResult :=
  match e.GetProtocol e.config tx with
  | none => []
  | some (pt, md) =>
    if protocolEnabled e.EqualFold e.config md.Protocol && tickEnabled e.EqualFold e.config md.Tick then
      match nd.Parse pt c block tx md with
      | .ok rs => rs
      | .error _ => []
    else
      []

/-- Specification wording: every result returned by a successful `Parse`, in
transaction order and then in result order; each transaction is parsed against
the cache as updated by the results before it. -/
def parsedResults (e : Explorer Cache TxResult Decoder Model) (nd : Node Cache TxResult Decoder)
    (block : Option RpcBlock) : List RpcTransaction → Cache → List TxResult
  | [], _ => []
  | tx :: rest, c =>
    txResultsAt e nd block c tx ++
      parsedResults e nd block rest ((txResultsAt e nd block c tx).foldl e.UpdateCache c)

/-- Specification wording: `BuildModel r` for every result in turn, each read from the
cache right after `UpdateCache r` and before the next result is applied. -/
def modelsOf (e : Explorer Cache TxResult Decoder Model) : Cache → List TxResult → List Model
  | _, [] => []
  | c, r :: rest => e.BuildModel (e.UpdateCache c r) r :: modelsOf e (e.UpdateCache c r) rest

/-- The pipeline state and the block at the start of attempt `k` of
`handleBlock`, all the earlier attempts having gone through the loop body. -/
def stateAfter (e : Explorer Cache TxResult Decoder Model)
    (world : Nat → Node Cache TxResult Decoder) (block : RpcBlock)
    (st : PipelineState Cache TxResult Model) :
    Nat → PipelineState Cache TxResult Model × RpcBlock
  | 0 => (st, block)
  | k + 1 =>
    ((attempt e (world k) (stateAfter e world block st k).2 (stateAfter e world block st k).1).1,
      (attempt e (world k) (stateAfter e world block st k).2 (stateAfter e world block st k).1).2.1)

/-- Whether attempt `k` of `handleBlock` reaches the final `return`. -/
def attemptOk (e : Explorer Cache TxResult Decoder Model)
    (world : Nat → Node Cache TxResult Decoder) (block : RpcBlock)
    (st : PipelineState Cache TxResult Model) (k : Nat) : Bool :=
  (attempt e (world k) (stateAfter e world block st k).2 (stateAfter e world block st k).1).2.2

end PipelineSpec

/-- The statistics records of an action in a flush window, in window order:
block events in order, then their items in order. -/
def statsWindow (a : DBAction) (blocksEvents : List (Event DBModelEvent)) :
    List InscriptionsStats :=
  blocksEvents.flatMap (fun blockEvent =>
    blockEvent.Items.flatMap (fun event => (event.InscriptionStats.get a).toList))

/-- The balance snapshots of an action in a flush window, in window order:
block events, then items, then the snapshots of an item. -/
def balancesWindow (a : DBAction) (blocksEvents : List (Event DBModelEvent)) : List Balances :=
  blocksEvents.flatMap (fun blockEvent =>
    blockEvent.Items.flatMap (fun event => event.Balances.get a))

/-- The transaction rows of a flush window, in window order. -/
def txWindow (blocksEvents : List (Event DBModelEvent)) : List Transaction :=
  blocksEvents.flatMap (fun blockEvent => blockEvent.Items.map (fun event => event.Tx))

/-- The items of a flush window, in window order. -/
def windowItems (blocksEvents : List (Event DBModelEvent)) : List DBModelEvent :=
  blocksEvents.flatMap (fun blockEvent => blockEvent.Items)

/-- Specification wording: the first non-zero value of a list, 0 if there is
none. -/
def firstNonZero : List Nat → Nat
  | [] => 0
  | n :: rest => if n > 0 then n else firstNonZero rest

/-- Specification wording: the first non-null value of a list. -/
def firstSet : List (Option Int) → Option Int
  | [] => none
  | t :: rest => if t ≠ none then t else firstSet rest

/-- Specification wording: the row flushed for the records `s1..sn` of one sid:
the last record, with the three mint-lifecycle fields merged over the
sequence. -/
def mergedStats (records : List InscriptionsStats) : Option InscriptionsStats :=
  records.getLast?.map (fun sn =>
    { sn with
      MintFirstBlock := firstNonZero (records.map (fun r => r.MintFirstBlock))
      MintLastBlock := firstNonZero (records.map (fun r => r.MintLastBlock))
      MintCompletedTime := firstSet (records.map (fun r => r.MintCompletedTime)) })

/-- One keyed assignment with a merge: the value stored under the key of `x` is
`x`, combined with the value already there when there is one. -/
def putWith {K V : Type} [DecidableEq K] (key : V → K) (combine : V → V → V)
    (m : List (K × V)) (x : V) : List (K × V) :=
  match mapGet m (key x) with
  | some old => mapSet m (key x) (combine old x)
  | none => mapSet m (key x) x

/-- A run of keyed assignments, in list order. -/
def putAllWith {K V : Type} [DecidableEq K] (key : V → K) (combine : V → V → V) :
    List (K × V) → List V → List (K × V)
  | m, [] => m
  | m, x :: rest => putAllWith key combine (putWith key combine m x) rest

/-- The value a run of keyed assignments leaves under one key, from the value
there at the start and the assigned values of that key in order. -/
def mergeOpt {V : Type} (combine : V → V → V) : Option V → List V → Option V
  | o, [] => o
  | none, x :: rest => mergeOpt combine (some x) rest
  | some old, x :: rest => mergeOpt combine (some (combine old x)) rest

/-- Specification wording: `entry` is the balance event of the receive `item`:
its address and amount, the balance of that address as held in the cache, and
the create action exactly when the receive carries the `Init` flag. -/
def isReceiveEntry (cache : CacheView) (md : MetaData) (item : Receive)
    (entry : BalanceTxEvent) : Prop :=
  ∃ b, cache.Balance md.Protocol md.Tick item.Address = some b ∧
    entry =
      { Action := if item.Init then DBAction.create else DBAction.update
        SID := b.SID
        Address := item.Address
        Amount := item.Amount
        AvailableBalance := b.Available
        OverallBalance := b.Overall }

/-- The record `BuildInscriptionStat` starts from: the cached statistics under
the metadata of the result, with no mint-lifecycle field set. -/
def baseStats (e : TxResult) (d : StatsEntry) : InscriptionsStats :=
  { SID := d.SID
    Chain := e.MD.Chain
    Protocol := e.MD.Protocol
    Tick := e.MD.Tick
    Minted := d.Minted
    MintCompletedTime := none
    MintFirstBlock := 0
    MintLastBlock := 0
    Holders := toUint64 d.Holders
    TxCnt := d.TxCnt }

/-- The map `BuildInscriptionStat` returns for a record: under the create
action for a deploy, under the update action otherwise. -/
def statsMap (e : TxResult) (data : InscriptionsStats) : ByAction (Option InscriptionsStats) :=
  if e.Deploy.isSome then { create := some data, update := none }
  else { create := none, update := some data }

/-! ## Sample data -/

/-- A transaction with hash `0xa1`, no event and an input carrying the data
prefix. -/
def sampleTxA : RpcTransaction :=
  { Hash := "0xa1", From := "0xalice", To := "0xbob", Input := "0x646174613a2c7b", Events := [],
    Gas := 90000, GasPrice := 3, TxIndex := 0, BlockNumber := 11, ChainID := some 1 }

/-- A transaction with hash `0xb2`. -/
def sampleTxB : RpcTransaction :=
  { Hash := "0xb2", From := "0xbob", To := "0xcarol", Input := "0x646174613a2c7b", Events := [],
    Gas := 80000, GasPrice := 4, TxIndex := 1, BlockNumber := 11, ChainID := none }

/-- A transaction with hash `0xc3`. -/
def sampleTxC : RpcTransaction :=
  { Hash := "0xc3", From := "0xcarol", To := "0xalice", Input := "0x646174613a2c7b",
    Events := ["log"], Gas := 70000, GasPrice := 5, TxIndex := 2, BlockNumber := 11,
    ChainID := some 1 }

/-- A node holding a successful receipt for `0xa1` (gas used 21000, no
effective gas price), a failed one for `0xb2` and a successful one for `0xc3`. -/
def sampleFetch (hash : String) : Option RpcReceipt :=
  if hash = "0xa1" then some ⟨1, 0, 21000⟩
  else if hash = "0xb2" then some ⟨0, 9, 30000⟩
  else if hash = "0xc3" then some ⟨1, 8, 0⟩
  else none

/-- A transaction with hash `0xd4`, for which the sample node has no
receipt. -/
def sampleTxD : RpcTransaction :=
  { Hash := "0xd4", From := "0xdave", To := "0xalice", Input := "0x646174613a2c7b", Events := [],
    Gas := 60000, GasPrice := 6, TxIndex := 3, BlockNumber := 11, ChainID := some 1 }

/-- Block 11 with the transactions `0xa1`, `0xb2`, `0xc3`. -/
def sampleBlock : RpcBlock :=
  { Number := 11, Hash := "0xblock11", Time := 1700000000,
    Transactions := [sampleTxA, sampleTxB, sampleTxC] }

/-- Modelled from the spec: the state cache and `UpdateCache`, which are not
part of the sources at hand, reduced to the minted total of one tick: a
`TxResult` is a mint amount and `UpdateCache` is `StatsStore.addMinted(+amount)`.
A built model pairs the amount with the minted total read from the cache. Every
transaction resolves to the same decoder, no whitelist is configured, strings
are compared by `asciiEqualFold`, and an error is internal when its code is
-100. -/
def sampleExplorer : Explorer Nat Nat Unit (Nat × Nat) :=
  { config := ⟨"avalanche", "0x646174613a", 10, none⟩
    EqualFold := asciiEqualFold
    GetProtocol := fun cfg _ => some ((), ⟨cfg.ChainName, "asc-20", "dino", "mint"⟩)
    IsInternal := fun err => decide (err.Code = -100)
    UpdateCache := fun minted amount => minted + amount
    BuildModel := fun minted amount => (amount, minted) }

/-- A healthy outside world: the receipts of `sampleFetch`; `0xa1` mints 100,
`0xb2` is rejected by its decoder, `0xc3` yields two mints (40 and 2), and any
other transaction hits an internal error. -/
def sampleNode : Node Nat Nat Unit :=
  { TransactionReceipt := sampleFetch
    Parse := fun _ _ _ tx _ =>
      if tx.Hash = "0xa1" then .ok [100]
      else if tx.Hash = "0xb2" then .error ⟨-14, "mint over limit"⟩
      else if tx.Hash = "0xc3" then .ok [40, 2]
      else .error ⟨-100, "node unreachable"⟩ }

/-- An outside world whose node returns no receipt at all. -/
def sampleNodeDown : Node Nat Nat Unit :=
  { TransactionReceipt := fun _ => none
    Parse := sampleNode.Parse }

/-- An outside world with all receipts, in which decoding `0xc3` hits an
internal error. -/
def sampleNodeFlaky : Node Nat Nat Unit :=
  { TransactionReceipt := sampleFetch
    Parse := fun _ _ _ tx _ =>
      if tx.Hash = "0xa1" then .ok [100]
      else .error ⟨-100, "store unreachable"⟩ }

/-- The node is down during attempt 0, decoding is flaky during attempt 1, and
everything works from attempt 2 on. -/
def sampleWorld : Nat → Node Nat Nat Unit
  | 0 => sampleNodeDown
  | 1 => sampleNodeFlaky
  | _ => sampleNode

/-- Block 0 with one transaction. -/
def sampleGenesis : RpcBlock :=
  { Number := 0, Hash := "0xblock0", Time := 1600000000, Transactions := [sampleTxA] }

/-- A transaction row with the given hash bytes, for the sample window. -/
def sampleRow (hash : List (Fin 256)) (op : String) (amount : Decimal) : Transaction :=
  { ChainId := 0, Protocol := "asc-20", Chain := "avalanche", BlockHeight := 11,
    PositionInBlock := 0, BlockTime := 1700000000, TxHash := hash, From := "0xalice",
    To := "0xbob", Op := op, Tick := "dino", Amount := amount, Gas := 21000, GasPrice := 3 }

/-- A balance snapshot for the sample window. -/
def sampleBalance (sid : Nat) (address : String) (overall : Decimal) : Balances :=
  { SID := sid, Chain := "avalanche", Protocol := "asc-20", Address := address, Tick := "dino",
    Available := overall, Balance := overall }

/-- A balance journal row for the sample window. -/
def sampleBalanceTxn (address : String) (amount : Decimal) : BalanceTxn :=
  { Chain := "avalanche", Protocol := "asc-20", Event := 3, Address := address, Tick := "dino",
    Amount := amount, Available := 0, Balance := 0, TxHash := [0xcc], CreatedAt := 1700000000 }

/-- An address journal row for the sample window. -/
def sampleAddressTx (address related : String) (amount : Decimal) : AddressTxs :=
  { Event := 3, TxHash := [0xcc], Address := address, RelatedAddress := related,
    Amount := amount, Tick := "dino", Protocol := "asc-20", Operate := "transfer",
    Chain := "avalanche", CreatedAt := 1700000000 }

/-- A statistics record of sid 7 for the sample window. -/
def sampleStats (minted : Decimal) (first last : Nat) (completed : Option Int) :
    InscriptionsStats :=
  { SID := 7, Chain := "avalanche", Protocol := "asc-20", Tick := "dino", Minted := minted,
    MintCompletedTime := completed, MintFirstBlock := first, MintLastBlock := last,
    Holders := 2, TxCnt := 5 }

/-- A flush window of two block events. Block 11 holds a mint (first mint of
the tick, at block 50 of its history) and block 12 a transfer with two receives
followed by a second event of the same transaction. -/
def sampleWindow : List (Event DBModelEvent) :=
  [ { Chain := "avalanche", BlockNum := 11, BlockTime := 1700000000, BlockHash := "0xblock11",
      ChainId := 0,
      Items := [
        { Tx := sampleRow [0xaa] "mint" 100
          Inscriptions := ⟨none, none⟩
          InscriptionStats := ⟨none, some (sampleStats 100 50 0 none)⟩
          Balances := ⟨[sampleBalance 1 "0xalice" 100], []⟩
          AddressTxs := [sampleAddressTx "0xalice" "" 100]
          BalanceTxs := [sampleBalanceTxn "0xalice" 100] }] },
    { Chain := "avalanche", BlockNum := 12, BlockTime := 1700000012, BlockHash := "0xblock12",
      ChainId := 0,
      Items := [
        { Tx := sampleRow [0xcc] "transfer" 50
          Inscriptions := ⟨none, none⟩
          InscriptionStats := ⟨none, some (sampleStats 1000 0 100 (some 1700000012))⟩
          Balances := ⟨[sampleBalance 2 "0xbob" 30, sampleBalance 3 "0xcarol" 20],
            [sampleBalance 1 "0xalice" 50]⟩
          AddressTxs := [sampleAddressTx "0xalice" "" (-50), sampleAddressTx "0xbob" "0xalice" 30,
            sampleAddressTx "0xcarol" "0xalice" 20]
          BalanceTxs := [sampleBalanceTxn "0xalice" (-50), sampleBalanceTxn "0xbob" 30,
            sampleBalanceTxn "0xcarol" 20] },
        { Tx := sampleRow [0xcc] "transfer" 5
          Inscriptions := ⟨none, none⟩
          InscriptionStats := ⟨none, none⟩
          Balances := ⟨[], [sampleBalance 1 "0xalice" 45, sampleBalance 2 "0xbob" 35]⟩
          AddressTxs := []
          BalanceTxs := [] }] } ]

/-- A flush window in which two updates of sid 7 both carry a completion
time: 1000 in block 11 and 2000 in block 12. -/
def sampleDoneWindow : List (Event DBModelEvent) :=
  [ { Chain := "avalanche", BlockNum := 11, BlockTime := 1000, BlockHash := "0xblock11",
      ChainId := 0,
      Items := [
        { Tx := sampleRow [0xaa] "mint" 100
          Inscriptions := ⟨none, none⟩
          InscriptionStats := ⟨none, some (sampleStats 1000 11 11 (some 1000))⟩
          Balances := ⟨[], []⟩
          AddressTxs := []
          BalanceTxs := [] }] },
    { Chain := "avalanche", BlockNum := 12, BlockTime := 2000, BlockHash := "0xblock12",
      ChainId := 0,
      Items := [
        { Tx := sampleRow [0xbb] "mint" 0
          Inscriptions := ⟨none, none⟩
          InscriptionStats := ⟨none, some (sampleStats 1000 0 12 (some 2000))⟩
          Balances := ⟨[], []⟩
          AddressTxs := []
          BalanceTxs := [] }] } ]

/-- A state cache holding, for every tick, an inscription of total supply
1000 and statistics with the given minted total, and for every address but
`0xnobody` a balance of the given amount. -/
def sampleCache (minted overall : Decimal) : CacheView :=
  { Inscription := fun _ _ => some ⟨7, 1000⟩
    InscriptionStats := fun _ _ => some ⟨7, minted, 2, 5⟩
    Balance := fun _ _ address =>
      if address = "0xnobody" then none
      else if address = "0xalice" then some ⟨1, overall, overall⟩
      else if address = "0xbob" then some ⟨2, 30, 30⟩
      else some ⟨3, 20, 20⟩ }

/-- A mint result of the given amount in block 11. -/
def sampleMintResult (amount : Decimal) (init : Bool) : TxResult :=
  { MD := ⟨"avalanche", "asc-20", "dino", "mint"⟩
    Block := sampleBlock
    Tx := sampleTxA
    Deploy := none
    Mint := some ⟨"0xalice", amount, init⟩
    Transfer := none }

/-- A transfer result from `0xalice` to `0xbob` (30, new balance) and
`0xcarol` (20). -/
def sampleTransferResult : TxResult :=
  { MD := ⟨"avalanche", "asc-20", "dino", "transfer"⟩
    Block := sampleBlock
    Tx := sampleTxC
    Deploy := none
    Mint := none
    Transfer := some ⟨"0xalice", [⟨"0xbob", 30, true⟩, ⟨"0xcarol", 20, false⟩]⟩ }

/-- The balance events of `sampleTransferResult` against a cache in which
`0xalice` holds 50. -/
def sampleTransferEvents : List BalanceTxEvent :=
  [ ⟨.update, 1, "0xalice", -(0 + 30 + 20), 50, 50⟩,
    ⟨.create, 2, "0xbob", 30, 30, 30⟩,
    ⟨.update, 3, "0xcarol", 20, 20, 20⟩ ]

/-- A deploy result of the tick `dino` in block 11, sent by `0xbob` in a
transaction without chain id. -/
def sampleDeployResult : TxResult :=
  { MD := ⟨"avalanche", "asc-20", "dino", "deploy"⟩
    Block := sampleBlock
    Tx := sampleTxB
    Deploy := some ⟨"Dino", 1000, 100, 8⟩
    Mint := none
    Transfer := none }

/-- A mint result whose transaction carries the chain id 2^64 + 1, which does
not fit a signed 64-bit integer. -/
def sampleBigChainResult : TxResult :=
  { MD := ⟨"avalanche", "asc-20", "dino", "mint"⟩
    Block := sampleBlock
    Tx := { sampleTxA with ChainID := some 18446744073709551617 }
    Deploy := none
    Mint := some ⟨"0xbob", 100, false⟩
    Transfer := none }

/-- A transfer result from `0xalice` to the single recipient `0xbob`. -/
def sampleSingleTransfer : TxResult :=
  { MD := ⟨"avalanche", "asc-20", "dino", "transfer"⟩
    Block := sampleBlock
    Tx := sampleTxC
    Deploy := none
    Mint := none
    Transfer := some ⟨"0xalice", [⟨"0xbob", 40, false⟩]⟩ }

/-- A note store with the note `0xMINT1` of 40 owned by `0xalice` and the note
`0xMINT2` of 10 owned by `0xcarol`. -/
def sampleUtxo : List (String × UTXOItem) :=
  UTXO.Add (UTXO.Add [] "asc-20" "dino" "0xMINT1" "0xalice" 40)
    "asc-20" "dino" "0xMINT2" "0xcarol" 10

/-- A read service over an association-list cache and a store holding the
hash-transfer inscription `dino`, the balances of `0xalice` (50) and `0xbob`
(30), and one note of 40 owned by `0xalice`. Its `ToLower` lower-cases the
ASCII letters, which is what `strings.ToLower` does on the ASCII strings of the
sample. -/
def sampleService : Service (List (String × CacheValue)) :=
  { ToLower := fun s => ⟨s.data.map Char.toLower⟩
    CacheGet := mapGet
    CacheSet := mapSet
    FindInscriptionByTick := fun _ _ tick =>
      if tick = "dino" then
        .ok (some ⟨7, "avalanche", "asc-20", "dino", "Dino", 100, 1000, "0xbob", "0xb2",
          1700000000, 1, 8⟩)
      else .ok none
    FindUserBalanceByTick := fun _ _ _ address =>
      if address = "0xalice" then .ok (some ⟨1, "avalanche", "asc-20", "0xalice", "dino", 50, 50⟩)
      else if address = "0xbob" then .ok (some ⟨2, "avalanche", "asc-20", "0xbob", "dino", 30, 30⟩)
      else .ok none
    GetUtxosByAddress := fun address _ _ _ =>
      if address = "0xalice" then .ok [⟨"dino", 40, "0xMINT1"⟩] else .ok []
    DecimalString := fun d =>
      if d = 50 then "50" else if d = 40 then "40" else if d = 30 then "30" else "?" }

/-- The response of the sample service for `0xalice`. -/
def sampleBrief : BalanceBrief :=
  { Tick := "dino", TransferType := 1, DeployHash := "0xb2", Balance := "50",
    Utxos := [⟨"dino", "40", "0xMINT1"⟩] }

/-! ## Fast check and extraction: properties -/

theorem hasPrefix_iff (s p : String) : HasPrefix s p = true ↔ ∃ t : String, s = p ++ t := by
  unfold HasPrefix
  rw [List.isPrefixOf_iff_prefix]
  constructor
  · rintro ⟨t, ht⟩
    exact ⟨⟨t⟩, String.ext (by simp [String.data_append, ht])⟩
  · rintro ⟨t, rfl⟩
    exact ⟨t.data, by simp [String.data_append]⟩

theorem extractLoop_eq (cfg : Config) (l txs : List RpcTransaction) :
    extractLoop cfg l txs = txs ++ l.filter (fastChecking cfg) := by
  induction l generalizing txs with
  | nil => simp [extractLoop]
  | cons tx rest ih =>
    by_cases h : fastChecking cfg tx = true
    · simp [extractLoop, h, ih]
    · simp [extractLoop, h, ih]

/-- C7: `fastChecking` accepts a transaction exactly when it has an event or
its input begins with "0x" and with the data prefix; `extractTxsFromBlock`
returns the transactions of the block that pass it, in block order, and the
empty list for a nil or an empty block. -/
theorem fastChecking_extract_spec (cfg : Config) :
    (∀ tx : RpcTransaction, fastChecking cfg tx = true ↔
      (0 < tx.Events.length ∨
        ((∃ t : String, tx.Input = "0x" ++ t) ∧ ∃ t : String, tx.Input = cfg.DataPrefix ++ t))) ∧
    (∀ b : RpcBlock,
      extractTxsFromBlock cfg (some b) = b.Transactions.filter (fastChecking cfg)) ∧
    extractTxsFromBlock cfg none = [] ∧
    (∀ (n : Nat) (h : String) (t : Nat), extractTxsFromBlock cfg (some ⟨n, h, t, []⟩) = []) := by
  refine ⟨?_, ?_, rfl, ?_⟩
  · intro tx
    rw [← hasPrefix_iff, ← hasPrefix_iff]
    unfold fastChecking
    by_cases hev : tx.Events.length > 0
    · simp [hev]
    · have hev0 : ¬ 0 < tx.Events.length := hev
      by_cases h0 : HasPrefix tx.Input "0x" = true
      · by_cases h1 : HasPrefix tx.Input cfg.DataPrefix = true
        · simp [hev0, h0, h1]
        · simp [hev0, h0, h1]
      · simp [hev0, h0]
  · intro b
    unfold extractTxsFromBlock
    by_cases hl : b.Transactions.length = 0
    · have : b.Transactions = [] := List.length_eq_zero.mp hl
      simp [this]
    · simp [hl, extractLoop_eq]
  · intro n h t
    simp [extractTxsFromBlock]

/-! ## Whitelist: properties -/

theorem asciiEqualFold_iff (s t : String) :
    asciiEqualFold s t = true ↔ s.toLower = t.toLower := by
  unfold asciiEqualFold String.toLower
  rw [String.map_eq, String.map_eq]
  constructor
  · intro h
    have := eq_of_beq h
    rw [this]
  · intro h
    have hd := congrArg String.data h
    simp only at hd
    rw [hd]
    exact beq_self_eq_true _

theorem anyEqualFold_iff (EqualFold : String → String → Bool) (s : String) (l : List String) :
    anyEqualFold EqualFold s l = true ↔ ∃ v ∈ l, EqualFold v s = true := by
  induction l with
  | nil => simp [anyEqualFold]
  | cons v rest ih =>
    by_cases h : EqualFold v s = true
    · simp [anyEqualFold, h]
    · simp [anyEqualFold, h, ih]

/-- C8: `protocolEnabled` is true for every protocol when the filters, the
whitelist or the protocol list is absent or empty, and otherwise exactly when
some entry `w` of the protocol list equals the protocol `p` ignoring letter
case, that is `strings.EqualFold(w, p)`, whatever folding the library
function computes; `tickEnabled` is the same over the tick list. -/
theorem whitelist_enabled_spec (EqualFold : String → String → Bool) (chain dataPfx : String)
    (scan : Nat) (s : String) :
    (protocolEnabled EqualFold ⟨chain, dataPfx, scan, none⟩ s = true ∧
      tickEnabled EqualFold ⟨chain, dataPfx, scan, none⟩ s = true) ∧
    (protocolEnabled EqualFold ⟨chain, dataPfx, scan, some ⟨none⟩⟩ s = true ∧
      tickEnabled EqualFold ⟨chain, dataPfx, scan, some ⟨none⟩⟩ s = true) ∧
    (∀ other : List String,
      protocolEnabled EqualFold ⟨chain, dataPfx, scan, some ⟨some ⟨[], other⟩⟩⟩ s = true ∧
      tickEnabled EqualFold ⟨chain, dataPfx, scan, some ⟨some ⟨other, []⟩⟩⟩ s = true) ∧
    (∀ (v : String) (vs other : List String),
      (protocolEnabled EqualFold ⟨chain, dataPfx, scan, some ⟨some ⟨v :: vs, other⟩⟩⟩ s = true ↔
        ∃ w ∈ v :: vs, EqualFold w s = true) ∧
      (tickEnabled EqualFold ⟨chain, dataPfx, scan, some ⟨some ⟨other, v :: vs⟩⟩⟩ s = true ↔
        ∃ w ∈ v :: vs, EqualFold w s = true)) := by
  refine ⟨⟨rfl, rfl⟩, ⟨rfl, rfl⟩, fun other => ⟨rfl, rfl⟩, fun v vs other => ⟨?_, ?_⟩⟩
  · rw [← anyEqualFold_iff]
    simp [protocolEnabled]
  · rw [← anyEqualFold_iff]
    simp [tickEnabled]

theorem whitelist_enabled_spec_witness :
    (protocolEnabled asciiEqualFold
        ⟨"avalanche", "0x646174613a", 10, some ⟨some ⟨["ASC-20", "brc-20"], ["dino"]⟩⟩⟩
        "asc-20" = true ↔
      ∃ w ∈ ["ASC-20", "brc-20"], asciiEqualFold w "asc-20" = true) ∧
    (tickEnabled asciiEqualFold
        ⟨"avalanche", "0x646174613a", 10, some ⟨some ⟨["ASC-20", "brc-20"], ["dino"]⟩⟩⟩
        "cat" = true ↔
      ∃ w ∈ ["dino"], asciiEqualFold w "cat" = true) ∧
    protocolEnabled asciiEqualFold
      ⟨"avalanche", "0x646174613a", 10, some ⟨some ⟨["ASC-20", "brc-20"], ["dino"]⟩⟩⟩
      "asc-20" = true ∧
    tickEnabled asciiEqualFold
      ⟨"avalanche", "0x646174613a", 10, some ⟨some ⟨["ASC-20", "brc-20"], ["dino"]⟩⟩⟩
      "cat" = false :=
  ⟨((whitelist_enabled_spec asciiEqualFold "avalanche" "0x646174613a" 10 "asc-20").2.2.2
      "ASC-20" ["brc-20"] ["dino"]).1,
    ((whitelist_enabled_spec asciiEqualFold "avalanche" "0x646174613a" 10 "cat").2.2.2
      "dino" [] ["ASC-20", "brc-20"]).2,
    by rfl, by rfl⟩

/-! ## Protocol filter: properties -/

theorem tryFilterLoop_eq {Cache TxResult Decoder Model : Type}
    (e : Explorer Cache TxResult Decoder Model) (l validTxs : List RpcTransaction) :
    tryFilterLoop e l validTxs = validTxs ++ l.filter (passesFilter e) := by
  induction l generalizing validTxs with
  | nil => simp [tryFilterLoop]
  | cons tx rest ih =>
    unfold tryFilterLoop
    cases hg : e.GetProtocol e.config tx with
    | none => simp [passesFilter, hg, ih]
    | some pm =>
      obtain ⟨pt, md⟩ := pm
      by_cases hp : protocolEnabled e.EqualFold e.config md.Protocol = true
      · by_cases ht : tickEnabled e.EqualFold e.config md.Tick = true
        · simp [passesFilter, hg, hp, ht, ih]
        · simp [passesFilter, hg, hp, ht, ih]
      · simp [passesFilter, hg, hp, ih]

/-- C9: `tryFilterTxs` returns, in input order, exactly the transactions for
which the registry finds a decoder and whose protocol and tick are both
enabled; applying it twice gives the same list as applying it once. -/
theorem tryFilterTxs_spec {Cache TxResult Decoder Model : Type}
    (e : Explorer Cache TxResult Decoder Model) (txs : List RpcTransaction) :
    tryFilterTxs e txs = txs.filter (passesFilter e) ∧
    (∀ tx : RpcTransaction, passesFilter e tx = true ↔
      ∃ pt md, e.GetProtocol e.config tx = some (pt, md) ∧
        protocolEnabled e.EqualFold e.config md.Protocol = true ∧ tickEnabled e.EqualFold e.config md.Tick = true) ∧
    List.Sublist (tryFilterTxs e txs) txs ∧
    tryFilterTxs e (tryFilterTxs e txs) = tryFilterTxs e txs := by
  have heq : ∀ l, tryFilterTxs e l = l.filter (passesFilter e) := by
    intro l
    simp [tryFilterTxs, tryFilterLoop_eq]
  refine ⟨heq txs, ?_, ?_, ?_⟩
  · intro tx
    unfold passesFilter
    cases hg : e.GetProtocol e.config tx with
    | none => simp
    | some pm =>
      obtain ⟨pt, md⟩ := pm
      constructor
      · intro h
        have h2 := Bool.and_eq_true_iff.mp h
        exact ⟨pt, md, rfl, h2.1, h2.2⟩
      · rintro ⟨pt1, md1, heq1, hp, ht⟩
        have hmd : md = md1 := congrArg Prod.snd (Option.some.inj heq1)
        subst hmd
        exact Bool.and_eq_true_iff.mpr ⟨hp, ht⟩
  · rw [heq]
    exact List.filter_sublist txs
  · rw [heq, heq, List.filter_filter]
    simp

/-! ## Receipt enricher: properties -/

theorem mem_txHashList (items : List RpcTransaction) (acc : List String) (h : String) :
    h ∈ txHashList items acc ↔ h ∈ acc ∨ ∃ tx ∈ items, tx.Hash = h := by
  induction items generalizing acc with
  | nil => simp [txHashList]
  | cons item rest ih =>
    unfold txHashList
    by_cases hm : item.Hash ∈ acc
    · rw [if_pos hm, ih]
      constructor
      · rintro (h1 | ⟨tx, htx, rfl⟩)
        · exact Or.inl h1
        · exact Or.inr ⟨tx, List.mem_cons_of_mem _ htx, rfl⟩
      · rintro (h1 | ⟨tx, htx, rfl⟩)
        · exact Or.inl h1
        · rcases List.mem_cons.mp htx with rfl | htx
          · exact Or.inl hm
          · exact Or.inr ⟨tx, htx, rfl⟩
    · rw [if_neg hm, ih]
      constructor
      · rintro (h1 | ⟨tx, htx, rfl⟩)
        · rcases List.mem_append.mp h1 with h2 | h2
          · exact Or.inl h2
          · exact Or.inr ⟨item, List.mem_cons_self _ _, (List.mem_singleton.mp h2).symm⟩
        · exact Or.inr ⟨tx, List.mem_cons_of_mem _ htx, rfl⟩
      · rintro (h1 | ⟨tx, htx, rfl⟩)
        · exact Or.inl (List.mem_append.mpr (Or.inl h1))
        · rcases List.mem_cons.mp htx with rfl | htx
          · exact Or.inl (List.mem_append.mpr (Or.inr (List.mem_singleton.mpr rfl)))
          · exact Or.inr ⟨tx, htx, rfl⟩

theorem receiptsLoad_receiptsMap (fetch : String → Option RpcReceipt) (hs : List String)
    (h : String) :
    receiptsLoad (receiptsMap fetch hs) h = if h ∈ hs then fetch h else none := by
  induction hs with
  | nil => simp [receiptsMap, receiptsLoad]
  | cons x rest ih =>
    unfold receiptsLoad at ih ⊢
    unfold receiptsMap
    by_cases hx : h = x
    · subst hx
      cases hf : fetch h with
      | none =>
        simp only [ih, hf]
        simp
      | some r => simp [List.lookup_cons]
    · have hbeq : (h == x) = false := by simpa using hx
      cases hf : fetch x with
      | none => simp [ih, hx]
      | some r => simp [List.lookup_cons, hbeq, ih, hx]

theorem receiptsLoad_validReceiptTxs (fetch : String → Option RpcReceipt)
    (items : List RpcTransaction) (tx : RpcTransaction) (htx : tx ∈ items) :
    receiptsLoad (receiptsMap fetch (txHashList items [])) tx.Hash = fetch tx.Hash := by
  rw [receiptsLoad_receiptsMap]
  have : tx.Hash ∈ txHashList items [] :=
    (mem_txHashList items [] tx.Hash).mpr (Or.inr ⟨tx, htx, rfl⟩)
  simp [this]

theorem validReceiptLoop_error (fetch : String → Option RpcReceipt)
    (m : List (String × RpcReceipt)) (l results : List RpcTransaction)
    (hm : ∀ tx ∈ l, receiptsLoad m tx.Hash = fetch tx.Hash)
    (hmiss : ∃ tx ∈ l, fetch tx.Hash = none) :
    ∃ tx ∈ l, fetch tx.Hash = none ∧
      validReceiptLoop m l results = .error ⟨-100, "get tx[" ++ tx.Hash ++ "] receipt nil"⟩ := by
  induction l generalizing results with
  | nil =>
    obtain ⟨tx, htx, _⟩ := hmiss
    cases htx
  | cons item rest ih =>
    have hitem := hm item (List.mem_cons_self _ _)
    have hrest : ∀ tx ∈ rest, receiptsLoad m tx.Hash = fetch tx.Hash :=
      fun tx htx => hm tx (List.mem_cons_of_mem _ htx)
    cases hf : fetch item.Hash with
    | none =>
      refine ⟨item, List.mem_cons_self _ _, hf, ?_⟩
      simp [validReceiptLoop, hitem, hf]
    | some r =>
      have hmiss1 : ∃ tx ∈ rest, fetch tx.Hash = none := by
        obtain ⟨tx, htx, hnone⟩ := hmiss
        rcases List.mem_cons.mp htx with rfl | htx
        · rw [hf] at hnone
          cases hnone
        · exact ⟨tx, htx, hnone⟩
      by_cases hs : r.Status = 1
      · obtain ⟨tx, htx, hnone, heq⟩ := ih _ hrest hmiss1
        refine ⟨tx, List.mem_cons_of_mem _ htx, hnone, ?_⟩
        simp only [validReceiptLoop, hitem, hf, hs]
        simpa using heq
      · obtain ⟨tx, htx, hnone, heq⟩ := ih results hrest hmiss1
        refine ⟨tx, List.mem_cons_of_mem _ htx, hnone, ?_⟩
        simp only [validReceiptLoop, hitem, hf]
        simpa [hs] using heq

theorem validReceiptLoop_keep (m : List (String × RpcReceipt)) (item : RpcTransaction)
    (rest results : List RpcTransaction) (r : RpcReceipt)
    (hload : receiptsLoad m item.Hash = some r) (hs : r.Status = 1) :
    validReceiptLoop m (item :: rest) results =
      validReceiptLoop m rest (results ++ [enrichTx r item]) := by
  simp only [validReceiptLoop, hload, enrichTx]
  simp [hs]

theorem validReceiptLoop_ok (fetch : String → Option RpcReceipt)
    (m : List (String × RpcReceipt)) (l results : List RpcTransaction)
    (hm : ∀ tx ∈ l, receiptsLoad m tx.Hash = fetch tx.Hash)
    (hall : ∀ tx ∈ l, fetch tx.Hash ≠ none) :
    ∃ kept, validReceiptLoop m l results = .ok (results ++ kept) ∧
      List.Forall₂ (gasEnriched fetch) (l.filter (receiptSucceeded fetch)) kept := by
  induction l generalizing results with
  | nil => exact ⟨[], by simp [validReceiptLoop], by simp⟩
  | cons item rest ih =>
    have hitem := hm item (List.mem_cons_self _ _)
    have hrest : ∀ tx ∈ rest, receiptsLoad m tx.Hash = fetch tx.Hash :=
      fun tx htx => hm tx (List.mem_cons_of_mem _ htx)
    have hall1 : ∀ tx ∈ rest, fetch tx.Hash ≠ none :=
      fun tx htx => hall tx (List.mem_cons_of_mem _ htx)
    cases hf : fetch item.Hash with
    | none => exact absurd hf (hall item (List.mem_cons_self _ _))
    | some r =>
      by_cases hs : r.Status = 1
      · obtain ⟨kept, heq, hrel⟩ := ih (results ++ [enrichTx r item]) hrest hall1
        refine ⟨enrichTx r item :: kept, ?_, ?_⟩
        · rw [validReceiptLoop_keep m item rest results r (hitem.trans hf) hs, heq]
          simp
        · have hsucc : receiptSucceeded fetch item = true := by
            simp [receiptSucceeded, hf, hs]
          rw [List.filter_cons_of_pos hsucc]
          refine List.Forall₂.cons ?_ hrel
          refine ⟨r, hf, hs, ?_⟩
          unfold enrichTx
          by_cases hg : r.GasUsed > 0 <;> by_cases hp : r.EffectiveGasPrice > 0 <;>
            simp [hg, hp]
      · obtain ⟨kept, heq, hrel⟩ := ih results hrest hall1
        refine ⟨kept, ?_, ?_⟩
        · simp only [validReceiptLoop, hitem, hf]
          simpa [hs] using heq
        · have hsucc : ¬ receiptSucceeded fetch item = true := by
            simp [receiptSucceeded, hf, hs]
          rw [List.filter_cons_of_neg hsucc]
          exact hrel

theorem validReceiptTxs_ok (fetch : String → Option RpcReceipt) (items : List RpcTransaction)
    (hall : ∀ tx ∈ items, fetch tx.Hash ≠ none) :
    ∃ out, validReceiptTxs fetch items = .ok out ∧
      List.Forall₂ (gasEnriched fetch) (items.filter (receiptSucceeded fetch)) out := by
  obtain ⟨kept, heq, hrel⟩ := validReceiptLoop_ok fetch _ items []
    (fun tx htx => receiptsLoad_validReceiptTxs fetch items tx htx) hall
  exact ⟨kept, by simpa [validReceiptTxs] using heq, hrel⟩

/-- C4: `validReceiptTxs` returns an error, and with it no transaction list,
exactly when some input transaction has no fetched receipt; the error then
carries code -100 and names such a transaction. -/
theorem validReceiptTxs_error_iff (fetch : String → Option RpcReceipt)
    (items : List RpcTransaction) :
    ((∃ err, validReceiptTxs fetch items = .error err) ↔
      ∃ tx ∈ items, fetch tx.Hash = none) ∧
    ((∃ out, validReceiptTxs fetch items = .ok out) ↔
      ∀ tx ∈ items, fetch tx.Hash ≠ none) ∧
    (∀ err, validReceiptTxs fetch items = .error err →
      ∃ tx ∈ items, fetch tx.Hash = none ∧
        err = ⟨-100, "get tx[" ++ tx.Hash ++ "] receipt nil"⟩) := by
  have herr : (∃ tx ∈ items, fetch tx.Hash = none) →
      ∃ tx ∈ items, fetch tx.Hash = none ∧
        validReceiptTxs fetch items = .error ⟨-100, "get tx[" ++ tx.Hash ++ "] receipt nil"⟩ :=
    fun hmiss => validReceiptLoop_error fetch _ items []
      (fun tx htx => receiptsLoad_validReceiptTxs fetch items tx htx) hmiss
  have hdich : (∃ tx ∈ items, fetch tx.Hash = none) ∨ ∀ tx ∈ items, fetch tx.Hash ≠ none := by
    by_cases h : ∃ tx ∈ items, fetch tx.Hash = none
    · exact Or.inl h
    · right
      intro tx htx hnone
      exact h ⟨tx, htx, hnone⟩
  refine ⟨⟨?_, ?_⟩, ⟨?_, ?_⟩, ?_⟩
  · rintro ⟨err, he⟩
    rcases hdich with h | h
    · exact h
    · obtain ⟨out, ho, _⟩ := validReceiptTxs_ok fetch items h
      rw [ho] at he
      cases he
  · intro hmiss
    obtain ⟨tx, _, _, he⟩ := herr hmiss
    exact ⟨_, he⟩
  · rintro ⟨out, ho⟩ tx htx hnone
    obtain ⟨tx1, _, _, he⟩ := herr ⟨tx, htx, hnone⟩
    rw [ho] at he
    cases he
  · intro hall
    obtain ⟨out, ho, _⟩ := validReceiptTxs_ok fetch items hall
    exact ⟨out, ho⟩
  · intro err he
    rcases hdich with h | h
    · obtain ⟨tx, htx, hnone, he1⟩ := herr h
      rw [he1] at he
      exact ⟨tx, htx, hnone, (Except.error.inj he).symm⟩
    · obtain ⟨out, ho, _⟩ := validReceiptTxs_ok fetch items h
      rw [ho] at he
      cases he

theorem validReceiptTxs_ok_inv (fetch : String → Option RpcReceipt)
    (items out : List RpcTransaction) (h : validReceiptTxs fetch items = .ok out) :
    (∀ tx ∈ items, fetch tx.Hash ≠ none) ∧
      List.Forall₂ (gasEnriched fetch) (items.filter (receiptSucceeded fetch)) out := by
  have hall : ∀ tx ∈ items, fetch tx.Hash ≠ none := by
    intro tx htx hnone
    obtain ⟨tx1, _, _, he⟩ := validReceiptLoop_error fetch
      (receiptsMap fetch (txHashList items [])) items []
      (fun tx htx => receiptsLoad_validReceiptTxs fetch items tx htx) ⟨tx, htx, hnone⟩
    unfold validReceiptTxs at h
    rw [he] at h
    cases h
  obtain ⟨out1, ho, hrel⟩ := validReceiptTxs_ok fetch items hall
  rw [ho] at h
  cases h
  exact ⟨hall, hrel⟩

theorem gasEnriched_sameTx (fetch : String → Option RpcReceipt) (tx out : RpcTransaction)
    (h : gasEnriched fetch tx out) : sameTx tx out := by
  obtain ⟨r, _, _, _, _, h1, h2, h3, h4, h5, h6, h7, h8⟩ := h
  unfold sameTx
  cases tx
  cases out
  simp at h1 h2 h3 h4 h5 h6 h7 h8
  simp [h1, h2, h3, h4, h5, h6, h7, h8]

theorem forall₂_map_hash (l out : List RpcTransaction)
    (h : List.Forall₂ (fun tx o : RpcTransaction => o.Hash = tx.Hash) l out) :
    out.map (fun tx => tx.Hash) = l.map (fun tx => tx.Hash) := by
  induction h with
  | nil => rfl
  | cons h _ ih => simp [h, ih]

theorem forall₂_mem_right {α β : Type} (R : α → β → Prop) (l : List α) (out : List β)
    (h : List.Forall₂ R l out) : ∀ o ∈ out, ∃ a ∈ l, R a o := by
  induction h with
  | nil => intro o ho; cases ho
  | cons hab _ ih =>
    intro o ho
    rcases List.mem_cons.mp ho with rfl | ho
    · exact ⟨_, List.mem_cons_self _ _, hab⟩
    · obtain ⟨a, ha, hr⟩ := ih o ho
      exact ⟨a, List.mem_cons_of_mem _ ha, hr⟩

/-- C5: when every input transaction has a fetched receipt, `validReceiptTxs`
returns the input transactions whose receipt status is 1, each once, in input
order, and drops all the others. -/
theorem validReceiptTxs_keeps_status_one (fetch : String → Option RpcReceipt)
    (items : List RpcTransaction) (hall : ∀ tx ∈ items, fetch tx.Hash ≠ none) :
    ∃ out, validReceiptTxs fetch items = .ok out ∧
      List.Forall₂ sameTx (items.filter (receiptSucceeded fetch)) out ∧
      out.length = (items.filter (receiptSucceeded fetch)).length ∧
      out.map (fun tx => tx.Hash) = (items.filter (receiptSucceeded fetch)).map (fun tx => tx.Hash) ∧
      ∀ tx, receiptSucceeded fetch tx = true ↔ ∃ r, fetch tx.Hash = some r ∧ r.Status = 1 := by
  obtain ⟨out, ho, hrel⟩ := validReceiptTxs_ok fetch items hall
  have hsame : List.Forall₂ sameTx (items.filter (receiptSucceeded fetch)) out :=
    hrel.imp (fun tx o h => gasEnriched_sameTx fetch tx o h)
  refine ⟨out, ho, hsame, hsame.length_eq.symm, ?_, ?_⟩
  · have hh : List.Forall₂ (fun tx o : RpcTransaction => o.Hash = tx.Hash)
        (items.filter (receiptSucceeded fetch)) out :=
      hrel.imp (fun tx o h => by
        obtain ⟨r, _, _, _, _, h1, _⟩ := h
        exact h1)
    exact forall₂_map_hash _ _ hh
  · intro tx
    unfold receiptSucceeded
    cases hf : fetch tx.Hash with
    | none => simp
    | some r => simp

theorem validReceiptTxs_keeps_status_one_witness :
    (∀ tx ∈ [sampleTxA, sampleTxB, sampleTxC], sampleFetch tx.Hash ≠ none) ∧
    ∃ out, validReceiptTxs sampleFetch [sampleTxA, sampleTxB, sampleTxC] = .ok out ∧
      List.Forall₂ sameTx ([sampleTxA, sampleTxB, sampleTxC].filter (receiptSucceeded sampleFetch)) out ∧
      out.length = ([sampleTxA, sampleTxB, sampleTxC].filter (receiptSucceeded sampleFetch)).length ∧
      out.map (fun tx => tx.Hash) =
        ([sampleTxA, sampleTxB, sampleTxC].filter (receiptSucceeded sampleFetch)).map
          (fun tx => tx.Hash) ∧
      ∀ tx, receiptSucceeded sampleFetch tx = true ↔
        ∃ r, sampleFetch tx.Hash = some r ∧ r.Status = 1 :=
  ⟨by decide, validReceiptTxs_keeps_status_one sampleFetch [sampleTxA, sampleTxB, sampleTxC]
    (by decide)⟩

/-- C6: every transaction kept by `validReceiptTxs` has its gas set to the
receipt's `GasUsed` when that is positive and left as it was otherwise, its gas
price set to the receipt's `EffectiveGasPrice` when that is positive and left as
it was otherwise, and all its other fields untouched. -/
theorem validReceiptTxs_gas_frame (fetch : String → Option RpcReceipt)
    (items out : List RpcTransaction) (h : validReceiptTxs fetch items = .ok out) :
    List.Forall₂ (gasEnriched fetch) (items.filter (receiptSucceeded fetch)) out ∧
    ∀ o ∈ out, ∃ tx ∈ items, ∃ r, fetch tx.Hash = some r ∧ r.Status = 1 ∧
      o = { tx with
        Gas := if r.GasUsed > 0 then r.GasUsed else tx.Gas
        GasPrice := if r.EffectiveGasPrice > 0 then r.EffectiveGasPrice else tx.GasPrice } := by
  obtain ⟨_, hrel⟩ := validReceiptTxs_ok_inv fetch items out h
  refine ⟨hrel, ?_⟩
  intro o ho
  obtain ⟨tx, htx, r, hf, hs, h1, h2, h3, h4, h5, h6, h7, h8, h9, h10⟩ :=
    forall₂_mem_right _ _ _ hrel o ho
  refine ⟨tx, (List.mem_filter.mp htx).1, r, hf, hs, ?_⟩
  cases tx
  cases o
  simp at h1 h2 h3 h4 h5 h6 h7 h8 h9 h10
  simp [h1, h2, h3, h4, h5, h6, h7, h8, h9, h10]

theorem validReceiptTxs_gas_frame_witness :
    validReceiptTxs sampleFetch [sampleTxA, sampleTxB, sampleTxC] =
      .ok [{ sampleTxA with Gas := 21000 }, { sampleTxC with GasPrice := 8 }] ∧
    List.Forall₂ (gasEnriched sampleFetch)
      ([sampleTxA, sampleTxB, sampleTxC].filter (receiptSucceeded sampleFetch))
      [{ sampleTxA with Gas := 21000 }, { sampleTxC with GasPrice := 8 }] ∧
    ∀ o ∈ [{ sampleTxA with Gas := 21000 }, { sampleTxC with GasPrice := 8 }],
      ∃ tx ∈ [sampleTxA, sampleTxB, sampleTxC], ∃ r, sampleFetch tx.Hash = some r ∧ r.Status = 1 ∧
        o = { tx with
          Gas := if r.GasUsed > 0 then r.GasUsed else tx.Gas
          GasPrice := if r.EffectiveGasPrice > 0 then r.EffectiveGasPrice else tx.GasPrice } :=
  ⟨by rfl, validReceiptTxs_gas_frame sampleFetch [sampleTxA, sampleTxB, sampleTxC] _
    (by rfl)⟩

/-! ## Parse-and-apply loop: properties -/

section PipelineFacts

variable {Cache TxResult Decoder Model : Type}

theorem enqueued_append (a b : List (Effect TxResult Model)) :
    enqueued (a ++ b) = enqueued a ++ enqueued b := by
  induction a with
  | nil => rfl
  | cons x rest ih => cases x <;> simp [enqueued, ih]

theorem enqueued_map_cacheUpdate (rs : List TxResult) :
    enqueued (rs.map (Effect.cacheUpdate : TxResult → Effect TxResult Model)) = [] := by
  induction rs with
  | nil => rfl
  | cons r rest ih => simp [enqueued, ih]

theorem cacheUpdates_append (a b : List (Effect TxResult Model)) :
    cacheUpdates (a ++ b) = cacheUpdates a ++ cacheUpdates b := by
  induction a with
  | nil => rfl
  | cons x rest ih => cases x <;> simp [cacheUpdates, ih]

theorem cacheUpdates_map_cacheUpdate (rs : List TxResult) :
    cacheUpdates (rs.map (Effect.cacheUpdate : TxResult → Effect TxResult Model)) = rs := by
  induction rs with
  | nil => rfl
  | cons r rest ih => simp [cacheUpdates, ih]

theorem modelsOf_append (e : Explorer Cache TxResult Decoder Model) (c : Cache)
    (a b : List TxResult) :
    modelsOf e c (a ++ b) = modelsOf e c a ++ modelsOf e (a.foldl e.UpdateCache c) b := by
  induction a generalizing c with
  | nil => rfl
  | cons r rest ih => simp [modelsOf, ih]

theorem modelsOf_length (e : Explorer Cache TxResult Decoder Model) (c : Cache)
    (rs : List TxResult) : (modelsOf e c rs).length = rs.length := by
  induction rs generalizing c with
  | nil => rfl
  | cons r rest ih => simp [modelsOf, ih]

theorem modelsOf_getElem? (e : Explorer Cache TxResult Decoder Model) (c : Cache)
    (rs : List TxResult) (i : Nat) :
    (modelsOf e c rs)[i]? =
      rs[i]?.map (fun r => e.BuildModel ((rs.take (i + 1)).foldl e.UpdateCache c) r) := by
  induction rs generalizing c i with
  | nil => simp [modelsOf]
  | cons r rest ih =>
    cases i with
    | zero => simp [modelsOf]
    | succ j => simp [modelsOf, ih]

theorem updateLoop_eq (e : Explorer Cache TxResult Decoder Model) (rs : List TxResult)
    (st : PipelineState Cache TxResult Model) (acc : List Model) :
    updateLoop e rs st acc =
      (⟨rs.foldl e.UpdateCache st.cache, st.trace ++ rs.map Effect.cacheUpdate⟩,
        acc ++ modelsOf e st.cache rs) := by
  induction rs generalizing st acc with
  | nil => simp [updateLoop, modelsOf]
  | cons r rest ih => simp [updateLoop, modelsOf, ih]

/-- One pass of the outer loop of `handleTxs` on a transaction that does not
raise an internal error: its results are applied and the loop goes on. -/
theorem handleTxsLoop_cons_continue (e : Explorer Cache TxResult Decoder Model)
    (nd : Node Cache TxResult Decoder) (block : Option RpcBlock) (tx : RpcTransaction)
    (rest : List RpcTransaction) (st : PipelineState Cache TxResult Model) (acc : List Model)
    (hno : ∀ pt md err, e.GetProtocol e.config tx = some (pt, md) →
      protocolEnabled e.EqualFold e.config md.Protocol = true → tickEnabled e.EqualFold e.config md.Tick = true →
      nd.Parse pt st.cache block tx md = .error err → e.IsInternal err = false) :
    handleTxsLoop e nd block (tx :: rest) st acc =
      handleTxsLoop e nd block rest
        ⟨(txResultsAt e nd block st.cache tx).foldl e.UpdateCache st.cache,
          st.trace ++ (txResultsAt e nd block st.cache tx).map Effect.cacheUpdate⟩
        (acc ++ modelsOf e st.cache (txResultsAt e nd block st.cache tx)) := by
  obtain ⟨cache, trace⟩ := st
  rw [handleTxsLoop]
  unfold txResultsAt
  simp only at hno ⊢
  cases hg : e.GetProtocol e.config tx with
  | none => simp [modelsOf]
  | some pm =>
    obtain ⟨pt, md⟩ := pm
    by_cases hp : protocolEnabled e.EqualFold e.config md.Protocol = true
    · by_cases ht : tickEnabled e.EqualFold e.config md.Tick = true
      · cases hparse : nd.Parse pt cache block tx md with
        | error err =>
          have hi := hno pt md err hg hp ht hparse
          simp [hp, ht, hparse, hi, modelsOf]
        | ok rs =>
          cases rs with
          | nil => simp [hp, ht, hparse, modelsOf]
          | cons r rs1 => simp [hp, ht, hparse, updateLoop_eq]
      · simp [hp, ht, modelsOf]
    · simp [hp, modelsOf]

/-- One pass of the outer loop of `handleTxs` on a transaction whose `Parse`
raises an internal error: the loop is left with the state untouched. -/
theorem handleTxsLoop_cons_internal (e : Explorer Cache TxResult Decoder Model)
    (nd : Node Cache TxResult Decoder) (block : Option RpcBlock) (tx : RpcTransaction)
    (rest : List RpcTransaction) (st : PipelineState Cache TxResult Model) (acc : List Model)
    (pt : Decoder) (md : MetaData) (err : InsError)
    (hg : e.GetProtocol e.config tx = some (pt, md))
    (hp : protocolEnabled e.EqualFold e.config md.Protocol = true) (ht : tickEnabled e.EqualFold e.config md.Tick = true)
    (hparse : nd.Parse pt st.cache block tx md = .error err) (hi : e.IsInternal err = true) :
    handleTxsLoop e nd block (tx :: rest) st acc = (st, .error err) := by
  rw [handleTxsLoop]
  simp [hg, hp, ht, hparse, hi]

end PipelineFacts

section PipelineTheorems

variable {Cache TxResult Decoder Model : Type}

theorem parse_dichotomy (e : Explorer Cache TxResult Decoder Model)
    (nd : Node Cache TxResult Decoder) (block : Option RpcBlock) (c : Cache)
    (tx : RpcTransaction) :
    (∀ pt md err, e.GetProtocol e.config tx = some (pt, md) →
      protocolEnabled e.EqualFold e.config md.Protocol = true → tickEnabled e.EqualFold e.config md.Tick = true →
      nd.Parse pt c block tx md = .error err → e.IsInternal err = false) ∨
    (∃ pt md err, e.GetProtocol e.config tx = some (pt, md) ∧
      protocolEnabled e.EqualFold e.config md.Protocol = true ∧ tickEnabled e.EqualFold e.config md.Tick = true ∧
      nd.Parse pt c block tx md = .error err ∧ e.IsInternal err = true) := by
  by_cases h : ∃ pt md err, e.GetProtocol e.config tx = some (pt, md) ∧
      protocolEnabled e.EqualFold e.config md.Protocol = true ∧ tickEnabled e.EqualFold e.config md.Tick = true ∧
      nd.Parse pt c block tx md = .error err ∧ e.IsInternal err = true
  · exact Or.inr h
  · left
    intro pt md err hg hp ht hparse
    cases hi : e.IsInternal err with
    | false => rfl
    | true => exact absurd ⟨pt, md, err, hg, hp, ht, hparse, hi⟩ h

/-- A run of the outer loop that ends without error has applied exactly the
parsed results, in order, and has appended their models. -/
theorem handleTxsLoop_ok (e : Explorer Cache TxResult Decoder Model)
    (nd : Node Cache TxResult Decoder) (block : Option RpcBlock) (txs : List RpcTransaction)
    (st st1 : PipelineState Cache TxResult Model) (acc out : List Model)
    (h : handleTxsLoop e nd block txs st acc = (st1, .ok out)) :
    st1 = ⟨(parsedResults e nd block txs st.cache).foldl e.UpdateCache st.cache,
        st.trace ++ (parsedResults e nd block txs st.cache).map Effect.cacheUpdate⟩ ∧
      out = acc ++ modelsOf e st.cache (parsedResults e nd block txs st.cache) := by
  induction txs generalizing st acc with
  | nil =>
    simp only [handleTxsLoop, Prod.mk.injEq, Except.ok.injEq] at h
    obtain ⟨h1, h2⟩ := h
    subst h1 h2
    simp [parsedResults, modelsOf]
  | cons tx rest ih =>
    rcases parse_dichotomy e nd block st.cache tx with hno | ⟨pt, md, err, hg, hp, ht, hparse, hi⟩
    · rw [handleTxsLoop_cons_continue e nd block tx rest st acc hno] at h
      obtain ⟨h1, h2⟩ := ih _ _ h
      simp only at h1 h2
      refine ⟨?_, ?_⟩
      · rw [h1]
        simp [parsedResults, List.foldl_append]
      · rw [h2]
        simp [parsedResults, modelsOf_append]
    · rw [handleTxsLoop_cons_internal e nd block tx rest st acc pt md err hg hp ht hparse hi] at h
      simp at h

/-- A run of the outer loop that ends with an error stopped at a transaction
whose `Parse` raised an internal error, after a complete run on the
transactions before it. -/
theorem handleTxsLoop_error (e : Explorer Cache TxResult Decoder Model)
    (nd : Node Cache TxResult Decoder) (block : Option RpcBlock) (txs : List RpcTransaction)
    (st st1 : PipelineState Cache TxResult Model) (acc : List Model) (err : InsError)
    (h : handleTxsLoop e nd block txs st acc = (st1, .error err)) :
    e.IsInternal err = true ∧
      ∃ pre tx post acc1 pt md, txs = pre ++ tx :: post ∧
        handleTxsLoop e nd block pre st acc = (st1, .ok acc1) ∧
        e.GetProtocol e.config tx = some (pt, md) ∧
        protocolEnabled e.EqualFold e.config md.Protocol = true ∧ tickEnabled e.EqualFold e.config md.Tick = true ∧
        nd.Parse pt st1.cache block tx md = .error err := by
  induction txs generalizing st acc with
  | nil => simp [handleTxsLoop] at h
  | cons tx rest ih =>
    rcases parse_dichotomy e nd block st.cache tx with hno | ⟨pt, md, err1, hg, hp, ht, hparse, hi⟩
    · rw [handleTxsLoop_cons_continue e nd block tx rest st acc hno] at h
      obtain ⟨hint, pre, tx1, post, acc1, pt, md, hsplit, hpre, hg, hp, ht, hparse⟩ := ih _ _ h
      refine ⟨hint, tx :: pre, tx1, post, acc1, pt, md, by simp [hsplit], ?_, hg, hp, ht, hparse⟩
      rw [handleTxsLoop_cons_continue e nd block tx pre st acc hno]
      exact hpre
    · rw [handleTxsLoop_cons_internal e nd block tx rest st acc pt md err1 hg hp ht hparse hi] at h
      simp only [Prod.mk.injEq, Except.error.injEq] at h
      obtain ⟨h1, h2⟩ := h
      subst h1 h2
      exact ⟨hi, [], tx, rest, acc, pt, md, rfl, by simp [handleTxsLoop], hg, hp, ht, hparse⟩

/-- After a complete run on a prefix, the outer loop goes on with the rest of
the list from the state and the models reached. -/
theorem handleTxsLoop_append (e : Explorer Cache TxResult Decoder Model)
    (nd : Node Cache TxResult Decoder) (block : Option RpcBlock) (pre l : List RpcTransaction)
    (st st1 : PipelineState Cache TxResult Model) (acc acc1 : List Model)
    (h : handleTxsLoop e nd block pre st acc = (st1, .ok acc1)) :
    handleTxsLoop e nd block (pre ++ l) st acc = handleTxsLoop e nd block l st1 acc1 := by
  induction pre generalizing st acc with
  | nil =>
    simp only [handleTxsLoop, Prod.mk.injEq, Except.ok.injEq] at h
    obtain ⟨h1, h2⟩ := h
    subst h1 h2
    rfl
  | cons tx rest ih =>
    rcases parse_dichotomy e nd block st.cache tx with hno | ⟨pt, md, err, hg, hp, ht, hparse, hi⟩
    · rw [handleTxsLoop_cons_continue e nd block tx rest st acc hno] at h
      rw [List.cons_append, handleTxsLoop_cons_continue e nd block tx (rest ++ l) st acc hno]
      exact ih _ _ h
    · rw [handleTxsLoop_cons_internal e nd block tx rest st acc pt md err hg hp ht hparse hi] at h
      simp at h

theorem handleTxs_error_inv (e : Explorer Cache TxResult Decoder Model)
    (nd : Node Cache TxResult Decoder) (st st1 : PipelineState Cache TxResult Model)
    (block : Option RpcBlock) (txs : List RpcTransaction) (err : InsError)
    (h : handleTxs e nd st block txs = (st1, some err)) :
    handleTxsLoop e nd block txs st [] = (st1, .error err) := by
  unfold handleTxs at h
  cases hl : handleTxsLoop e nd block txs st [] with
  | mk st2 r =>
    rw [hl] at h
    cases r with
    | error err2 =>
      simp only [Prod.mk.injEq, Option.some.injEq] at h
      rw [h.1, h.2]
    | ok out => simp at h

theorem handleTxs_ok_inv (e : Explorer Cache TxResult Decoder Model)
    (nd : Node Cache TxResult Decoder) (st st1 : PipelineState Cache TxResult Model)
    (block : Option RpcBlock) (txs : List RpcTransaction)
    (h : handleTxs e nd st block txs = (st1, none)) :
    ∃ st2 out, handleTxsLoop e nd block txs st [] = (st2, .ok out) ∧
      st1 = writeDBAsync e st2 block out := by
  unfold handleTxs at h
  cases hl : handleTxsLoop e nd block txs st [] with
  | mk st2 r =>
    rw [hl] at h
    cases r with
    | error err2 => simp at h
    | ok out =>
      simp only [Prod.mk.injEq, and_true] at h
      exact ⟨st2, out, rfl, h.symm⟩

end PipelineTheorems

section PipelineClaims

variable {Cache TxResult Decoder Model : Type}

/-- C1: let the transactions before `tx` have been processed without internal
error, reaching the state `st1`, and let `Parse` return an error for `tx`. If the
error is internal, `handleTxs` returns that error in the state `st1` and no block
event has been enqueued. Otherwise `tx` leaves the state and the list of built
models as they were, and `handleTxs` goes on with the later transactions exactly
as if `tx` were not in the list. -/
theorem handleTxs_parse_error (e : Explorer Cache TxResult Decoder Model)
    (nd : Node Cache TxResult Decoder) (block : Option RpcBlock)
    (pre : List RpcTransaction) (tx : RpcTransaction) (post : List RpcTransaction)
    (st st1 : PipelineState Cache TxResult Model) (acc1 : List Model)
    (pt : Decoder) (md : MetaData) (err : InsError)
    (hpre : handleTxsLoop e nd block pre st [] = (st1, .ok acc1))
    (hg : e.GetProtocol e.config tx = some (pt, md))
    (hp : protocolEnabled e.EqualFold e.config md.Protocol = true)
    (ht : tickEnabled e.EqualFold e.config md.Tick = true)
    (hparse : nd.Parse pt st1.cache block tx md = .error err) :
    (e.IsInternal err = true →
      handleTxs e nd st block (pre ++ tx :: post) = (st1, some err) ∧
      enqueued st1.trace = enqueued st.trace) ∧
    (e.IsInternal err = false →
      handleTxsLoop e nd block (pre ++ [tx]) st [] = (st1, .ok acc1) ∧
      handleTxs e nd st block (pre ++ tx :: post) = handleTxs e nd st block (pre ++ post)) := by
  have hskip : e.IsInternal err = false → ∀ l,
      handleTxsLoop e nd block (tx :: l) st1 acc1 = handleTxsLoop e nd block l st1 acc1 := by
    intro hi l
    rw [handleTxsLoop]
    simp [hg, hp, ht, hparse, hi]
  refine ⟨fun hi => ⟨?_, ?_⟩, fun hi => ⟨?_, ?_⟩⟩
  · unfold handleTxs
    rw [handleTxsLoop_append e nd block pre (tx :: post) st st1 [] acc1 hpre,
      handleTxsLoop_cons_internal e nd block tx post st1 acc1 pt md err hg hp ht hparse hi]
  · obtain ⟨h1, _⟩ := handleTxsLoop_ok e nd block pre st st1 [] acc1 hpre
    rw [h1]
    simp [enqueued_append, enqueued_map_cacheUpdate]
  · rw [handleTxsLoop_append e nd block pre [tx] st st1 [] acc1 hpre, hskip hi []]
    simp [handleTxsLoop]
  · unfold handleTxs
    rw [handleTxsLoop_append e nd block pre (tx :: post) st st1 [] acc1 hpre,
      handleTxsLoop_append e nd block pre post st st1 [] acc1 hpre, hskip hi post]

theorem handleTxs_parse_error_witness :
    handleTxsLoop sampleExplorer sampleNode (some sampleBlock) [sampleTxA] ⟨0, []⟩ [] =
      (⟨100, [Effect.cacheUpdate 100]⟩, .ok [(100, 100)]) ∧
    sampleNode.Parse () 100 (some sampleBlock) sampleTxB ⟨"avalanche", "asc-20", "dino", "mint"⟩ =
      .error ⟨-14, "mint over limit"⟩ ∧
    ((sampleExplorer.IsInternal ⟨-14, "mint over limit"⟩ = true →
      handleTxs sampleExplorer sampleNode ⟨0, []⟩ (some sampleBlock)
          ([sampleTxA] ++ sampleTxB :: [sampleTxC]) =
        (⟨100, [Effect.cacheUpdate 100]⟩, some ⟨-14, "mint over limit"⟩) ∧
      enqueued [(Effect.cacheUpdate 100 : Effect Nat (Nat × Nat))] =
        enqueued ([] : List (Effect Nat (Nat × Nat)))) ∧
    (sampleExplorer.IsInternal ⟨-14, "mint over limit"⟩ = false →
      handleTxsLoop sampleExplorer sampleNode (some sampleBlock) ([sampleTxA] ++ [sampleTxB])
          ⟨0, []⟩ [] = (⟨100, [Effect.cacheUpdate 100]⟩, .ok [(100, 100)]) ∧
      handleTxs sampleExplorer sampleNode ⟨0, []⟩ (some sampleBlock)
          ([sampleTxA] ++ sampleTxB :: [sampleTxC]) =
        handleTxs sampleExplorer sampleNode ⟨0, []⟩ (some sampleBlock)
          ([sampleTxA] ++ [sampleTxC]))) :=
  ⟨by rfl, by rfl,
    handleTxs_parse_error sampleExplorer sampleNode (some sampleBlock) [sampleTxA] sampleTxB
      [sampleTxC] ⟨0, []⟩ ⟨100, [Effect.cacheUpdate 100]⟩ [(100, 100)] ()
      ⟨"avalanche", "asc-20", "dino", "mint"⟩ ⟨-14, "mint over limit"⟩
      (by rfl) (by rfl) (by rfl) (by rfl) (by rfl)⟩

/-- C2, the claim as stated fails: with the node healthy for `0xa1` and
decoding `0xc3` hitting an internal error, `handleTxs` returns the internal
error after `UpdateCache` has been applied to the mint of `0xa1`: the minted
total is 100 instead of the 0 it was before the call, the next attempt of
`handleBlock` starts from that cache, and the attempt that succeeds applies the
mint of `0xa1` a second time (242 instead of 142). -/
theorem handleTxs_internal_error_keeps_updates :
    handleTxs sampleExplorer sampleNodeFlaky ⟨0, []⟩ (some sampleBlock) [sampleTxA, sampleTxC] =
      (⟨100, [Effect.cacheUpdate 100]⟩, some ⟨-100, "store unreachable"⟩) ∧
    sampleExplorer.IsInternal ⟨-100, "store unreachable"⟩ = true ∧
    (handleTxs sampleExplorer sampleNodeFlaky ⟨0, []⟩ (some sampleBlock)
        [sampleTxA, sampleTxC]).1.cache ≠ (0 : Nat) ∧
    cacheUpdates (handleTxs sampleExplorer sampleNodeFlaky ⟨0, []⟩ (some sampleBlock)
        [sampleTxA, sampleTxC]).1.trace = [100] ∧
    (stateAfter sampleExplorer sampleWorld sampleBlock ⟨0, []⟩ 2).1 =
      ⟨100, [Effect.cacheUpdate 100]⟩ ∧
    handleBlock sampleExplorer sampleWorld (some sampleBlock) 5 ⟨0, []⟩ =
      .returned ⟨242, [Effect.cacheUpdate 100, Effect.cacheUpdate 100, Effect.cacheUpdate 40,
        Effect.cacheUpdate 2,
        Effect.enqueue ⟨"avalanche", 11, 1700000000, "0xblock11", 0,
          [(100, 200), (40, 240), (2, 242)]⟩]⟩ :=
  ⟨by rfl, by rfl, by decide, by rfl, by rfl, by rfl⟩

/-- C2, amended: when `handleTxs` returns an error, the error is internal and
was raised by `Parse` on some transaction of the list; `UpdateCache` has been
applied, in order, to exactly the results parsed from the transactions before
that one and to no other, the cache is the cache before the call with these
updates applied (hence unchanged when there is none), and no block event has
been enqueued. -/
theorem handleTxs_internal_error_state (e : Explorer Cache TxResult Decoder Model)
    (nd : Node Cache TxResult Decoder) (st st1 : PipelineState Cache TxResult Model)
    (block : Option RpcBlock) (txs : List RpcTransaction) (err : InsError)
    (h : handleTxs e nd st block txs = (st1, some err)) :
    e.IsInternal err = true ∧
    enqueued st1.trace = enqueued st.trace ∧
    ∃ pre tx post pt md, txs = pre ++ tx :: post ∧
      e.GetProtocol e.config tx = some (pt, md) ∧
      nd.Parse pt st1.cache block tx md = .error err ∧
      st1.cache = (parsedResults e nd block pre st.cache).foldl e.UpdateCache st.cache ∧
      st1.trace = st.trace ++ (parsedResults e nd block pre st.cache).map Effect.cacheUpdate ∧
      (parsedResults e nd block pre st.cache = [] → st1 = st) := by
  have hl := handleTxs_error_inv e nd st st1 block txs err h
  obtain ⟨hi, pre, tx, post, acc1, pt, md, hsplit, hpre, hg, _, _, hparse⟩ :=
    handleTxsLoop_error e nd block txs st st1 [] err hl
  obtain ⟨h1, _⟩ := handleTxsLoop_ok e nd block pre st st1 [] acc1 hpre
  refine ⟨hi, ?_, pre, tx, post, pt, md, hsplit, hg, hparse, ?_, ?_, ?_⟩
  · rw [h1]
    simp [enqueued_append, enqueued_map_cacheUpdate]
  · rw [h1]
  · rw [h1]
  · intro hnil
    rw [h1, hnil]
    simp

theorem handleTxs_internal_error_state_witness :
    handleTxs sampleExplorer sampleNodeFlaky ⟨0, []⟩ (some sampleBlock) [sampleTxA, sampleTxC] =
      (⟨100, [Effect.cacheUpdate 100]⟩, some ⟨-100, "store unreachable"⟩) ∧
    (sampleExplorer.IsInternal ⟨-100, "store unreachable"⟩ = true ∧
    enqueued [(Effect.cacheUpdate 100 : Effect Nat (Nat × Nat))] =
      enqueued ([] : List (Effect Nat (Nat × Nat))) ∧
    ∃ pre tx post pt md, [sampleTxA, sampleTxC] = pre ++ tx :: post ∧
      sampleExplorer.GetProtocol sampleExplorer.config tx = some (pt, md) ∧
      sampleNodeFlaky.Parse pt 100 (some sampleBlock) tx md =
        .error ⟨-100, "store unreachable"⟩ ∧
      100 = (parsedResults sampleExplorer sampleNodeFlaky (some sampleBlock) pre 0).foldl
        sampleExplorer.UpdateCache 0 ∧
      [(Effect.cacheUpdate 100 : Effect Nat (Nat × Nat))] =
        [] ++ (parsedResults sampleExplorer sampleNodeFlaky (some sampleBlock) pre 0).map
          Effect.cacheUpdate ∧
      (parsedResults sampleExplorer sampleNodeFlaky (some sampleBlock) pre 0 = [] →
        (⟨100, [Effect.cacheUpdate 100]⟩ : PipelineState Nat Nat (Nat × Nat)) = ⟨0, []⟩)) :=
  ⟨by rfl, handleTxs_internal_error_state sampleExplorer sampleNodeFlaky ⟨0, []⟩
    ⟨100, [Effect.cacheUpdate 100]⟩ (some sampleBlock) [sampleTxA, sampleTxC]
    ⟨-100, "store unreachable"⟩ (by rfl)⟩

end PipelineClaims

section PipelineOrder

variable {Cache TxResult Decoder Model : Type}

/-- C3: when `handleTxs` returns without error, `UpdateCache` has been applied
to every result of a successful `Parse`, in transaction order and then in result
order, and after the last of these updates one block event is enqueued whose
items are the models of these results in the same order, the model of each
result being built from the cache that holds the updates up to and including
its own. No event is enqueued when there is no result or the block is nil. -/
theorem handleTxs_ok_event (e : Explorer Cache TxResult Decoder Model)
    (nd : Node Cache TxResult Decoder) (st st1 : PipelineState Cache TxResult Model)
    (block : Option RpcBlock) (txs : List RpcTransaction)
    (h : handleTxs e nd st block txs = (st1, none)) :
    st1.cache = (parsedResults e nd block txs st.cache).foldl e.UpdateCache st.cache ∧
    (∃ tail, st1.trace =
        st.trace ++ (parsedResults e nd block txs st.cache).map Effect.cacheUpdate ++ tail ∧
      (∀ b, block = some b → parsedResults e nd block txs st.cache ≠ [] →
        tail = [Effect.enqueue
          { Chain := e.config.ChainName, BlockNum := b.Number, BlockTime := b.Time,
            BlockHash := b.Hash, ChainId := 0,
            Items := modelsOf e st.cache (parsedResults e nd block txs st.cache) }]) ∧
      ((block = none ∨ parsedResults e nd block txs st.cache = []) → tail = [])) ∧
    (modelsOf e st.cache (parsedResults e nd block txs st.cache)).length =
      (parsedResults e nd block txs st.cache).length ∧
    ∀ i, (modelsOf e st.cache (parsedResults e nd block txs st.cache))[i]? =
      (parsedResults e nd block txs st.cache)[i]?.map (fun r =>
        e.BuildModel
          (((parsedResults e nd block txs st.cache).take (i + 1)).foldl e.UpdateCache st.cache)
          r) := by
  obtain ⟨st2, out, hl, hw⟩ := handleTxs_ok_inv e nd st st1 block txs h
  obtain ⟨h2, hout⟩ := handleTxsLoop_ok e nd block txs st st2 [] out hl
  simp only [List.nil_append] at hout
  generalize parsedResults e nd block txs st.cache = rs at h2 hout ⊢
  have hlen : out.length = rs.length := by rw [hout, modelsOf_length]
  refine ⟨?_, ?_, modelsOf_length e st.cache rs, fun i => modelsOf_getElem? e st.cache rs i⟩
  · rw [hw, h2]
    unfold writeDBAsync
    cases block with
    | none => rfl
    | some b =>
      by_cases hz : out.length ≤ 0
      · simp [hz]
      · simp [hz]
  · rw [hw, h2]
    unfold writeDBAsync
    cases block with
    | none =>
      refine ⟨[], by simp, ?_, fun _ => rfl⟩
      intro b hb
      cases hb
    | some b =>
      by_cases hz : out.length ≤ 0
      · have hrs : rs = [] := by
          apply List.length_eq_zero.mp
          omega
        refine ⟨[], by simp [hz], ?_, fun _ => rfl⟩
        intro b1 _ hne
        exact absurd hrs hne
      · have hrs : rs ≠ [] := by
          intro hnil
          rw [hnil, List.length_nil] at hlen
          omega
        refine ⟨[Effect.enqueue
          { Chain := e.config.ChainName, BlockNum := b.Number, BlockTime := b.Time,
            BlockHash := b.Hash, ChainId := 0, Items := out }], by simp [hz], ?_, ?_⟩
        · intro b1 hb _
          cases hb
          rw [hout]
        · rintro (hb | hnil)
          · cases hb
          · exact absurd hnil hrs

theorem handleTxs_ok_event_witness :
    handleTxs sampleExplorer sampleNode ⟨0, []⟩ (some sampleBlock)
        [sampleTxA, sampleTxB, sampleTxC] =
      (⟨142, [Effect.cacheUpdate 100, Effect.cacheUpdate 40, Effect.cacheUpdate 2,
          Effect.enqueue ⟨"avalanche", 11, 1700000000, "0xblock11", 0,
            [(100, 100), (40, 140), (2, 142)]⟩]⟩, none) ∧
    parsedResults sampleExplorer sampleNode (some sampleBlock)
        [sampleTxA, sampleTxB, sampleTxC] 0 = [100, 40, 2] ∧
    modelsOf sampleExplorer 0 [100, 40, 2] = [(100, 100), (40, 140), (2, 142)] ∧
    ((142 : Nat) = (parsedResults sampleExplorer sampleNode (some sampleBlock)
        [sampleTxA, sampleTxB, sampleTxC] 0).foldl sampleExplorer.UpdateCache 0 ∧
    (∃ tail, [Effect.cacheUpdate 100, Effect.cacheUpdate 40, Effect.cacheUpdate 2,
          Effect.enqueue ⟨"avalanche", 11, 1700000000, "0xblock11", 0,
            [(100, 100), (40, 140), (2, 142)]⟩] =
        [] ++ (parsedResults sampleExplorer sampleNode (some sampleBlock)
          [sampleTxA, sampleTxB, sampleTxC] 0).map Effect.cacheUpdate ++ tail ∧
      (∀ b, some sampleBlock = some b →
        parsedResults sampleExplorer sampleNode (some sampleBlock)
          [sampleTxA, sampleTxB, sampleTxC] 0 ≠ [] →
        tail = [Effect.enqueue
          { Chain := sampleExplorer.config.ChainName, BlockNum := b.Number, BlockTime := b.Time,
            BlockHash := b.Hash, ChainId := 0,
            Items := modelsOf sampleExplorer 0 (parsedResults sampleExplorer sampleNode
              (some sampleBlock) [sampleTxA, sampleTxB, sampleTxC] 0) }]) ∧
      ((some sampleBlock = none ∨ parsedResults sampleExplorer sampleNode (some sampleBlock)
          [sampleTxA, sampleTxB, sampleTxC] 0 = []) → tail = [])) ∧
    (modelsOf sampleExplorer 0 (parsedResults sampleExplorer sampleNode (some sampleBlock)
        [sampleTxA, sampleTxB, sampleTxC] 0)).length =
      (parsedResults sampleExplorer sampleNode (some sampleBlock)
        [sampleTxA, sampleTxB, sampleTxC] 0).length ∧
    ∀ i, (modelsOf sampleExplorer 0 (parsedResults sampleExplorer sampleNode (some sampleBlock)
        [sampleTxA, sampleTxB, sampleTxC] 0))[i]? =
      (parsedResults sampleExplorer sampleNode (some sampleBlock)
        [sampleTxA, sampleTxB, sampleTxC] 0)[i]?.map (fun r =>
        sampleExplorer.BuildModel
          (((parsedResults sampleExplorer sampleNode (some sampleBlock)
            [sampleTxA, sampleTxB, sampleTxC] 0).take (i + 1)).foldl
              sampleExplorer.UpdateCache 0) r)) :=
  ⟨by rfl, by rfl, by rfl,
    handleTxs_ok_event sampleExplorer sampleNode ⟨0, []⟩ _ (some sampleBlock)
      [sampleTxA, sampleTxB, sampleTxC] (by rfl)⟩

end PipelineOrder

/-! ## Retry loop: properties -/

section RetryLoop

variable {Cache TxResult Decoder Model : Type}

theorem writeDBAsync_enqueued (e : Explorer Cache TxResult Decoder Model)
    (st : PipelineState Cache TxResult Model) (block : Option RpcBlock) (out : List Model) :
    enqueued (writeDBAsync e st block out).trace = enqueued st.trace ∨
      ∃ ev, enqueued (writeDBAsync e st block out).trace = enqueued st.trace ++ [ev] := by
  unfold writeDBAsync
  cases block with
  | none => exact Or.inl rfl
  | some b =>
    by_cases hz : out.length ≤ 0
    · simp [hz]
    · refine Or.inr ⟨⟨e.config.ChainName, b.Number, b.Time, b.Hash, 0, out⟩, ?_⟩
      simp [hz, enqueued_append, enqueued]

theorem handleTxs_enqueued (e : Explorer Cache TxResult Decoder Model)
    (nd : Node Cache TxResult Decoder) (st : PipelineState Cache TxResult Model)
    (block : Option RpcBlock) (txs : List RpcTransaction) :
    (∀ err, (handleTxs e nd st block txs).2 = some err →
      enqueued (handleTxs e nd st block txs).1.trace = enqueued st.trace) ∧
    ((handleTxs e nd st block txs).2 = none →
      (enqueued (handleTxs e nd st block txs).1.trace = enqueued st.trace ∨
        ∃ ev, enqueued (handleTxs e nd st block txs).1.trace = enqueued st.trace ++ [ev])) := by
  constructor
  · intro err herr
    have h : handleTxs e nd st block txs = ((handleTxs e nd st block txs).1, some err) := by
      rw [← herr]
    have hl := handleTxs_error_inv e nd st _ block txs err h
    obtain ⟨_, pre, tx, post, acc1, pt, md, _, hpre, _⟩ :=
      handleTxsLoop_error e nd block txs st _ [] err hl
    obtain ⟨h1, _⟩ := handleTxsLoop_ok e nd block pre st _ [] acc1 hpre
    rw [h1]
    simp [enqueued_append, enqueued_map_cacheUpdate]
  · intro hnone
    have h : handleTxs e nd st block txs = ((handleTxs e nd st block txs).1, none) := by
      rw [← hnone]
    obtain ⟨st2, out, hl, hw⟩ := handleTxs_ok_inv e nd st _ block txs h
    obtain ⟨h2, _⟩ := handleTxsLoop_ok e nd block txs st st2 [] out hl
    have hst2 : enqueued st2.trace = enqueued st.trace := by
      rw [h2]
      simp [enqueued_append, enqueued_map_cacheUpdate]
    rw [hw, ← hst2]
    exact writeDBAsync_enqueued e st2 block out

theorem sameTx_refl (tx : RpcTransaction) : sameTx tx tx := by
  unfold sameTx
  rfl

theorem validReceiptItems_sameTx (m : List (String × RpcReceipt)) (l : List RpcTransaction) :
    List.Forall₂ sameTx l (validReceiptItems m l) := by
  induction l with
  | nil => exact List.Forall₂.nil
  | cons item rest ih =>
    unfold validReceiptItems
    cases hload : receiptsLoad m item.Hash with
    | none =>
      simp only
      exact List.forall₂_same.mpr (fun tx _ => sameTx_refl tx)
    | some r =>
      simp only
      by_cases hs : r.Status = 1
      · simp only [hs, ne_eq, not_true_eq_false, if_false]
        refine List.Forall₂.cons ?_ ih
        unfold sameTx
        by_cases hg : r.GasUsed > 0 <;> by_cases hp : r.EffectiveGasPrice > 0 <;> simp [hg, hp]
      · simp only [ne_eq, hs, not_false_eq_true, if_true]
        exact List.Forall₂.cons (sameTx_refl item) ih

/-- The list returned by the second loop of `validReceiptTxs` holds the
elements of its input slice, as left by the loop, whose receipt reports
status 1. -/
theorem validReceiptLoop_items (m : List (String × RpcReceipt))
    (l results out : List RpcTransaction) (h : validReceiptLoop m l results = .ok out) :
    out = results ++ (validReceiptItems m l).filter (fun tx =>
      match receiptsLoad m tx.Hash with
      | none => false
      | some r => decide (r.Status = 1)) := by
  induction l generalizing results with
  | nil =>
    simp only [validReceiptLoop, Except.ok.injEq] at h
    simp [validReceiptItems, h]
  | cons item rest ih =>
    cases hload : receiptsLoad m item.Hash with
    | none => simp [validReceiptLoop, hload] at h
    | some r =>
      by_cases hs : r.Status = 1
      · rw [validReceiptLoop_keep m item rest results r hload hs] at h
        have hrec := ih _ h
        have hhash : (enrichTx r item).Hash = item.Hash := by
          unfold enrichTx
          by_cases hg : r.GasUsed > 0 <;> by_cases hp : r.EffectiveGasPrice > 0 <;> simp [hg, hp]
        have hitems : validReceiptItems m (item :: rest) =
            enrichTx r item :: validReceiptItems m rest := by
          simp [validReceiptItems, hload, hs, enrichTx]
        rw [hrec, hitems, List.filter_cons_of_pos (by simp [hhash, hload, hs])]
        simp
      · have hstep : validReceiptLoop m (item :: rest) results =
            validReceiptLoop m rest results := by
          simp [validReceiptLoop, hload, hs]
        rw [hstep] at h
        have hitems : validReceiptItems m (item :: rest) = item :: validReceiptItems m rest := by
          simp [validReceiptItems, hload, hs]
        rw [ih _ h, hitems, List.filter_cons_of_neg (by simp [hload, hs])]

theorem replaceKept_sameTx (keep : RpcTransaction → Bool) (l items : List RpcTransaction)
    (h : List.Forall₂ sameTx (l.filter keep) items) :
    List.Forall₂ sameTx l (replaceKept keep l items) := by
  induction l generalizing items with
  | nil => exact List.Forall₂.nil
  | cons tx rest ih =>
    unfold replaceKept
    by_cases hk : keep tx = true
    · rw [List.filter_cons_of_pos hk] at h
      cases h with
      | cons hhead htail =>
        simp only [hk, if_true]
        exact List.Forall₂.cons hhead (ih _ htail)
    · rw [List.filter_cons_of_neg hk] at h
      simp only [hk, Bool.false_eq_true, if_false]
      exact List.Forall₂.cons (sameTx_refl tx) (ih _ h)

/-- The block left by an attempt is the block it started from: same number,
hash and time, and the same transactions up to their gas fields. -/
theorem blockAfterReceipts_same (e : Explorer Cache TxResult Decoder Model)
    (nd : Node Cache TxResult Decoder) (b : RpcBlock) :
    (blockAfterReceipts e nd b).Number = b.Number ∧
      (blockAfterReceipts e nd b).Hash = b.Hash ∧
      (blockAfterReceipts e nd b).Time = b.Time ∧
      List.Forall₂ sameTx b.Transactions (blockAfterReceipts e nd b).Transactions := by
  refine ⟨rfl, rfl, rfl, ?_⟩
  unfold blockAfterReceipts
  simp only
  apply replaceKept_sameTx
  have hsel : tryFilterTxs e (extractTxsFromBlock e.config (some b)) =
      b.Transactions.filter (fun tx => fastChecking e.config tx && passesFilter e tx) := by
    have hx : extractTxsFromBlock e.config (some b) = b.Transactions.filter (fastChecking e.config) := by
      unfold extractTxsFromBlock
      by_cases hl : b.Transactions.length = 0
      · have : b.Transactions = [] := List.length_eq_zero.mp hl
        simp [this]
      · simp [hl, extractLoop_eq]
    rw [hx]
    simp only [tryFilterTxs, tryFilterLoop_eq, List.nil_append, List.filter_filter]
    congr 1
    funext tx
    exact Bool.and_comm _ _
  rw [← hsel]
  exact validReceiptItems_sameTx _ _

theorem attempt_block (e : Explorer Cache TxResult Decoder Model)
    (nd : Node Cache TxResult Decoder) (b : RpcBlock) (st : PipelineState Cache TxResult Model) :
    (attempt e nd b st).2.1 = blockAfterReceipts e nd b := by
  cases hv : validReceiptTxs nd.TransactionReceipt
      (tryFilterTxs e (extractTxsFromBlock e.config (some b))) with
  | error err => simp [attempt, hv]
  | ok txs =>
    cases hh : handleTxs e nd st (some (blockAfterReceipts e nd b)) txs with
    | mk st1 r =>
      cases r with
      | none => simp [attempt, hv, hh]
      | some err => simp [attempt, hv, hh]

theorem attempt_false_iff (e : Explorer Cache TxResult Decoder Model)
    (nd : Node Cache TxResult Decoder) (b : RpcBlock) (st : PipelineState Cache TxResult Model) :
    (attempt e nd b st).2.2 = false ↔
      ((∃ err, validReceiptTxs nd.TransactionReceipt
          (tryFilterTxs e (extractTxsFromBlock e.config (some b))) = .error err) ∨
        ∃ txs err, validReceiptTxs nd.TransactionReceipt
            (tryFilterTxs e (extractTxsFromBlock e.config (some b))) = .ok txs ∧
          (handleTxs e nd st (some (blockAfterReceipts e nd b)) txs).2 = some err) := by
  cases hv : validReceiptTxs nd.TransactionReceipt
      (tryFilterTxs e (extractTxsFromBlock e.config (some b))) with
  | error err => simp [attempt, hv]
  | ok txs =>
    cases hh : handleTxs e nd st (some (blockAfterReceipts e nd b)) txs with
    | mk st1 r =>
      cases r with
      | none => simp [attempt, hv, hh]
      | some err => simp [attempt, hv, hh]

theorem attempt_enqueued (e : Explorer Cache TxResult Decoder Model)
    (nd : Node Cache TxResult Decoder) (b : RpcBlock) (st : PipelineState Cache TxResult Model) :
    ((attempt e nd b st).2.2 = false →
      enqueued (attempt e nd b st).1.trace = enqueued st.trace) ∧
    ((attempt e nd b st).2.2 = true →
      (enqueued (attempt e nd b st).1.trace = enqueued st.trace ∨
        ∃ ev, enqueued (attempt e nd b st).1.trace = enqueued st.trace ++ [ev])) := by
  cases hv : validReceiptTxs nd.TransactionReceipt
      (tryFilterTxs e (extractTxsFromBlock e.config (some b))) with
  | error err => simp [attempt, hv]
  | ok txs =>
    have hen := handleTxs_enqueued e nd st (some (blockAfterReceipts e nd b)) txs
    cases hh : handleTxs e nd st (some (blockAfterReceipts e nd b)) txs with
    | mk st1 r =>
      rw [hh] at hen
      cases r with
      | none =>
        have h2 := hen.2 rfl
        simpa [attempt, hv, hh] using h2
      | some err =>
        have h1 := hen.1 err rfl
        simpa [attempt, hv, hh] using h1

theorem handleBlockLoop_step (e : Explorer Cache TxResult Decoder Model)
    (world : Nat → Node Cache TxResult Decoder) (b : RpcBlock) (hb : 0 < b.Number)
    (fuel retry : Nat) (st : PipelineState Cache TxResult Model) :
    handleBlockLoop e world (fuel + 1) retry b st =
      if (attempt e (world retry) b st).2.2 = true then
        .returned (attempt e (world retry) b st).1
      else
        handleBlockLoop e world fuel (retry + 1) (attempt e (world retry) b st).2.1
          (attempt e (world retry) b st).1 := by
  have hnb : ¬ b.Number ≤ 0 := by omega
  rw [handleBlockLoop, if_neg hnb]
  rcases ha : attempt e (world retry) b st with ⟨st1, b1, ok⟩
  cases ok <;> simp

theorem stateAfter_number (e : Explorer Cache TxResult Decoder Model)
    (world : Nat → Node Cache TxResult Decoder) (b : RpcBlock)
    (st : PipelineState Cache TxResult Model) (k : Nat) :
    (stateAfter e world b st k).2.Number = b.Number := by
  induction k with
  | zero => rfl
  | succ k ih =>
    simp only [stateAfter]
    rw [attempt_block, (blockAfterReceipts_same e (world k) _).1, ih]

theorem handleBlockLoop_skip (e : Explorer Cache TxResult Decoder Model)
    (world : Nat → Node Cache TxResult Decoder) (b : RpcBlock) (hb : 0 < b.Number)
    (st : PipelineState Cache TxResult Model) (k : Nat)
    (hfail : ∀ j < k, attemptOk e world b st j = false) (fuel : Nat) :
    handleBlockLoop e world (k + fuel) 0 b st =
      handleBlockLoop e world fuel k (stateAfter e world b st k).2
        (stateAfter e world b st k).1 := by
  induction k generalizing fuel with
  | zero => simp [stateAfter]
  | succ k ih =>
    have hk := hfail k (Nat.lt_succ_self k)
    have hprev : ∀ j < k, attemptOk e world b st j = false :=
      fun j hj => hfail j (Nat.lt_succ_of_lt hj)
    have hnum : 0 < (stateAfter e world b st k).2.Number := by
      rw [stateAfter_number]
      exact hb
    rw [show k + 1 + fuel = k + (fuel + 1) by omega, ih hprev (fuel + 1),
      handleBlockLoop_step e world _ hnum]
    unfold attemptOk at hk
    simp [hk, stateAfter]

theorem stateAfter_enqueued (e : Explorer Cache TxResult Decoder Model)
    (world : Nat → Node Cache TxResult Decoder) (b : RpcBlock)
    (st : PipelineState Cache TxResult Model) (k : Nat)
    (hfail : ∀ j < k, attemptOk e world b st j = false) :
    enqueued (stateAfter e world b st k).1.trace = enqueued st.trace := by
  induction k with
  | zero => rfl
  | succ k ih =>
    have hk := hfail k (Nat.lt_succ_self k)
    have hprev : ∀ j < k, attemptOk e world b st j = false :=
      fun j hj => hfail j (Nat.lt_succ_of_lt hj)
    simp only [stateAfter]
    rw [(attempt_enqueued e (world k) _ _).1 hk]
    exact ih hprev

theorem handleBlockLoop_success (e : Explorer Cache TxResult Decoder Model)
    (world : Nat → Node Cache TxResult Decoder) (b : RpcBlock) (hb : 0 < b.Number)
    (st : PipelineState Cache TxResult Model) (k : Nat)
    (hfail : ∀ j < k, attemptOk e world b st j = false)
    (hok : attemptOk e world b st k = true) (n : Nat) (hn : k < n) :
    handleBlockLoop e world n 0 b st =
      .returned (attempt e (world k) (stateAfter e world b st k).2
        (stateAfter e world b st k).1).1 := by
  obtain ⟨m, rfl⟩ : ∃ m, n = k + (m + 1) := ⟨n - k - 1, by omega⟩
  have hnum : 0 < (stateAfter e world b st k).2.Number := by
    rw [stateAfter_number]
    exact hb
  rw [handleBlockLoop_skip e world b hb st k hfail (m + 1), handleBlockLoop_step e world _ hnum]
  unfold attemptOk at hok
  simp [hok]

end RetryLoop

section RetryClaim

variable {Cache TxResult Decoder Model : Type}

/-- C10: on a block with a positive number, a pass of `handleBlock` that ends
with an error of `validReceiptTxs` or of `handleTxs` enqueues nothing and is
followed by a new pass on the same block (same number, hash and time, same
transactions up to their gas fields), starting again from extraction; as long
as the passes fail `handleBlock` has not returned, whatever their number; it
returns exactly at the first pass in which both steps succeed, having enqueued
at most one block event. On a block with number 0 it returns at once with the
state untouched, whatever the outside world. -/
theorem handleBlock_retry_until_success (e : Explorer Cache TxResult Decoder Model)
    (world : Nat → Node Cache TxResult Decoder) (b : RpcBlock) :
    (0 < b.Number →
      (∀ nd st, (attempt e nd b st).2.2 = false ↔
        ((∃ err, validReceiptTxs nd.TransactionReceipt
            (tryFilterTxs e (extractTxsFromBlock e.config (some b))) = .error err) ∨
          ∃ txs err, validReceiptTxs nd.TransactionReceipt
              (tryFilterTxs e (extractTxsFromBlock e.config (some b))) = .ok txs ∧
            (handleTxs e nd st (some (blockAfterReceipts e nd b)) txs).2 = some err)) ∧
      (∀ fuel retry st, (attempt e (world retry) b st).2.2 = false →
        handleBlockLoop e world (fuel + 1) retry b st =
          handleBlockLoop e world fuel (retry + 1) (attempt e (world retry) b st).2.1
            (attempt e (world retry) b st).1 ∧
        enqueued (attempt e (world retry) b st).1.trace = enqueued st.trace ∧
        (attempt e (world retry) b st).2.1.Number = b.Number ∧
        (attempt e (world retry) b st).2.1.Hash = b.Hash ∧
        (attempt e (world retry) b st).2.1.Time = b.Time ∧
        List.Forall₂ sameTx b.Transactions (attempt e (world retry) b st).2.1.Transactions) ∧
      (∀ n st, (∀ k < n, attemptOk e world b st k = false) →
        handleBlock e world (some b) n st = .retrying (stateAfter e world b st n).1) ∧
      (∀ k st, (∀ j < k, attemptOk e world b st j = false) →
        attemptOk e world b st k = true →
        ∀ n, k < n → handleBlock e world (some b) n st =
          .returned (attempt e (world k) (stateAfter e world b st k).2
            (stateAfter e world b st k).1).1) ∧
      (∀ n st st1, handleBlock e world (some b) n st = .returned st1 →
        ∃ k < n, (∀ j < k, attemptOk e world b st j = false) ∧
          attemptOk e world b st k = true ∧
          (attempt e (world k) (stateAfter e world b st k).2
            (stateAfter e world b st k).1).1 = st1 ∧
          (enqueued st1.trace = enqueued st.trace ∨
            ∃ ev, enqueued st1.trace = enqueued st.trace ++ [ev]))) ∧
    (b.Number = 0 → ∀ fuel st, handleBlock e world (some b) (fuel + 1) st = .returned st) := by
  constructor
  · intro hb
    refine ⟨fun nd st => attempt_false_iff e nd b st, ?_, ?_, ?_, ?_⟩
    · intro fuel retry st hfail
      have hsame := blockAfterReceipts_same e (world retry) b
      rw [← attempt_block e (world retry) b st] at hsame
      refine ⟨?_, (attempt_enqueued e (world retry) b st).1 hfail, hsame.1, hsame.2.1,
        hsame.2.2.1, hsame.2.2.2⟩
      rw [handleBlockLoop_step e world b hb]
      simp [hfail]
    · intro n st hfail
      have h := handleBlockLoop_skip e world b hb st n hfail 0
      simp only [Nat.add_zero] at h
      unfold handleBlock
      simp only
      rw [h, handleBlockLoop]
    · intro k st hfail hok n hn
      exact handleBlockLoop_success e world b hb st k hfail hok n hn
    · intro n st st1 hret
      have hret1 : handleBlockLoop e world n 0 b st = .returned st1 := hret
      by_cases hall : ∀ j < n, attemptOk e world b st j = false
      · have h := handleBlockLoop_skip e world b hb st n hall 0
        simp only [Nat.add_zero] at h
        rw [h, handleBlockLoop] at hret1
        cases hret1
      · have hex : ∃ j, attemptOk e world b st j = true := by
          by_contra hne
          apply hall
          intro j _
          cases hj : attemptOk e world b st j with
          | false => rfl
          | true => exact absurd ⟨j, hj⟩ hne
        have hbefore : ∀ j < Nat.find hex, attemptOk e world b st j = false := by
          intro j hj
          have hmin := Nat.find_min hex hj
          cases hj2 : attemptOk e world b st j with
          | false => rfl
          | true => exact absurd hj2 hmin
        have hlt : Nat.find hex < n := by
          by_contra hge
          apply hall
          intro j hj
          exact hbefore j (by omega)
        have hok := Nat.find_spec hex
        have hrun := handleBlockLoop_success e world b hb st (Nat.find hex) hbefore hok n hlt
        rw [hrun] at hret1
        have hst1 : (attempt e (world (Nat.find hex)) (stateAfter e world b st (Nat.find hex)).2
            (stateAfter e world b st (Nat.find hex)).1).1 = st1 := by
          injection hret1
        refine ⟨Nat.find hex, hlt, hbefore, hok, hst1, ?_⟩
        have hq := (attempt_enqueued e (world (Nat.find hex))
          (stateAfter e world b st (Nat.find hex)).2
          (stateAfter e world b st (Nat.find hex)).1).2 hok
        rw [hst1, stateAfter_enqueued e world b st (Nat.find hex) hbefore] at hq
        exact hq
  · intro hb fuel st
    unfold handleBlock
    simp only
    rw [handleBlockLoop]
    simp [hb]

theorem handleBlock_retry_until_success_witness :
    (0 < sampleBlock.Number ∧
      (∀ j < 2, attemptOk sampleExplorer sampleWorld sampleBlock ⟨0, []⟩ j = false) ∧
      attemptOk sampleExplorer sampleWorld sampleBlock ⟨0, []⟩ 2 = true ∧
      (stateAfter sampleExplorer sampleWorld sampleBlock ⟨0, []⟩ 2).2.Transactions =
        [{ sampleTxA with Gas := 21000 }, sampleTxB, { sampleTxC with GasPrice := 8 }] ∧
      handleBlock sampleExplorer sampleWorld (some sampleBlock) 2 ⟨0, []⟩ =
        .retrying (stateAfter sampleExplorer sampleWorld sampleBlock ⟨0, []⟩ 2).1 ∧
      handleBlock sampleExplorer sampleWorld (some sampleBlock) 5 ⟨0, []⟩ =
        .returned (attempt sampleExplorer (sampleWorld 2)
          (stateAfter sampleExplorer sampleWorld sampleBlock ⟨0, []⟩ 2).2
          (stateAfter sampleExplorer sampleWorld sampleBlock ⟨0, []⟩ 2).1).1) ∧
    (sampleGenesis.Number = 0 ∧
      handleBlock sampleExplorer sampleWorld (some sampleGenesis) 1 ⟨0, []⟩ =
        .returned ⟨0, []⟩) :=
  ⟨⟨by decide, by decide, by rfl, by rfl,
    ((handleBlock_retry_until_success sampleExplorer sampleWorld sampleBlock).1
      (by decide)).2.2.1 2 ⟨0, []⟩ (by decide),
    ((handleBlock_retry_until_success sampleExplorer sampleWorld sampleBlock).1
      (by decide)).2.2.2.1 2 ⟨0, []⟩ (by decide) (by rfl) 5 (by decide)⟩,
   ⟨by rfl, (handleBlock_retry_until_success sampleExplorer sampleWorld sampleGenesis).2
      (by rfl) 0 ⟨0, []⟩⟩⟩

end RetryClaim

/-! ## Flush batch: maps -/

section MapFacts

variable {K V : Type} [DecidableEq K]

theorem mapGet_mapSet (m : List (K × V)) (k k1 : K) (v : V) :
    mapGet (mapSet m k v) k1 = if k = k1 then some v else mapGet m k1 := by
  induction m with
  | nil => simp [mapSet, mapGet]
  | cons p rest ih =>
    obtain ⟨k2, v2⟩ := p
    by_cases h2 : k2 = k
    · subst h2
      by_cases h1 : k2 = k1 <;> simp [mapSet, mapGet, h1]
    · by_cases h1 : k2 = k1
      · subst h1
        have hne : ¬ k = k2 := fun h => h2 h.symm
        simp [mapSet, mapGet, h2, hne]
      · simp [mapSet, mapGet, h2, h1, ih]

theorem mem_keys_mapSet (m : List (K × V)) (k k1 : K) (v : V) :
    k1 ∈ (mapSet m k v).map Prod.fst ↔ k1 = k ∨ k1 ∈ m.map Prod.fst := by
  induction m with
  | nil => simp [mapSet]
  | cons p rest ih =>
    obtain ⟨k2, v2⟩ := p
    by_cases h2 : k2 = k
    · subst h2
      simp [mapSet]
    · simp only [mapSet, h2, if_false, List.map_cons, List.mem_cons, ih]
      tauto

theorem nodup_keys_mapSet (m : List (K × V)) (k : K) (v : V)
    (h : (m.map Prod.fst).Nodup) : ((mapSet m k v).map Prod.fst).Nodup := by
  induction m with
  | nil => simp [mapSet]
  | cons p rest ih =>
    obtain ⟨k2, v2⟩ := p
    simp only [List.map_cons, List.nodup_cons] at h
    by_cases h2 : k2 = k
    · subst h2
      simp only [mapSet, if_true, List.map_cons, List.nodup_cons]
      exact h
    · simp only [mapSet, h2, if_false, List.map_cons, List.nodup_cons]
      refine ⟨?_, ih h.2⟩
      rw [mem_keys_mapSet]
      rintro (h3 | h3)
      · exact h2 h3
      · exact h.1 h3

theorem mem_mapSet (m : List (K × V)) (k : K) (v : V) (p : K × V) (hp : p ∈ mapSet m k v) :
    p = (k, v) ∨ p ∈ m := by
  induction m with
  | nil =>
    simp only [mapSet, List.mem_singleton] at hp
    exact Or.inl hp
  | cons q rest ih =>
    obtain ⟨k2, v2⟩ := q
    by_cases h2 : k2 = k
    · simp only [mapSet, h2, if_true, List.mem_cons] at hp
      rcases hp with hp | hp
      · exact Or.inl hp
      · exact Or.inr (List.mem_cons_of_mem _ hp)
    · simp only [mapSet, h2, if_false, List.mem_cons] at hp
      rcases hp with hp | hp
      · exact Or.inr (hp ▸ List.mem_cons_self _ _)
      · rcases ih hp with h3 | h3
        · exact Or.inl h3
        · exact Or.inr (List.mem_cons_of_mem _ h3)

theorem mapGet_eq_none (m : List (K × V)) (k : K) :
    mapGet m k = none ↔ k ∉ m.map Prod.fst := by
  induction m with
  | nil => simp [mapGet]
  | cons p rest ih =>
    obtain ⟨k2, v2⟩ := p
    by_cases h2 : k2 = k
    · subst h2
      simp [mapGet]
    · have hne : ¬ k = k2 := fun h => h2 h.symm
      simp [mapGet, h2, hne, ih]

theorem mem_iff_mapGet (m : List (K × V)) (h : (m.map Prod.fst).Nodup) (k : K) (v : V) :
    (k, v) ∈ m ↔ mapGet m k = some v := by
  induction m with
  | nil => simp [mapGet]
  | cons p rest ih =>
    obtain ⟨k2, v2⟩ := p
    simp only [List.map_cons, List.nodup_cons] at h
    by_cases h2 : k2 = k
    · subst h2
      simp only [mapGet, if_true, List.mem_cons, Prod.mk.injEq, true_and, Option.some.injEq]
      constructor
      · rintro (h3 | h3)
        · exact h3.symm
        · exact absurd (List.mem_map_of_mem Prod.fst h3) h.1
      · intro h3
        exact Or.inl h3.symm
    · have hne : ¬ k = k2 := fun h => h2 h.symm
      simp only [mapGet, h2, if_false, List.mem_cons, Prod.mk.injEq, hne, false_and, false_or]
      exact ih h.2

/-- A map is well formed for `key` when its keys are distinct and every value
is stored under its own key. -/
theorem putWith_wellFormed (key : V → K) (combine : V → V → V)
    (hkey : ∀ old x, key (combine old x) = key x) (m : List (K × V)) (x : V)
    (h : (m.map Prod.fst).Nodup ∧ ∀ p ∈ m, key p.2 = p.1) :
    ((putWith key combine m x).map Prod.fst).Nodup ∧
      ∀ p ∈ putWith key combine m x, key p.2 = p.1 := by
  unfold putWith
  cases hg : mapGet m (key x) with
  | none =>
    refine ⟨nodup_keys_mapSet m _ _ h.1, ?_⟩
    intro p hp
    rcases mem_mapSet m _ _ p hp with rfl | hp
    · rfl
    · exact h.2 p hp
  | some old =>
    refine ⟨nodup_keys_mapSet m _ _ h.1, ?_⟩
    intro p hp
    rcases mem_mapSet m _ _ p hp with rfl | hp
    · exact hkey old x
    · exact h.2 p hp

theorem putAllWith_wellFormed (key : V → K) (combine : V → V → V)
    (hkey : ∀ old x, key (combine old x) = key x) (m : List (K × V)) (xs : List V)
    (h : (m.map Prod.fst).Nodup ∧ ∀ p ∈ m, key p.2 = p.1) :
    ((putAllWith key combine m xs).map Prod.fst).Nodup ∧
      ∀ p ∈ putAllWith key combine m xs, key p.2 = p.1 := by
  induction xs generalizing m with
  | nil => exact h
  | cons x rest ih => exact ih _ (putWith_wellFormed key combine hkey m x h)

theorem mapGet_putWith (key : V → K) (combine : V → V → V) (m : List (K × V)) (x : V)
    (k : K) :
    mapGet (putWith key combine m x) k =
      if key x = k then mergeOpt combine (mapGet m k) [x] else mapGet m k := by
  unfold putWith
  by_cases hk : key x = k
  · subst hk
    cases hg : mapGet m (key x) with
    | none => simp [mapGet_mapSet, mergeOpt]
    | some old => simp [mapGet_mapSet, mergeOpt]
  · cases hg : mapGet m (key x) with
    | none => simp [mapGet_mapSet, hk]
    | some old => simp [mapGet_mapSet, hk]

theorem mergeOpt_append (combine : V → V → V) (o : Option V) (xs ys : List V) :
    mergeOpt combine o (xs ++ ys) = mergeOpt combine (mergeOpt combine o xs) ys := by
  induction xs generalizing o with
  | nil => cases o <;> simp [mergeOpt]
  | cons x rest ih =>
    cases o with
    | none => simp [mergeOpt, ih]
    | some old => simp [mergeOpt, ih]

theorem mapGet_putAllWith (key : V → K) (combine : V → V → V) (m : List (K × V))
    (xs : List V) (k : K) :
    mapGet (putAllWith key combine m xs) k =
      mergeOpt combine (mapGet m k) (xs.filter (fun x => decide (key x = k))) := by
  induction xs generalizing m with
  | nil => cases h : mapGet m k <;> simp [putAllWith, mergeOpt, h]
  | cons x rest ih =>
    simp only [putAllWith]
    rw [ih, mapGet_putWith]
    by_cases hk : key x = k
    · rw [if_pos hk, List.filter_cons_of_pos (by simpa using hk)]
      cases hg : mapGet m k with
      | none => simp [mergeOpt]
      | some old => simp [mergeOpt]
    · rw [if_neg hk, List.filter_cons_of_neg (by simpa using hk)]

theorem mem_keys_putAllWith (key : V → K) (combine : V → V → V) (m : List (K × V))
    (xs : List V) (k : K) :
    k ∈ (putAllWith key combine m xs).map Prod.fst ↔
      k ∈ m.map Prod.fst ∨ ∃ x ∈ xs, key x = k := by
  induction xs generalizing m with
  | nil => simp [putAllWith]
  | cons x rest ih =>
    simp only [putAllWith]
    rw [ih]
    have hput : k ∈ (putWith key combine m x).map Prod.fst ↔ k = key x ∨ k ∈ m.map Prod.fst := by
      unfold putWith
      cases mapGet m (key x) <;> exact mem_keys_mapSet m _ _ _
    rw [hput]
    constructor
    · rintro ((h | h) | ⟨y, hy, hyk⟩)
      · exact Or.inr ⟨x, List.mem_cons_self _ _, h.symm⟩
      · exact Or.inl h
      · exact Or.inr ⟨y, List.mem_cons_of_mem _ hy, hyk⟩
    · rintro (h | ⟨y, hy, hyk⟩)
      · exact Or.inl (Or.inr h)
      · rcases List.mem_cons.mp hy with rfl | hy
        · exact Or.inl (Or.inl hyk.symm)
        · exact Or.inr ⟨y, hy, hyk⟩

/-- With last write wins, the value left under a key is the last value
assigned to it. -/
theorem mergeOpt_last (o : Option V) (xs : List V) :
    mergeOpt (fun _ x => x) o xs = xs.getLast?.or o := by
  induction xs generalizing o with
  | nil => cases o <;> rfl
  | cons x rest ih =>
    cases o with
    | none =>
      simp only [mergeOpt, ih]
      cases rest with
      | nil => rfl
      | cons y ys =>
        rw [List.getLast?_cons_cons]
        cases h : (y :: ys).getLast? with
        | none => simp at h
        | some z => rfl
    | some old =>
      simp only [mergeOpt, ih]
      cases rest with
      | nil => rfl
      | cons y ys =>
        rw [List.getLast?_cons_cons]
        cases h : (y :: ys).getLast? with
        | none => simp at h
        | some z => rfl

theorem mem_mapValues_iff (key : V → K) (m : List (K × V))
    (h : (m.map Prod.fst).Nodup ∧ ∀ p ∈ m, key p.2 = p.1) (v : V) :
    v ∈ mapValues m ↔ mapGet m (key v) = some v := by
  rw [← mem_iff_mapGet m h.1]
  unfold mapValues
  constructor
  · intro hv
    obtain ⟨p, hp, rfl⟩ := List.mem_map.mp hv
    have := h.2 p hp
    rw [this]
    exact hp
  · intro hv
    exact List.mem_map.mpr ⟨_, hv, rfl⟩

end MapFacts

theorem nodup_mapValues_keys {K V : Type} (key : V → K) (m : List (K × V))
    (h : (m.map Prod.fst).Nodup ∧ ∀ p ∈ m, key p.2 = p.1) :
    ((mapValues m).map key).Nodup := by
  have heq : (mapValues m).map key = m.map Prod.fst := by
    unfold mapValues
    rw [List.map_map]
    apply List.map_congr_left
    intro p hp
    exact h.2 p hp
  rw [heq]
  exact h.1

/-! ## Flush batch: the accumulator after the loops -/

theorem putWith_last {K V : Type} [DecidableEq K] (key : V → K) (m : List (K × V)) (x : V) :
    putWith key (fun _ y => y) m x = mapSet m (key x) x := by
  unfold putWith
  cases mapGet m (key x) <;> rfl

theorem putAllWith_append {K V : Type} [DecidableEq K] (key : V → K) (combine : V → V → V)
    (m : List (K × V)) (xs ys : List V) :
    putAllWith key combine m (xs ++ ys) =
      putAllWith key combine (putAllWith key combine m xs) ys := by
  induction xs generalizing m with
  | nil => rfl
  | cons x rest ih => simp [putAllWith, ih]

theorem setBalances_eq (m : List (Nat × Balances)) (items : List Balances) :
    setBalances m items = putAllWith (fun b : Balances => b.SID) (fun _ y => y) m items := by
  induction items generalizing m with
  | nil => rfl
  | cons item rest ih => simp [setBalances, putAllWith, putWith_last, ih]

theorem setStats_eq (m : List (Nat × InscriptionsStats)) (slot : Option InscriptionsStats) :
    setStats m slot =
      putAllWith (fun r : InscriptionsStats => r.SID) mergeStats m slot.toList := by
  cases slot with
  | none => rfl
  | some item =>
    simp only [setStats, putStats, Option.toList, putAllWith, putWith]
    cases mapGet m item.SID <;> rfl

theorem applyItems_balances (a : DBAction) (items : List DBModelEvent) (dm : DBModels) :
    (applyItems items dm).Balances.get a =
      putAllWith (fun b : Balances => b.SID) (fun _ y => y) (dm.Balances.get a)
        (items.flatMap (fun event => event.Balances.get a)) := by
  induction items generalizing dm with
  | nil => rfl
  | cons event rest ih =>
    simp only [applyItems, List.flatMap_cons, putAllWith_append]
    rw [ih]
    cases a <;> simp [applyEvent, ByAction.get, setBalances_eq]

theorem applyBlocks_balances (a : DBAction) (blocksEvents : List (Event DBModelEvent))
    (dm : DBModels) :
    (applyBlocks blocksEvents dm).Balances.get a =
      putAllWith (fun b : Balances => b.SID) (fun _ y => y) (dm.Balances.get a)
        (balancesWindow a blocksEvents) := by
  induction blocksEvents generalizing dm with
  | nil => rfl
  | cons blockEvent rest ih =>
    simp only [applyBlocks, balancesWindow, List.flatMap_cons, putAllWith_append]
    rw [ih, applyItems_balances]
    rfl

theorem applyItems_stats (a : DBAction) (items : List DBModelEvent) (dm : DBModels) :
    (applyItems items dm).InscriptionStats.get a =
      putAllWith (fun r : InscriptionsStats => r.SID) mergeStats (dm.InscriptionStats.get a)
        (items.flatMap (fun event => (event.InscriptionStats.get a).toList)) := by
  induction items generalizing dm with
  | nil => rfl
  | cons event rest ih =>
    simp only [applyItems, List.flatMap_cons, putAllWith_append]
    rw [ih]
    cases a <;> simp [applyEvent, ByAction.get, setStats_eq]

theorem applyBlocks_stats (a : DBAction) (blocksEvents : List (Event DBModelEvent))
    (dm : DBModels) :
    (applyBlocks blocksEvents dm).InscriptionStats.get a =
      putAllWith (fun r : InscriptionsStats => r.SID) mergeStats (dm.InscriptionStats.get a)
        (statsWindow a blocksEvents) := by
  induction blocksEvents generalizing dm with
  | nil => rfl
  | cons blockEvent rest ih =>
    simp only [applyBlocks, statsWindow, List.flatMap_cons, putAllWith_append]
    rw [ih, applyItems_stats]
    rfl

theorem applyItems_txs (items : List DBModelEvent) (dm : DBModels) :
    (applyItems items dm).Txs =
      putAllWith (fun t : Transaction => Bytes2Hex t.TxHash) (fun _ y => y) dm.Txs
        (items.map (fun event => event.Tx)) := by
  induction items generalizing dm with
  | nil => rfl
  | cons event rest ih =>
    simp only [applyItems, List.map_cons, putAllWith]
    rw [ih, putWith_last]
    rfl

theorem applyBlocks_txs (blocksEvents : List (Event DBModelEvent)) (dm : DBModels) :
    (applyBlocks blocksEvents dm).Txs =
      putAllWith (fun t : Transaction => Bytes2Hex t.TxHash) (fun _ y => y) dm.Txs
        (txWindow blocksEvents) := by
  induction blocksEvents generalizing dm with
  | nil => rfl
  | cons blockEvent rest ih =>
    simp only [applyBlocks, txWindow, List.flatMap_cons, putAllWith_append]
    rw [ih, applyItems_txs]
    rfl

theorem applyItems_journals (items : List DBModelEvent) (dm : DBModels) :
    (applyItems items dm).AddressTxs =
        dm.AddressTxs ++ items.flatMap (fun event => event.AddressTxs) ∧
      (applyItems items dm).BalanceTxs =
        dm.BalanceTxs ++ items.flatMap (fun event => event.BalanceTxs) := by
  induction items generalizing dm with
  | nil => simp [applyItems]
  | cons event rest ih =>
    simp only [applyItems, List.flatMap_cons]
    rw [(ih _).1, (ih _).2]
    constructor
    · cases h : event.AddressTxs with
      | nil => simp [applyEvent, h]
      | cons x xs => simp [applyEvent, h]
    · cases h : event.BalanceTxs with
      | nil => simp [applyEvent, h]
      | cons x xs => simp [applyEvent, h]

theorem applyBlocks_journals (blocksEvents : List (Event DBModelEvent)) (dm : DBModels) :
    (applyBlocks blocksEvents dm).AddressTxs =
        dm.AddressTxs ++ (windowItems blocksEvents).flatMap (fun event => event.AddressTxs) ∧
      (applyBlocks blocksEvents dm).BalanceTxs =
        dm.BalanceTxs ++ (windowItems blocksEvents).flatMap (fun event => event.BalanceTxs) := by
  induction blocksEvents generalizing dm with
  | nil => simp [applyBlocks, windowItems]
  | cons blockEvent rest ih =>
    simp only [applyBlocks, windowItems, List.flatMap_cons, List.flatMap_append]
    rw [(ih _).1, (ih _).2, (applyItems_journals _ _).1, (applyItems_journals _ _).2]
    simp [windowItems]

/-- What `BuildDBUpdateModel` returns on a window that has a last block
event. -/
theorem buildDBUpdateModel_some (blocksEvents : List (Event DBModelEvent))
    (dmf : DBModelsFattened) (h : BuildDBUpdateModel blocksEvents = some dmf) :
    ∃ lastBlockEvent, blocksEvents.getLast? = some lastBlockEvent ∧
      dmf.BlockStatus = ⟨lastBlockEvent.Chain, lastBlockEvent.BlockHash,
        lastBlockEvent.BlockNum, timeUnix lastBlockEvent.BlockTime, lastBlockEvent.ChainId⟩ ∧
      (∀ a, dmf.InscriptionStats.get a =
        mapValues ((applyBlocks blocksEvents emptyDBModels).InscriptionStats.get a)) ∧
      (∀ a, dmf.Balances.get a =
        mapValues ((applyBlocks blocksEvents emptyDBModels).Balances.get a)) ∧
      dmf.Txs = mapValues (applyBlocks blocksEvents emptyDBModels).Txs ∧
      dmf.AddressTxs = (applyBlocks blocksEvents emptyDBModels).AddressTxs ∧
      dmf.BalanceTxs = (applyBlocks blocksEvents emptyDBModels).BalanceTxs := by
  unfold BuildDBUpdateModel at h
  cases hl : blocksEvents.getLast? with
  | none => simp [hl] at h
  | some lastBlockEvent =>
    simp only [hl, Option.some.injEq] at h
    subst h
    refine ⟨lastBlockEvent, rfl, rfl, ?_, ?_, rfl, rfl, rfl⟩
    · intro a
      cases a <;> rfl
    · intro a
      cases a <;> rfl

/-! ## Flush batch: properties -/

theorem buildDBUpdateModel_total (blocksEvents : List (Event DBModelEvent))
    (hne : blocksEvents ≠ []) : ∃ dmf, BuildDBUpdateModel blocksEvents = some dmf := by
  unfold BuildDBUpdateModel
  cases hl : blocksEvents.getLast? with
  | none => exact absurd (List.getLast?_eq_none_iff.mp hl) hne
  | some lastBlockEvent => exact ⟨_, rfl⟩

theorem emptyDBModels_get (a : DBAction) :
    emptyDBModels.Balances.get a = [] ∧ emptyDBModels.InscriptionStats.get a = [] := by
  cases a <;> exact ⟨rfl, rfl⟩

/-- The values of a map filled by last-write-wins assignments from an empty
map: one per key, each the last value assigned to its key. -/
theorem lastWins_values {K V : Type} [DecidableEq K] (key : V → K) (W : List V) :
    ((mapValues (putAllWith key (fun _ y => y) [] W)).map key).Nodup ∧
      (∀ r, r ∈ mapValues (putAllWith key (fun _ y => y) [] W) ↔
        (W.filter (fun s => decide (key s = key r))).getLast? = some r) ∧
      ∀ k, (∃ r ∈ mapValues (putAllWith key (fun _ y => y) [] W), key r = k) ↔
        ∃ s ∈ W, key s = k := by
  have hwf := putAllWith_wellFormed key (fun _ y => y) (fun _ _ => rfl) [] W
    ⟨List.nodup_nil, fun p hp => absurd hp (List.not_mem_nil p)⟩
  have hmem : ∀ r, r ∈ mapValues (putAllWith key (fun _ y => y) [] W) ↔
      (W.filter (fun s => decide (key s = key r))).getLast? = some r := by
    intro r
    rw [mem_mapValues_iff key _ hwf, mapGet_putAllWith, mergeOpt_last]
    simp [mapGet]
  refine ⟨nodup_mapValues_keys key _ hwf, hmem, ?_⟩
  intro k
  constructor
  · rintro ⟨r, hr, rfl⟩
    have hlast := (hmem r).mp hr
    obtain ⟨ys, hys⟩ := List.getLast?_eq_some_iff.mp hlast
    have hin : r ∈ W.filter (fun s => decide (key s = key r)) := by
      rw [hys]
      simp
    exact ⟨r, (List.mem_filter.mp hin).1, rfl⟩
  · rintro ⟨s, hs, rfl⟩
    have hin : s ∈ W.filter (fun t => decide (key t = key s)) :=
      List.mem_filter.mpr ⟨hs, by simp⟩
    have hne : W.filter (fun t => decide (key t = key s)) ≠ [] := List.ne_nil_of_mem hin
    have hlast := List.getLast?_eq_getLast _ hne
    have hrin := List.getLast_mem hne
    have hkey : key ((W.filter (fun t => decide (key t = key s))).getLast hne) = key s := by
      have := (List.mem_filter.mp hrin).2
      simpa using this
    refine ⟨_, (hmem _).mpr ?_, hkey⟩
    rw [hkey]
    exact hlast

/-- C13: for a non-empty flush window and either action, the flattened
balance list holds no two records with the same sid, holds a record for exactly
the sids that occur among the window's balance snapshots of that action, and
each of its records is the last snapshot with its sid in window order. -/
theorem balances_dedup_last_wins (blocksEvents : List (Event DBModelEvent)) (a : DBAction)
    (hne : blocksEvents ≠ []) :
    ∃ dmf, BuildDBUpdateModel blocksEvents = some dmf ∧
      ((dmf.Balances.get a).map (fun b => b.SID)).Nodup ∧
      (∀ sid, (∃ r ∈ dmf.Balances.get a, r.SID = sid) ↔
        ∃ s ∈ balancesWindow a blocksEvents, s.SID = sid) ∧
      ∀ r, r ∈ dmf.Balances.get a ↔
        ((balancesWindow a blocksEvents).filter (fun s => decide (s.SID = r.SID))).getLast? =
          some r := by
  obtain ⟨dmf, h⟩ := buildDBUpdateModel_total blocksEvents hne
  obtain ⟨_, _, _, _, hbal, _⟩ := buildDBUpdateModel_some blocksEvents dmf h
  have hvals := lastWins_values (fun b : Balances => b.SID) (balancesWindow a blocksEvents)
  have hflat : dmf.Balances.get a = mapValues (putAllWith (fun b : Balances => b.SID)
      (fun _ y => y) [] (balancesWindow a blocksEvents)) := by
    rw [hbal a, applyBlocks_balances, (emptyDBModels_get a).1]
  refine ⟨dmf, h, ?_⟩
  rw [hflat]
  exact ⟨hvals.1, hvals.2.2, hvals.2.1⟩

theorem balances_dedup_last_wins_witness :
    sampleWindow ≠ [] ∧
    ∃ dmf, BuildDBUpdateModel sampleWindow = some dmf ∧
      ((dmf.Balances.get .update).map (fun b => b.SID)).Nodup ∧
      (∀ sid, (∃ r ∈ dmf.Balances.get .update, r.SID = sid) ↔
        ∃ s ∈ balancesWindow .update sampleWindow, s.SID = sid) ∧
      ∀ r, r ∈ dmf.Balances.get .update ↔
        ((balancesWindow .update sampleWindow).filter
          (fun s => decide (s.SID = r.SID))).getLast? = some r :=
  ⟨List.cons_ne_nil _ _,
    balances_dedup_last_wins sampleWindow .update (List.cons_ne_nil _ _)⟩

theorem hexDigit_inj : ∀ i j : Fin 16, hexDigit i.val = hexDigit j.val → i = j := by
  decide

theorem hexByte_inj (b c : Fin 256) (hhi : hexDigit (b.val / 16) = hexDigit (c.val / 16))
    (hlo : hexDigit (b.val % 16) = hexDigit (c.val % 16)) : b = c := by
  have hb := b.isLt
  have hc := c.isLt
  have h1 := hexDigit_inj ⟨b.val / 16, by omega⟩ ⟨c.val / 16, by omega⟩ hhi
  have h2 := hexDigit_inj ⟨b.val % 16, by omega⟩ ⟨c.val % 16, by omega⟩ hlo
  have h3 : b.val / 16 = c.val / 16 := congrArg Fin.val h1
  have h4 : b.val % 16 = c.val % 16 := congrArg Fin.val h2
  apply Fin.ext
  omega

/-- The hexadecimal rendering of a byte string determines the byte string. -/
theorem bytes2Hex_inj (x y : List (Fin 256)) (h : Bytes2Hex x = Bytes2Hex y) : x = y := by
  induction x generalizing y with
  | nil =>
    cases y with
    | nil => rfl
    | cons c rest =>
      have := congrArg String.data h
      simp [Bytes2Hex] at this
  | cons b rest ih =>
    cases y with
    | nil =>
      have := congrArg String.data h
      simp [Bytes2Hex] at this
    | cons c rest2 =>
      have hd := congrArg String.data h
      simp only [Bytes2Hex, List.cons.injEq] at hd
      obtain ⟨hhi, hlo, htail⟩ := hd
      rw [hexByte_inj b c hhi hlo, ih rest2 (String.ext htail)]

/-- C14: for a non-empty flush window, the flattened transaction list holds
one record per distinct transaction hash of the window (the map key, the hex
string of the hash bytes, determines the bytes): no two records share a hash,
each record is the row of the last event of the window carrying its hash, and
the length of the list is the number of distinct hashes. -/
theorem txs_dedup_last_wins (blocksEvents : List (Event DBModelEvent))
    (hne : blocksEvents ≠ []) :
    ∃ dmf, BuildDBUpdateModel blocksEvents = some dmf ∧
      (dmf.Txs.map (fun t => t.TxHash)).Nodup ∧
      (∀ hash, hash ∈ dmf.Txs.map (fun t => t.TxHash) ↔
        hash ∈ (txWindow blocksEvents).map (fun t => t.TxHash)) ∧
      (∀ r, r ∈ dmf.Txs ↔
        ((txWindow blocksEvents).filter (fun t => decide (t.TxHash = r.TxHash))).getLast? =
          some r) ∧
      dmf.Txs.length = ((txWindow blocksEvents).map (fun t => t.TxHash)).dedup.length := by
  obtain ⟨dmf, h⟩ := buildDBUpdateModel_total blocksEvents hne
  obtain ⟨_, _, _, _, _, htxs, _⟩ := buildDBUpdateModel_some blocksEvents dmf h
  have hvals := lastWins_values (fun t : Transaction => Bytes2Hex t.TxHash) (txWindow blocksEvents)
  have hflat : dmf.Txs = mapValues (putAllWith (fun t : Transaction => Bytes2Hex t.TxHash)
      (fun _ y => y) [] (txWindow blocksEvents)) := by
    rw [htxs, applyBlocks_txs]
    rfl
  rw [← hflat] at hvals
  obtain ⟨hnodup, hlast, hkeys⟩ := hvals
  have hnd : (dmf.Txs.map (fun t => t.TxHash)).Nodup := by
    apply List.Nodup.of_map Bytes2Hex
    rw [List.map_map]
    exact hnodup
  have hmem : ∀ hash, hash ∈ dmf.Txs.map (fun t => t.TxHash) ↔
      hash ∈ (txWindow blocksEvents).map (fun t => t.TxHash) := by
    intro hash
    simp only [List.mem_map]
    constructor
    · rintro ⟨r, hr, rfl⟩
      obtain ⟨s1, hs1, hk⟩ := (hkeys (Bytes2Hex r.TxHash)).mp ⟨r, hr, rfl⟩
      exact ⟨s1, hs1, bytes2Hex_inj _ _ hk⟩
    · rintro ⟨s1, hs1, rfl⟩
      obtain ⟨r, hr, hk⟩ := (hkeys (Bytes2Hex s1.TxHash)).mpr ⟨s1, hs1, rfl⟩
      exact ⟨r, hr, bytes2Hex_inj _ _ hk⟩
  refine ⟨dmf, h, hnd, hmem, ?_, ?_⟩
  · intro r
    rw [hlast r]
    have hcongr : (txWindow blocksEvents).filter
          (fun s => decide (Bytes2Hex s.TxHash = Bytes2Hex r.TxHash)) =
        (txWindow blocksEvents).filter (fun t => decide (t.TxHash = r.TxHash)) := by
      apply List.filter_congr
      intro x _
      by_cases hx : x.TxHash = r.TxHash
      · simp [hx]
      · have hx2 : ¬ Bytes2Hex x.TxHash = Bytes2Hex r.TxHash := fun hh => hx (bytes2Hex_inj _ _ hh)
        simp [hx, hx2]
    rw [hcongr]
  · have hperm : (dmf.Txs.map (fun t => t.TxHash)).Perm
        ((txWindow blocksEvents).map (fun t => t.TxHash)).dedup := by
      rw [List.perm_ext_iff_of_nodup hnd (List.nodup_dedup _)]
      intro hash
      rw [List.mem_dedup]
      exact hmem hash
    have := hperm.length_eq
    simpa using this

theorem txs_dedup_last_wins_witness :
    sampleWindow ≠ [] ∧
    ∃ dmf, BuildDBUpdateModel sampleWindow = some dmf ∧
      (dmf.Txs.map (fun t => t.TxHash)).Nodup ∧
      (∀ hash, hash ∈ dmf.Txs.map (fun t => t.TxHash) ↔
        hash ∈ (txWindow sampleWindow).map (fun t => t.TxHash)) ∧
      (∀ r, r ∈ dmf.Txs ↔
        ((txWindow sampleWindow).filter (fun t => decide (t.TxHash = r.TxHash))).getLast? =
          some r) ∧
      dmf.Txs.length = ((txWindow sampleWindow).map (fun t => t.TxHash)).dedup.length :=
  ⟨List.cons_ne_nil _ _, txs_dedup_last_wins sampleWindow (List.cons_ne_nil _ _)⟩

/-- C15: for a non-empty flush window, the flattened address journal is the
concatenation, block events in order and then items in order, of the address
journals of all items, the flattened balance journal is the same concatenation
of their balance journals, and each length is the sum of the items' lengths. -/
theorem journals_append_only (blocksEvents : List (Event DBModelEvent))
    (hne : blocksEvents ≠ []) :
    ∃ dmf, BuildDBUpdateModel blocksEvents = some dmf ∧
      dmf.AddressTxs =
        blocksEvents.flatMap (fun blockEvent =>
          blockEvent.Items.flatMap (fun event => event.AddressTxs)) ∧
      dmf.BalanceTxs =
        blocksEvents.flatMap (fun blockEvent =>
          blockEvent.Items.flatMap (fun event => event.BalanceTxs)) ∧
      dmf.AddressTxs.length =
        ((windowItems blocksEvents).map (fun event => event.AddressTxs.length)).sum ∧
      dmf.BalanceTxs.length =
        ((windowItems blocksEvents).map (fun event => event.BalanceTxs.length)).sum := by
  obtain ⟨dmf, h⟩ := buildDBUpdateModel_total blocksEvents hne
  obtain ⟨_, _, _, _, _, _, haddr, hbal⟩ := buildDBUpdateModel_some blocksEvents dmf h
  have hj := applyBlocks_journals blocksEvents emptyDBModels
  have h1 : dmf.AddressTxs = (windowItems blocksEvents).flatMap (fun event => event.AddressTxs) := by
    rw [haddr, hj.1]
    simp [emptyDBModels]
  have h2 : dmf.BalanceTxs = (windowItems blocksEvents).flatMap (fun event => event.BalanceTxs) := by
    rw [hbal, hj.2]
    simp [emptyDBModels]
  refine ⟨dmf, h, ?_, ?_, ?_, ?_⟩
  · rw [h1, windowItems, List.flatMap_assoc]
  · rw [h2, windowItems, List.flatMap_assoc]
  · rw [h1, List.length_flatMap]
    rfl
  · rw [h2, List.length_flatMap]
    rfl

theorem journals_append_only_witness :
    sampleWindow ≠ [] ∧
    ∃ dmf, BuildDBUpdateModel sampleWindow = some dmf ∧
      dmf.AddressTxs =
        sampleWindow.flatMap (fun blockEvent =>
          blockEvent.Items.flatMap (fun event => event.AddressTxs)) ∧
      dmf.BalanceTxs =
        sampleWindow.flatMap (fun blockEvent =>
          blockEvent.Items.flatMap (fun event => event.BalanceTxs)) ∧
      dmf.AddressTxs.length =
        ((windowItems sampleWindow).map (fun event => event.AddressTxs.length)).sum ∧
      dmf.BalanceTxs.length =
        ((windowItems sampleWindow).map (fun event => event.BalanceTxs.length)).sum :=
  ⟨List.cons_ne_nil _ _, journals_append_only sampleWindow (List.cons_ne_nil _ _)⟩

/-- C16: for a non-empty list of block events, the block status of the batch
has the chain, block hash, block number, block time and chain id of the last
block event; when the block numbers of the list are in non-decreasing order,
its block number is the largest block number of the window. -/
theorem blockStatus_from_last (blocksEvents : List (Event DBModelEvent))
    (hne : blocksEvents ≠ []) :
    ∃ dmf init last, BuildDBUpdateModel blocksEvents = some dmf ∧
      blocksEvents = init ++ [last] ∧
      dmf.BlockStatus.Chain = last.Chain ∧
      dmf.BlockStatus.BlockHash = last.BlockHash ∧
      dmf.BlockStatus.BlockNumber = last.BlockNum ∧
      dmf.BlockStatus.BlockTime = timeUnix last.BlockTime ∧
      dmf.BlockStatus.ChainId = last.ChainId ∧
      ((blocksEvents.map (fun ev => ev.BlockNum)).Pairwise (fun x y => x ≤ y) →
        ∀ ev ∈ blocksEvents, ev.BlockNum ≤ dmf.BlockStatus.BlockNumber) := by
  obtain ⟨dmf, h⟩ := buildDBUpdateModel_total blocksEvents hne
  obtain ⟨last, hlast, hbs, _⟩ := buildDBUpdateModel_some blocksEvents dmf h
  obtain ⟨init, hinit⟩ := List.getLast?_eq_some_iff.mp hlast
  refine ⟨dmf, init, last, h, hinit, ?_, ?_, ?_, ?_, ?_, ?_⟩
  · rw [hbs]
  · rw [hbs]
  · rw [hbs]
  · rw [hbs]
  · rw [hbs]
  · intro hsorted ev hev
    rw [hbs]
    simp only
    rw [hinit, List.map_append, List.pairwise_append] at hsorted
    rw [hinit] at hev
    rcases List.mem_append.mp hev with hev | hev
    · exact hsorted.2.2 ev.BlockNum (List.mem_map_of_mem _ hev) last.BlockNum (by simp)
    · rw [List.mem_singleton.mp hev]

theorem blockStatus_from_last_witness :
    sampleWindow ≠ [] ∧
    ∃ dmf init last, BuildDBUpdateModel sampleWindow = some dmf ∧
      sampleWindow = init ++ [last] ∧
      dmf.BlockStatus.Chain = last.Chain ∧
      dmf.BlockStatus.BlockHash = last.BlockHash ∧
      dmf.BlockStatus.BlockNumber = last.BlockNum ∧
      dmf.BlockStatus.BlockTime = timeUnix last.BlockTime ∧
      dmf.BlockStatus.ChainId = last.ChainId ∧
      ((sampleWindow.map (fun ev => ev.BlockNum)).Pairwise (fun x y => x ≤ y) →
        ∀ ev ∈ sampleWindow, ev.BlockNum ≤ dmf.BlockStatus.BlockNumber) :=
  ⟨List.cons_ne_nil _ _, blockStatus_from_last sampleWindow (List.cons_ne_nil _ _)⟩

/-! ## Flush batch: statistics merge -/

theorem mergeStats_eq (m x : InscriptionsStats) :
    mergeStats m x =
      { x with
        MintFirstBlock := if m.MintFirstBlock > 0 then m.MintFirstBlock else x.MintFirstBlock
        MintLastBlock := if m.MintLastBlock > 0 then m.MintLastBlock else x.MintLastBlock
        MintCompletedTime :=
          if m.MintCompletedTime ≠ none then m.MintCompletedTime else x.MintCompletedTime } := by
  unfold mergeStats
  by_cases h1 : m.MintFirstBlock > 0 <;> by_cases h2 : m.MintLastBlock > 0 <;>
    by_cases h3 : m.MintCompletedTime = none <;> simp [h1, h2, h3]

theorem firstNonZero_merge (a b : Nat) (rest : List Nat) :
    firstNonZero ((if a > 0 then a else b) :: rest) = firstNonZero (a :: b :: rest) := by
  by_cases h : a > 0
  · simp [firstNonZero, h]
  · simp [firstNonZero, h]

theorem firstSet_merge (a b : Option Int) (rest : List (Option Int)) :
    firstSet ((if a ≠ none then a else b) :: rest) = firstSet (a :: b :: rest) := by
  by_cases h : a = none
  · simp [firstSet, h]
  · simp [firstSet, h]

theorem mergedStats_single (m : InscriptionsStats) : mergedStats [m] = some m := by
  obtain ⟨sid, chain, protocol, tick, minted, completed, first, last, holders, txCnt⟩ := m
  have h1 : firstNonZero [first] = first := by
    by_cases h : first > 0
    · simp [firstNonZero, h]
    · simp only [firstNonZero, h, if_false]
      omega
  have h2 : firstNonZero [last] = last := by
    by_cases h : last > 0
    · simp [firstNonZero, h]
    · simp only [firstNonZero, h, if_false]
      omega
  have h3 : firstSet [completed] = completed := by
    cases completed <;> simp [firstSet]
  simp [mergedStats, h1, h2, h3]

theorem mergedStats_merge (m x : InscriptionsStats) (xs : List InscriptionsStats) :
    mergedStats (mergeStats m x :: xs) = mergedStats (m :: x :: xs) := by
  have hf : firstNonZero ((mergeStats m x).MintFirstBlock :: xs.map (fun r => r.MintFirstBlock)) =
      firstNonZero (m.MintFirstBlock :: x.MintFirstBlock :: xs.map (fun r => r.MintFirstBlock)) := by
    rw [mergeStats_eq]
    exact firstNonZero_merge _ _ _
  have hl : firstNonZero ((mergeStats m x).MintLastBlock :: xs.map (fun r => r.MintLastBlock)) =
      firstNonZero (m.MintLastBlock :: x.MintLastBlock :: xs.map (fun r => r.MintLastBlock)) := by
    rw [mergeStats_eq]
    exact firstNonZero_merge _ _ _
  have ht : firstSet ((mergeStats m x).MintCompletedTime ::
        xs.map (fun r => r.MintCompletedTime)) =
      firstSet (m.MintCompletedTime :: x.MintCompletedTime ::
        xs.map (fun r => r.MintCompletedTime)) := by
    rw [mergeStats_eq]
    exact firstSet_merge _ _ _
  cases xs with
  | nil =>
    simp only [mergedStats, List.map_cons, List.map_nil] at hf hl ht ⊢
    simp only [List.getLast?_singleton, List.getLast?_cons_cons, Option.map_some', hf, hl, ht]
    rw [mergeStats_eq]
  | cons y ys =>
    simp only [mergedStats, List.map_cons] at hf hl ht ⊢
    simp only [List.getLast?_cons_cons, hf, hl, ht]

theorem mergeOpt_mergeStats (m : InscriptionsStats) (xs : List InscriptionsStats) :
    mergeOpt mergeStats (some m) xs = mergedStats (m :: xs) := by
  induction xs generalizing m with
  | nil => simp [mergeOpt, mergedStats_single]
  | cons x rest ih => simp only [mergeOpt, ih, mergedStats_merge]

theorem mergeOpt_mergeStats_none (xs : List InscriptionsStats) :
    mergeOpt mergeStats none xs = mergedStats xs := by
  cases xs with
  | nil => rfl
  | cons x rest => simp only [mergeOpt, mergeOpt_mergeStats]

/-- The rows of the flattened statistics list of an action: no two share a
sid, and the row of a sid is the merge of the window's records of that sid. -/
theorem stats_rows (blocksEvents : List (Event DBModelEvent)) (a : DBAction)
    (dmf : DBModelsFattened) (h : BuildDBUpdateModel blocksEvents = some dmf) :
    ((dmf.InscriptionStats.get a).map (fun r => r.SID)).Nodup ∧
      ∀ sid row, (row ∈ dmf.InscriptionStats.get a ∧ row.SID = sid) ↔
        mergedStats ((statsWindow a blocksEvents).filter (fun r => decide (r.SID = sid))) =
          some row := by
  obtain ⟨_, _, _, hstats, _⟩ := buildDBUpdateModel_some blocksEvents dmf h
  have hkey : ∀ old x : InscriptionsStats, (mergeStats old x).SID = x.SID := by
    intro old x
    rw [mergeStats_eq]
  have hwf := putAllWith_wellFormed (fun r : InscriptionsStats => r.SID) mergeStats hkey []
    (statsWindow a blocksEvents) ⟨List.nodup_nil, fun p hp => absurd hp (List.not_mem_nil p)⟩
  have hflat : dmf.InscriptionStats.get a = mapValues (putAllWith
      (fun r : InscriptionsStats => r.SID) mergeStats [] (statsWindow a blocksEvents)) := by
    rw [hstats a, applyBlocks_stats, (emptyDBModels_get a).2]
  have hget : ∀ sid, mapGet (putAllWith (fun r : InscriptionsStats => r.SID) mergeStats []
        (statsWindow a blocksEvents)) sid =
      mergedStats ((statsWindow a blocksEvents).filter (fun r => decide (r.SID = sid))) := by
    intro sid
    rw [mapGet_putAllWith, ← mergeOpt_mergeStats_none]
    rfl
  rw [hflat]
  refine ⟨nodup_mapValues_keys _ _ hwf, ?_⟩
  intro sid row
  rw [← hget sid, mem_mapValues_iff _ _ hwf]
  constructor
  · rintro ⟨hrow, rfl⟩
    exact hrow
  · intro hrow
    have hin := (mem_iff_mapGet _ hwf.1 sid row).mpr hrow
    have hsid : row.SID = sid := hwf.2 (sid, row) hin
    exact ⟨by rw [hsid]; exact hrow, hsid⟩

theorem mergedStats_concat (init : List InscriptionsStats) (sn : InscriptionsStats) :
    mergedStats (init ++ [sn]) =
      some { sn with
        MintFirstBlock := firstNonZero ((init ++ [sn]).map (fun r => r.MintFirstBlock))
        MintLastBlock := firstNonZero ((init ++ [sn]).map (fun r => r.MintLastBlock))
        MintCompletedTime := firstSet ((init ++ [sn]).map (fun r => r.MintCompletedTime)) } := by
  simp [mergedStats]

/-- C11: for a non-empty flush window, an action and a sid, the flattened
statistics list holds no two rows with the same sid, and for the window's
records `s1..sn` of that sid under that action it holds exactly one row of that
sid: the record `sn` with `mint_first_block` the first non-zero one among
`s1..sn` (0 if none), `mint_last_block` the first non-zero one, and
`mint_completed_time` the first non-null one. For an older update with
`mint_first_block = 50` and no `mint_last_block`, followed by a newer one with
`mint_last_block = 100`, the row has 50 and 100. -/
theorem stats_dedup_merge (blocksEvents : List (Event DBModelEvent)) (a : DBAction) (sid : Nat)
    (hne : blocksEvents ≠ []) :
    ∃ dmf, BuildDBUpdateModel blocksEvents = some dmf ∧
      ((dmf.InscriptionStats.get a).map (fun r => r.SID)).Nodup ∧
      (∀ init sn,
        (statsWindow a blocksEvents).filter (fun r => decide (r.SID = sid)) = init ++ [sn] →
        ∃ row, (∀ r, (r ∈ dmf.InscriptionStats.get a ∧ r.SID = sid) ↔ r = row) ∧
          row = { sn with
            MintFirstBlock := firstNonZero ((init ++ [sn]).map (fun r => r.MintFirstBlock))
            MintLastBlock := firstNonZero ((init ++ [sn]).map (fun r => r.MintLastBlock))
            MintCompletedTime :=
              firstSet ((init ++ [sn]).map (fun r => r.MintCompletedTime)) } ∧
          row.Minted = sn.Minted ∧ row.Holders = sn.Holders ∧ row.TxCnt = sn.TxCnt) ∧
      (∀ older newer,
        (statsWindow a blocksEvents).filter (fun r => decide (r.SID = sid)) = [older, newer] →
        older.MintFirstBlock = 50 → older.MintLastBlock = 0 → newer.MintLastBlock = 100 →
        ∃ row ∈ dmf.InscriptionStats.get a, row.SID = sid ∧
          row.MintFirstBlock = 50 ∧ row.MintLastBlock = 100) := by
  obtain ⟨dmf, h⟩ := buildDBUpdateModel_total blocksEvents hne
  obtain ⟨hnodup, hrows⟩ := stats_rows blocksEvents a dmf h
  refine ⟨dmf, h, hnodup, ?_, ?_⟩
  · intro init sn hS
    refine ⟨_, ?_, rfl, rfl, rfl, rfl⟩
    intro r
    rw [hrows sid r, hS, mergedStats_concat]
    constructor
    · intro hr
      exact (Option.some.inj hr).symm
    · intro hr
      rw [hr]
  · intro older newer hS hfirst hlast hnew
    have hrow := (hrows sid _).mpr (by rw [hS]; exact mergedStats_concat [older] newer)
    refine ⟨_, hrow.1, hrow.2, ?_, ?_⟩
    · simp [firstNonZero, hfirst]
    · simp [firstNonZero, hlast, hnew]

theorem stats_dedup_merge_witness :
    sampleWindow ≠ [] ∧
    (statsWindow .update sampleWindow).filter (fun r => decide (r.SID = 7)) =
      [sampleStats 100 50 0 none, sampleStats 1000 0 100 (some 1700000012)] ∧
    ∃ dmf, BuildDBUpdateModel sampleWindow = some dmf ∧
      ((dmf.InscriptionStats.get .update).map (fun r => r.SID)).Nodup ∧
      (∀ init sn,
        (statsWindow .update sampleWindow).filter (fun r => decide (r.SID = 7)) = init ++ [sn] →
        ∃ row, (∀ r, (r ∈ dmf.InscriptionStats.get .update ∧ r.SID = 7) ↔ r = row) ∧
          row = { sn with
            MintFirstBlock := firstNonZero ((init ++ [sn]).map (fun r => r.MintFirstBlock))
            MintLastBlock := firstNonZero ((init ++ [sn]).map (fun r => r.MintLastBlock))
            MintCompletedTime :=
              firstSet ((init ++ [sn]).map (fun r => r.MintCompletedTime)) } ∧
          row.Minted = sn.Minted ∧ row.Holders = sn.Holders ∧ row.TxCnt = sn.TxCnt) ∧
      (∀ older newer,
        (statsWindow .update sampleWindow).filter (fun r => decide (r.SID = 7)) =
          [older, newer] →
        older.MintFirstBlock = 50 → older.MintLastBlock = 0 → newer.MintLastBlock = 100 →
        ∃ row ∈ dmf.InscriptionStats.get .update, row.SID = 7 ∧
          row.MintFirstBlock = 50 ∧ row.MintLastBlock = 100) :=
  ⟨List.cons_ne_nil _ _, by rfl,
    stats_dedup_merge sampleWindow .update 7 (List.cons_ne_nil _ _)⟩

theorem firstSet_cons_set (t : Option Int) (rest : List (Option Int)) (h : t ≠ none) :
    firstSet (t :: rest) = t := by
  simp [firstSet, h]

/-- C12, the claim as stated fails: in a window where sid 7 is updated with
completion time 1000 in block 11 and with completion time 2000 in block 12,
the flushed row carries 1000, the earliest of the two, and not the latest. -/
theorem stats_dedup_not_latest_completed :
    (statsWindow .update sampleDoneWindow).map (fun r => (r.SID, r.MintCompletedTime)) =
      [(7, some 1000), (7, some 2000)] ∧
    (BuildDBUpdateModel sampleDoneWindow).map
        (fun dmf => dmf.InscriptionStats.update.map
          (fun r => (r.SID, r.MintFirstBlock, r.MintCompletedTime))) =
      some [(7, 11, some 1000)] :=
  ⟨by rfl, by rfl⟩

/-- C12, amended: for a non-empty flush window holding the updates
`s1, ..., sn` of one sid under one action, all with a set
`mint_completed_time`, the flushed row of that sid keeps the first non-zero
`mint_first_block` and the `mint_completed_time` of `s1`, the first of them in
window order. -/
theorem stats_dedup_keeps_first_completed (blocksEvents : List (Event DBModelEvent))
    (a : DBAction) (sid : Nat) (s1 : InscriptionsStats) (rest : List InscriptionsStats)
    (hne : blocksEvents ≠ [])
    (hS : (statsWindow a blocksEvents).filter (fun r => decide (r.SID = sid)) = s1 :: rest)
    (hset : ∀ s ∈ s1 :: rest, s.MintCompletedTime ≠ none) :
    ∃ dmf row, BuildDBUpdateModel blocksEvents = some dmf ∧
      (∀ r, (r ∈ dmf.InscriptionStats.get a ∧ r.SID = sid) ↔ r = row) ∧
      row.MintCompletedTime = s1.MintCompletedTime ∧
      row.MintFirstBlock = firstNonZero ((s1 :: rest).map (fun r => r.MintFirstBlock)) := by
  obtain ⟨dmf, h⟩ := buildDBUpdateModel_total blocksEvents hne
  obtain ⟨_, hrows⟩ := stats_rows blocksEvents a dmf h
  have hlast : ∃ init sn, s1 :: rest = init ++ [sn] := by
    have hnn : (s1 :: rest).getLast? ≠ none := by
      intro hnone
      exact List.cons_ne_nil _ _ (List.getLast?_eq_none_iff.mp hnone)
    cases hl : (s1 :: rest).getLast? with
    | none => exact absurd hl hnn
    | some sn =>
      obtain ⟨init, hinit⟩ := List.getLast?_eq_some_iff.mp hl
      exact ⟨init, sn, hinit⟩
  obtain ⟨init, sn, hsplit⟩ := hlast
  have hmerged := mergedStats_concat init sn
  rw [← hsplit] at hmerged
  refine ⟨dmf,
    { sn with
      MintFirstBlock := firstNonZero ((s1 :: rest).map (fun r => r.MintFirstBlock))
      MintLastBlock := firstNonZero ((s1 :: rest).map (fun r => r.MintLastBlock))
      MintCompletedTime := firstSet ((s1 :: rest).map (fun r => r.MintCompletedTime)) },
    h, ?_, ?_, rfl⟩
  · intro r
    rw [hrows sid r, hS, hmerged]
    constructor
    · intro hr
      exact (Option.some.inj hr).symm
    · intro hr
      rw [hr]
  · simp only [List.map_cons]
    exact firstSet_cons_set _ _ (hset s1 (List.mem_cons_self _ _))

theorem stats_dedup_keeps_first_completed_witness :
    sampleDoneWindow ≠ [] ∧
    (statsWindow .update sampleDoneWindow).filter (fun r => decide (r.SID = 7)) =
      sampleStats 1000 11 11 (some 1000) :: [sampleStats 1000 0 12 (some 2000)] ∧
    (∀ s ∈ sampleStats 1000 11 11 (some 1000) :: [sampleStats 1000 0 12 (some 2000)],
      s.MintCompletedTime ≠ none) ∧
    ∃ dmf row, BuildDBUpdateModel sampleDoneWindow = some dmf ∧
      (∀ r, (r ∈ dmf.InscriptionStats.get .update ∧ r.SID = 7) ↔ r = row) ∧
      row.MintCompletedTime = (sampleStats 1000 11 11 (some 1000)).MintCompletedTime ∧
      row.MintFirstBlock = firstNonZero
        ((sampleStats 1000 11 11 (some 1000) :: [sampleStats 1000 0 12 (some 2000)]).map
          (fun r => r.MintFirstBlock)) :=
  ⟨List.cons_ne_nil _ _, by rfl, by simp [sampleStats],
    stats_dedup_keeps_first_completed sampleDoneWindow .update 7 _ _ (List.cons_ne_nil _ _)
      (by rfl) (by simp [sampleStats])⟩

/-! ## Builders: statistics record -/

/-- The result of `BuildInscriptionStat` in closed form, when the statistics
entry of the tick is in the cache. -/
theorem buildInscriptionStat_eq (cache : CacheView) (e : TxResult) (d : StatsEntry)
    (hd : cache.InscriptionStats e.MD.Protocol e.MD.Tick = some d) :
    BuildInscriptionStat cache e =
      match e.Mint with
      | none => some (statsMap e (baseStats e d))
      | some mint =>
        match cache.Inscription e.MD.Protocol e.MD.Tick with
        | none => none
        | some inscription =>
          some (statsMap e
            { baseStats e d with
              MintFirstBlock := if d.Minted = mint.Amount then e.Block.Number else 0
              MintLastBlock := if inscription.TotalSupply ≤ d.Minted then e.Block.Number else 0
              MintCompletedTime :=
                if inscription.TotalSupply ≤ d.Minted then some (timeUnix e.Block.Time)
                else none }) := by
  unfold BuildInscriptionStat
  simp only [hd]
  cases hm : e.Mint with
  | none =>
    simp only [statsMap, baseStats]
    split_ifs <;> rfl
  | some mint =>
    cases hi : cache.Inscription e.MD.Protocol e.MD.Tick with
    | none => simp
    | some inscription =>
      simp only [statsMap, baseStats]
      split_ifs <;> rfl

/-- C17, the claim as stated fails: a mint of amount 0 on a tick whose minted
total is 0 leaves the total at 0, yet its statistics record carries the block
number 11 as `mint_first_block`. -/
theorem buildInscriptionStat_zero_mint :
    (sampleMintResult 0 false).Block.Number = 11 ∧
    (sampleCache (0 + 0) 100).InscriptionStats "asc-20" "dino" = some ⟨7, 0 + 0, 2, 5⟩ ∧
    ¬ ((0 : Decimal) < 0 + 0) ∧
    (BuildInscriptionStat (sampleCache (0 + 0) 100) (sampleMintResult 0 false)).map
        (fun m => m.update.map (fun r => r.MintFirstBlock)) = some (some 11) := by
  refine ⟨rfl, rfl, by norm_num, ?_⟩
  rw [buildInscriptionStat_eq _ _ ⟨7, 0 + 0, 2, 5⟩ rfl]
  simp [sampleMintResult, sampleCache, statsMap, baseStats, sampleBlock]

/-- C17, amended: let the cache hold the statistics entry of the tick and, for
a mint, its inscription entry. For a mint built against a cache in which the
mint has just been applied (the cached minted total is the total before the
mint plus the mint amount), `mint_first_block` is the block number when the
total before the mint was 0, and 0 otherwise; for a mint of positive amount in
a block of positive number it equals the block number exactly when the mint
moved the total from zero to above zero. For a result that is not a mint,
`mint_first_block` is 0. -/
theorem buildInscriptionStat_first_block (cache : CacheView) (e : TxResult) (d : StatsEntry)
    (hd : cache.InscriptionStats e.MD.Protocol e.MD.Tick = some d)
    (hins : e.Mint ≠ none → cache.Inscription e.MD.Protocol e.MD.Tick ≠ none) :
    ∃ data, BuildInscriptionStat cache e = some (statsMap e data) ∧
      (∀ mint before, e.Mint = some mint → d.Minted = before + mint.Amount →
        data.MintFirstBlock = (if before = 0 then e.Block.Number else 0) ∧
        (0 < mint.Amount → 0 < e.Block.Number →
          (data.MintFirstBlock = e.Block.Number ↔ (before = 0 ∧ 0 < d.Minted)))) ∧
      (e.Mint = none → data.MintFirstBlock = 0) := by
  rw [buildInscriptionStat_eq cache e d hd]
  cases hm : e.Mint with
  | none =>
    refine ⟨baseStats e d, rfl, ?_, fun _ => rfl⟩
    intro mint before hmint
    cases hmint
  | some mint =>
    cases hi : cache.Inscription e.MD.Protocol e.MD.Tick with
    | none => exact absurd hi (hins (by simp [hm]))
    | some inscription =>
      refine ⟨_, rfl, ?_, ?_⟩
      · intro mint1 before hmint hbefore
        cases hmint
        have hiff : d.Minted = mint.Amount ↔ before = 0 := by
          rw [hbefore]
          constructor
          · intro h
            linarith
          · intro h
            rw [h, zero_add]
        constructor
        · by_cases hb : before = 0
          · simp [hiff.mpr hb, hb]
          · have hne : ¬ d.Minted = mint.Amount := fun h => hb (hiff.mp h)
            simp [hne, hb]
        · intro hpos hnum
          by_cases hb : before = 0
          · have hmin : 0 < d.Minted := by
              rw [hbefore, hb, zero_add]
              exact hpos
            simp [hiff.mpr hb, hb, hpos]
          · have hne : ¬ d.Minted = mint.Amount := fun h => hb (hiff.mp h)
            have hnum2 : ¬ (0 = e.Block.Number) := by omega
            simp [hne, hb, hnum2]
      · intro hnone
        cases hnone

theorem buildInscriptionStat_first_block_witness :
    (sampleCache (0 + 100) 100).InscriptionStats "asc-20" "dino" = some ⟨7, 0 + 100, 2, 5⟩ ∧
    ∃ data, BuildInscriptionStat (sampleCache (0 + 100) 100) (sampleMintResult 100 true) =
        some (statsMap (sampleMintResult 100 true) data) ∧
      (∀ mint before, (sampleMintResult 100 true).Mint = some mint →
        (0 + 100 : Decimal) = before + mint.Amount →
        data.MintFirstBlock =
          (if before = 0 then (sampleMintResult 100 true).Block.Number else 0) ∧
        (0 < mint.Amount → 0 < (sampleMintResult 100 true).Block.Number →
          (data.MintFirstBlock = (sampleMintResult 100 true).Block.Number ↔
            (before = 0 ∧ (0 : Decimal) < 0 + 100)))) ∧
      ((sampleMintResult 100 true).Mint = none → data.MintFirstBlock = 0) :=
  ⟨rfl, buildInscriptionStat_first_block (sampleCache (0 + 100) 100)
    (sampleMintResult 100 true) ⟨7, 0 + 100, 2, 5⟩ rfl (fun _ => by simp [sampleCache])⟩

/-- C18: let the cache hold the statistics entry of the tick and, for a mint,
its inscription entry. The statistics record has `mint_last_block` equal to the
block number and `mint_completed_time` equal to the block time exactly when the
result is a mint and the cached minted total is at least the total supply of
the inscription; otherwise `mint_last_block` is 0 and `mint_completed_time` is
null. -/
theorem buildInscriptionStat_last_block (cache : CacheView) (e : TxResult) (d : StatsEntry)
    (hd : cache.InscriptionStats e.MD.Protocol e.MD.Tick = some d)
    (hins : e.Mint ≠ none → cache.Inscription e.MD.Protocol e.MD.Tick ≠ none) :
    ∃ data, BuildInscriptionStat cache e = some (statsMap e data) ∧
      ((data.MintLastBlock = e.Block.Number ∧
          data.MintCompletedTime = some (timeUnix e.Block.Time)) ↔
        ∃ mint inscription, e.Mint = some mint ∧
          cache.Inscription e.MD.Protocol e.MD.Tick = some inscription ∧
          inscription.TotalSupply ≤ d.Minted) ∧
      ((¬ ∃ mint inscription, e.Mint = some mint ∧
          cache.Inscription e.MD.Protocol e.MD.Tick = some inscription ∧
          inscription.TotalSupply ≤ d.Minted) →
        data.MintLastBlock = 0 ∧ data.MintCompletedTime = none) := by
  rw [buildInscriptionStat_eq cache e d hd]
  cases hm : e.Mint with
  | none =>
    refine ⟨baseStats e d, rfl, ?_, fun _ => ⟨rfl, rfl⟩⟩
    constructor
    · rintro ⟨_, h2⟩
      simp [baseStats] at h2
    · rintro ⟨mint, _, hmint, _⟩
      cases hmint
  | some mint =>
    cases hi : cache.Inscription e.MD.Protocol e.MD.Tick with
    | none => exact absurd hi (hins (by simp [hm]))
    | some inscription =>
      refine ⟨_, rfl, ?_, ?_⟩
      · by_cases hle : inscription.TotalSupply ≤ d.Minted
        · simp [hle]
        · simp [hle]
      · intro hnot
        have hle : ¬ inscription.TotalSupply ≤ d.Minted := by
          intro hle
          exact hnot ⟨mint, inscription, rfl, rfl, hle⟩
        simp [hle, baseStats]

theorem buildInscriptionStat_last_block_witness :
    (sampleCache 1000 100).InscriptionStats "asc-20" "dino" = some ⟨7, 1000, 2, 5⟩ ∧
    ∃ data, BuildInscriptionStat (sampleCache 1000 100) (sampleMintResult 100 false) =
        some (statsMap (sampleMintResult 100 false) data) ∧
      ((data.MintLastBlock = (sampleMintResult 100 false).Block.Number ∧
          data.MintCompletedTime = some (timeUnix (sampleMintResult 100 false).Block.Time)) ↔
        ∃ mint inscription, (sampleMintResult 100 false).Mint = some mint ∧
          (sampleCache 1000 100).Inscription "asc-20" "dino" = some inscription ∧
          inscription.TotalSupply ≤ (1000 : Decimal)) ∧
      ((¬ ∃ mint inscription, (sampleMintResult 100 false).Mint = some mint ∧
          (sampleCache 1000 100).Inscription "asc-20" "dino" = some inscription ∧
          inscription.TotalSupply ≤ (1000 : Decimal)) →
        data.MintLastBlock = 0 ∧ data.MintCompletedTime = none) :=
  ⟨rfl, buildInscriptionStat_last_block (sampleCache 1000 100) (sampleMintResult 100 false)
    ⟨7, 1000, 2, 5⟩ rfl (fun _ => by simp [sampleCache])⟩

/-! ## Builders: balance events and balance groups -/

theorem sendTotal_eq (rs : List Receive) (total : Decimal) :
    sendTotal rs total = total + (rs.map (fun item => item.Amount)).sum := by
  induction rs generalizing total with
  | nil => simp [sendTotal]
  | cons item rest ih =>
    simp only [sendTotal, ih, List.map_cons, List.sum_cons]
    ring

/-- The loop over the receives appends one balance event per receive, in
order, when every receiver has a balance in the cache. -/
theorem receiveEvents_eq (cache : CacheView) (md : MetaData) (rs : List Receive)
    (items : List BalanceTxEvent)
    (hall : ∀ item ∈ rs, cache.Balance md.Protocol md.Tick item.Address ≠ none) :
    ∃ entries, receiveEvents cache md rs items = some (items ++ entries) ∧
      List.Forall₂ (isReceiveEntry cache md) rs entries := by
  induction rs generalizing items with
  | nil => exact ⟨[], by simp [receiveEvents], List.Forall₂.nil⟩
  | cons item rest ih =>
    cases hb : cache.Balance md.Protocol md.Tick item.Address with
    | none => exact absurd hb (hall item (List.mem_cons_self _ _))
    | some b =>
      obtain ⟨entries, heq, hrel⟩ := ih
        (items ++ [
          { Action := if item.Init then DBAction.create else DBAction.update
            SID := b.SID
            Address := item.Address
            Amount := item.Amount
            AvailableBalance := b.Available
            OverallBalance := b.Overall }])
        (fun it hit => hall it (List.mem_cons_of_mem _ hit))
      refine ⟨_ :: entries, ?_, List.Forall₂.cons ⟨b, hb, rfl⟩ hrel⟩
      simp only [receiveEvents, hb]
      rw [heq]
      simp

theorem forall₂_amounts (cache : CacheView) (md : MetaData) (rs : List Receive)
    (entries : List BalanceTxEvent) (h : List.Forall₂ (isReceiveEntry cache md) rs entries) :
    entries.map (fun en => en.Amount) = rs.map (fun item => item.Amount) := by
  induction h with
  | nil => rfl
  | cons hab _ ih =>
    obtain ⟨b, _, rfl⟩ := hab
    simp [ih]

theorem forall₂_filter {α β : Type} (R : α → β → Prop) (p : α → Bool) (q : β → Bool)
    (hpq : ∀ a b, R a b → p a = q b) (l : List α) (out : List β) (h : List.Forall₂ R l out) :
    List.Forall₂ R (l.filter p) (out.filter q) := by
  induction h with
  | nil => exact List.Forall₂.nil
  | @cons a b l1 l2 hab _ ih =>
    have hp := hpq a b hab
    by_cases hq : q b = true
    · rw [List.filter_cons_of_pos (hp.trans hq), List.filter_cons_of_pos hq]
      exact List.Forall₂.cons hab ih
    · have hpn : ¬ p a = true := fun h => hq (hp.symm.trans h)
      rw [List.filter_cons_of_neg hpn, List.filter_cons_of_neg hq]
      exact ih

/-- The result of `BuildBalanceTxEvents` for a mint and for a transfer whose
addresses all have a balance in the cache. -/
theorem buildBalanceTxEvents_cases (cache : CacheView) (e : TxResult) :
    (∀ mint balance, e.Mint = some mint → e.Transfer = none →
      cache.Balance e.MD.Protocol e.MD.Tick mint.Minter = some balance →
      BuildBalanceTxEvents cache e = some [
        { Action := if mint.Init then DBAction.create else DBAction.update
          SID := balance.SID
          Address := mint.Minter
          Amount := mint.Amount
          AvailableBalance := balance.Available
          OverallBalance := balance.Overall }]) ∧
    (∀ transfer senderBalance, e.Mint = none → e.Transfer = some transfer →
      cache.Balance e.MD.Protocol e.MD.Tick transfer.Sender = some senderBalance →
      (∀ item ∈ transfer.Receives,
        cache.Balance e.MD.Protocol e.MD.Tick item.Address ≠ none) →
      ∃ entries, BuildBalanceTxEvents cache e = some (
          { Action := DBAction.update
            SID := senderBalance.SID
            Address := transfer.Sender
            Amount := -(transfer.Receives.map (fun item => item.Amount)).sum
            AvailableBalance := senderBalance.Available
            OverallBalance := senderBalance.Overall } :: entries) ∧
        List.Forall₂ (isReceiveEntry cache e.MD) transfer.Receives entries) := by
  refine ⟨?_, ?_⟩
  · intro mint balance hm ht hb
    simp [BuildBalanceTxEvents, hm, ht, hb]
  · intro transfer senderBalance hm ht hb hall
    obtain ⟨entries, heq, hrel⟩ := receiveEvents_eq cache e.MD transfer.Receives
      [{ Action := DBAction.update
         SID := senderBalance.SID
         Address := transfer.Sender
         Amount := -(transfer.Receives.map (fun item => item.Amount)).sum
         AvailableBalance := senderBalance.Available
         OverallBalance := senderBalance.Overall }] hall
    refine ⟨entries, ?_, hrel⟩
    simp only [BuildBalanceTxEvents, hm, ht, hb, sendTotal_eq, zero_add, List.nil_append]
    rw [heq]
    rfl

/-- C19: `BuildBalanceTxEvents` yields no entry for a result with neither a
mint nor a transfer (a deploy); for a mint exactly one entry, with the mint
amount and the minter's address; for a transfer with `N` receives exactly
`1 + N` entries: first the sender's, whose amount is the negated sum of the
receive amounts, then one per receive in order with that receive's amount, so
that the amounts sum to zero. Every entry carries the available and overall
balance its address has in the cache. -/
theorem buildBalanceTxEvents_shape (cache : CacheView) (e : TxResult) :
    (e.Mint = none → e.Transfer = none → BuildBalanceTxEvents cache e = some []) ∧
    (∀ mint balance, e.Mint = some mint → e.Transfer = none →
      cache.Balance e.MD.Protocol e.MD.Tick mint.Minter = some balance →
      BuildBalanceTxEvents cache e = some [
        { Action := if mint.Init then DBAction.create else DBAction.update
          SID := balance.SID
          Address := mint.Minter
          Amount := mint.Amount
          AvailableBalance := balance.Available
          OverallBalance := balance.Overall }]) ∧
    (∀ transfer senderBalance, e.Mint = none → e.Transfer = some transfer →
      cache.Balance e.MD.Protocol e.MD.Tick transfer.Sender = some senderBalance →
      (∀ item ∈ transfer.Receives,
        cache.Balance e.MD.Protocol e.MD.Tick item.Address ≠ none) →
      ∃ entries, BuildBalanceTxEvents cache e = some (
          { Action := DBAction.update
            SID := senderBalance.SID
            Address := transfer.Sender
            Amount := -(transfer.Receives.map (fun item => item.Amount)).sum
            AvailableBalance := senderBalance.Available
            OverallBalance := senderBalance.Overall } :: entries) ∧
        List.Forall₂ (isReceiveEntry cache e.MD) transfer.Receives entries ∧
        entries.length = transfer.Receives.length ∧
        (-(transfer.Receives.map (fun item => item.Amount)).sum +
          (entries.map (fun en => en.Amount)).sum = 0)) := by
  refine ⟨?_, (buildBalanceTxEvents_cases cache e).1, ?_⟩
  · intro hm ht
    simp [BuildBalanceTxEvents, hm, ht]
  · intro transfer senderBalance hm ht hb hall
    obtain ⟨entries, heq, hrel⟩ :=
      (buildBalanceTxEvents_cases cache e).2 transfer senderBalance hm ht hb hall
    refine ⟨entries, heq, hrel, hrel.length_eq.symm, ?_⟩
    rw [forall₂_amounts cache e.MD _ _ hrel]
    ring

theorem buildBalanceTxEvents_shape_witness :
    (sampleTransferResult.Mint = none ∧
      sampleTransferResult.Transfer =
        some ⟨"0xalice", [⟨"0xbob", 30, true⟩, ⟨"0xcarol", 20, false⟩]⟩ ∧
      (sampleCache 1000 50).Balance "asc-20" "dino" "0xalice" = some ⟨1, 50, 50⟩) ∧
    ∃ entries, BuildBalanceTxEvents (sampleCache 1000 50) sampleTransferResult = some (
        { Action := DBAction.update
          SID := 1
          Address := "0xalice"
          Amount := -(([⟨"0xbob", 30, true⟩, ⟨"0xcarol", 20, false⟩] : List Receive).map
            (fun item => item.Amount)).sum
          AvailableBalance := 50
          OverallBalance := 50 } :: entries) ∧
      List.Forall₂ (isReceiveEntry (sampleCache 1000 50) sampleTransferResult.MD)
        [⟨"0xbob", 30, true⟩, ⟨"0xcarol", 20, false⟩] entries ∧
      entries.length = ([⟨"0xbob", 30, true⟩, ⟨"0xcarol", 20, false⟩] : List Receive).length ∧
      (-(([⟨"0xbob", 30, true⟩, ⟨"0xcarol", 20, false⟩] : List Receive).map
          (fun item => item.Amount)).sum +
        (entries.map (fun en => en.Amount)).sum = 0) :=
  ⟨⟨rfl, rfl, rfl⟩,
    (buildBalanceTxEvents_shape (sampleCache 1000 50) sampleTransferResult).2.2
      ⟨"0xalice", [⟨"0xbob", 30, true⟩, ⟨"0xcarol", 20, false⟩]⟩ ⟨1, 50, 50⟩ rfl rfl rfl
      (by
        intro item hitem
        simp only [List.mem_cons, List.mem_singleton, List.not_mem_nil, or_false] at hitem
        rcases hitem with rfl | rfl <;> simp [sampleCache, sampleTransferResult])⟩

theorem balanceLoop_eq (e : TxResult) (events : List BalanceTxEvent) (txns : List BalanceTxn)
    (balances : ByAction (List Balances)) :
    balanceLoop e events txns balances =
      (txns ++ events.map (balanceTxnOf e),
        { create := balances.create ++
            (events.filter (fun ev => decide (ev.Action = DBAction.create))).map (balancesOf e)
          update := balances.update ++
            (events.filter (fun ev => decide (ev.Action = DBAction.update))).map
              (balancesOf e) }) := by
  induction events generalizing txns balances with
  | nil => simp [balanceLoop]
  | cons event rest ih =>
    simp only [balanceLoop, ih]
    cases hact : event.Action <;> simp [hact]

/-- C20: `BuildBalance` turns every balance event into one journal row and one
balance snapshot; the snapshot goes to the create group when the event stems
from an effect with the `Init` flag (the mint for the minter, the receive for a
receiver) and to the update group otherwise, the sender's snapshot always to
the update group; both groups keep the order of the events and their sizes add
up to the number of journal rows. -/
theorem buildBalance_groups (cache : CacheView) (e : TxResult) (events : List BalanceTxEvent)
    (h : BuildBalanceTxEvents cache e = some events) :
    ∃ txns balances, BuildBalance cache e = some (txns, balances) ∧
      txns = events.map (balanceTxnOf e) ∧
      balances.create =
        (events.filter (fun ev => decide (ev.Action = DBAction.create))).map (balancesOf e) ∧
      balances.update =
        (events.filter (fun ev => decide (ev.Action = DBAction.update))).map (balancesOf e) ∧
      balances.create.length + balances.update.length = txns.length ∧
      (∀ mint balance, e.Mint = some mint → e.Transfer = none →
        cache.Balance e.MD.Protocol e.MD.Tick mint.Minter = some balance →
        ∃ snapshot, snapshot.Address = mint.Minter ∧ snapshot.SID = balance.SID ∧
          ((mint.Init = true → balances.create = [snapshot] ∧ balances.update = []) ∧
            (mint.Init = false → balances.create = [] ∧ balances.update = [snapshot]))) ∧
      (∀ transfer senderBalance, e.Mint = none → e.Transfer = some transfer →
        cache.Balance e.MD.Protocol e.MD.Tick transfer.Sender = some senderBalance →
        ∃ senderSnapshot created updated,
          senderSnapshot.Address = transfer.Sender ∧ senderSnapshot.SID = senderBalance.SID ∧
          balances.create = created ∧ balances.update = senderSnapshot :: updated ∧
          List.Forall₂ (fun item snapshot => ∃ entry,
              isReceiveEntry cache e.MD item entry ∧ snapshot = balancesOf e entry)
            (transfer.Receives.filter (fun item => item.Init)) created ∧
          List.Forall₂ (fun item snapshot => ∃ entry,
              isReceiveEntry cache e.MD item entry ∧ snapshot = balancesOf e entry)
            (transfer.Receives.filter (fun item => !item.Init)) updated) := by
  have hbuild : BuildBalance cache e = some (balanceLoop e events [] ⟨[], []⟩) := by
    simp [BuildBalance, h]
  rw [balanceLoop_eq] at hbuild
  simp only [List.nil_append] at hbuild
  refine ⟨_, _, hbuild, rfl, rfl, rfl, ?_, ?_, ?_⟩
  · simp only [List.length_map]
    have hsplit : ∀ l : List BalanceTxEvent,
        (l.filter (fun ev => decide (ev.Action = DBAction.create))).length +
          (l.filter (fun ev => decide (ev.Action = DBAction.update))).length = l.length := by
      intro l
      induction l with
      | nil => rfl
      | cons ev rest ih =>
        cases hact : ev.Action <;> simp [hact] <;> omega
    exact hsplit events
  · intro mint balance hm ht hb
    have hev := (buildBalanceTxEvents_cases cache e).1 mint balance hm ht hb
    rw [h] at hev
    have hev2 := Option.some.inj hev
    refine ⟨balancesOf e
      { Action := if mint.Init then DBAction.create else DBAction.update
        SID := balance.SID
        Address := mint.Minter
        Amount := mint.Amount
        AvailableBalance := balance.Available
        OverallBalance := balance.Overall }, rfl, rfl, ?_, ?_⟩
    · intro hinit
      simp [hev2, hinit]
    · intro hinit
      simp [hev2, hinit]
  · intro transfer senderBalance hm ht hb
    have hall : ∀ item ∈ transfer.Receives,
        cache.Balance e.MD.Protocol e.MD.Tick item.Address ≠ none := by
      intro item hitem hnone
      have hmiss : ∀ (rs : List Receive) (items : List BalanceTxEvent), item ∈ rs →
          receiveEvents cache e.MD rs items = none := by
        intro rs
        induction rs with
        | nil => intro items hin; cases hin
        | cons r rest ih =>
          intro items hin
          cases hr : cache.Balance e.MD.Protocol e.MD.Tick r.Address with
          | none => simp [receiveEvents, hr]
          | some b =>
            rcases List.mem_cons.mp hin with rfl | hin
            · rw [hnone] at hr
              cases hr
            · simp only [receiveEvents, hr]
              exact ih _ hin
      have hnone2 : BuildBalanceTxEvents cache e = none := by
        simp only [BuildBalanceTxEvents, hm, ht, hb]
        exact hmiss _ _ hitem
      rw [h] at hnone2
      cases hnone2
    obtain ⟨entries, hev, hrel⟩ :=
      (buildBalanceTxEvents_cases cache e).2 transfer senderBalance hm ht hb hall
    rw [h] at hev
    have hev2 := Option.some.inj hev
    have hcreate : ∀ item entry, isReceiveEntry cache e.MD item entry →
        item.Init = decide (entry.Action = DBAction.create) := by
      rintro item entry ⟨b, _, rfl⟩
      cases item.Init <;> simp
    have hupdate : ∀ item entry, isReceiveEntry cache e.MD item entry →
        (!item.Init) = decide (entry.Action = DBAction.update) := by
      rintro item entry ⟨b, _, rfl⟩
      cases item.Init <;> simp
    have hrelC := forall₂_filter _ (fun item : Receive => item.Init)
      (fun ev : BalanceTxEvent => decide (ev.Action = DBAction.create)) hcreate _ _ hrel
    have hrelU := forall₂_filter _ (fun item : Receive => !item.Init)
      (fun ev : BalanceTxEvent => decide (ev.Action = DBAction.update)) hupdate _ _ hrel
    refine ⟨balancesOf e
      { Action := DBAction.update
        SID := senderBalance.SID
        Address := transfer.Sender
        Amount := -(transfer.Receives.map (fun item => item.Amount)).sum
        AvailableBalance := senderBalance.Available
        OverallBalance := senderBalance.Overall },
      (entries.filter (fun ev => decide (ev.Action = DBAction.create))).map (balancesOf e),
      (entries.filter (fun ev => decide (ev.Action = DBAction.update))).map (balancesOf e),
      rfl, rfl, ?_, ?_, ?_, ?_⟩
    · simp [hev2]
    · simp [hev2]
    · rw [List.forall₂_map_right_iff]
      exact hrelC.imp (fun item entry hr => ⟨entry, hr, rfl⟩)
    · rw [List.forall₂_map_right_iff]
      exact hrelU.imp (fun item entry hr => ⟨entry, hr, rfl⟩)

theorem buildBalance_groups_witness :
    BuildBalanceTxEvents (sampleCache 1000 50) sampleTransferResult = some sampleTransferEvents ∧
    ∃ txns balances, BuildBalance (sampleCache 1000 50) sampleTransferResult =
        some (txns, balances) ∧
      txns = sampleTransferEvents.map (balanceTxnOf sampleTransferResult) ∧
      balances.create =
        (sampleTransferEvents.filter (fun ev => decide (ev.Action = DBAction.create))).map
          (balancesOf sampleTransferResult) ∧
      balances.update =
        (sampleTransferEvents.filter (fun ev => decide (ev.Action = DBAction.update))).map
          (balancesOf sampleTransferResult) ∧
      balances.create.length + balances.update.length = txns.length ∧
      (∀ mint balance, sampleTransferResult.Mint = some mint →
        sampleTransferResult.Transfer = none →
        (sampleCache 1000 50).Balance sampleTransferResult.MD.Protocol
          sampleTransferResult.MD.Tick mint.Minter = some balance →
        ∃ snapshot, snapshot.Address = mint.Minter ∧ snapshot.SID = balance.SID ∧
          ((mint.Init = true → balances.create = [snapshot] ∧ balances.update = []) ∧
            (mint.Init = false → balances.create = [] ∧ balances.update = [snapshot]))) ∧
      (∀ transfer senderBalance, sampleTransferResult.Mint = none →
        sampleTransferResult.Transfer = some transfer →
        (sampleCache 1000 50).Balance sampleTransferResult.MD.Protocol
          sampleTransferResult.MD.Tick transfer.Sender = some senderBalance →
        ∃ senderSnapshot created updated,
          senderSnapshot.Address = transfer.Sender ∧ senderSnapshot.SID = senderBalance.SID ∧
          balances.create = created ∧ balances.update = senderSnapshot :: updated ∧
          List.Forall₂ (fun item snapshot => ∃ entry,
              isReceiveEntry (sampleCache 1000 50) sampleTransferResult.MD item entry ∧
                snapshot = balancesOf sampleTransferResult entry)
            (transfer.Receives.filter (fun item => item.Init)) created ∧
          List.Forall₂ (fun item snapshot => ∃ entry,
              isReceiveEntry (sampleCache 1000 50) sampleTransferResult.MD item entry ∧
                snapshot = balancesOf sampleTransferResult entry)
            (transfer.Receives.filter (fun item => !item.Init)) updated) :=
  ⟨by rfl, buildBalance_groups (sampleCache 1000 50) sampleTransferResult sampleTransferEvents
    (by rfl)⟩

/-! ## Builders: address events -/

/-- The receive rows follow the rows gathered so far, one per receive in
order. -/
theorem receiveAddressEvents_eq (sender : String) (rs : List Receive)
    (items : List AddressTxEvent) :
    receiveAddressEvents sender rs items =
      items ++ rs.map (fun item => (⟨item.Address, sender, item.Amount⟩ : AddressTxEvent)) := by
  induction rs generalizing items with
  | nil => simp [receiveAddressEvents]
  | cons item rest ih => simp [receiveAddressEvents, ih]

/-- The address events of a result carrying only a mint effect. -/
theorem buildAddressTxEvents_mint_only (e : TxResult) (mint : Mint)
    (hd : e.Deploy = none) (hm : e.Mint = some mint) (ht : e.Transfer = none) :
    BuildAddressTxEvents e = [⟨e.Tx.To, "", mint.Amount⟩] := by
  simp [BuildAddressTxEvents, hd, hm, ht]

/-- C21: for a transfer with N receives, `BuildAddressTxEvents` yields N + 1
rows: the row of the sender, whose amount is the negated sum of the receive
amounts and whose related address is the recipient when N = 1 and empty
otherwise, followed by one row per receive in order, with the receiver as
address, the receive amount, and the sender as related address. -/
theorem buildAddressTxEvents_transfer (e : TxResult) (transfer : Transfer)
    (hd : e.Deploy = none) (hm : e.Mint = none) (ht : e.Transfer = some transfer) :
    ∃ senderRow,
      BuildAddressTxEvents e = senderRow ::
        transfer.Receives.map
          (fun item => (⟨item.Address, transfer.Sender, item.Amount⟩ : AddressTxEvent)) ∧
      (BuildAddressTxEvents e).length = transfer.Receives.length + 1 ∧
      senderRow.Address = transfer.Sender ∧
      senderRow.Amount = -(transfer.Receives.map (fun item => item.Amount)).sum ∧
      (∀ only, transfer.Receives = [only] → senderRow.RelatedAddress = only.Address) ∧
      (transfer.Receives.length ≠ 1 → senderRow.RelatedAddress = "") := by
  have hev : BuildAddressTxEvents e =
      { Address := transfer.Sender
        RelatedAddress :=
          match transfer.Receives with
          | [only] => only.Address
          | _ => ""
        Amount := -sendTotal transfer.Receives 0 } ::
        transfer.Receives.map
          (fun item => (⟨item.Address, transfer.Sender, item.Amount⟩ : AddressTxEvent)) := by
    simp [BuildAddressTxEvents, hd, hm, ht, receiveAddressEvents_eq]
  refine ⟨_, hev, ?_, rfl, ?_, ?_, ?_⟩
  · rw [hev]
    simp
  · simp [sendTotal_eq]
  · intro only hone
    simp [hone]
  · intro hlen
    cases hr : transfer.Receives with
    | nil => rfl
    | cons first rest =>
      cases rest with
      | nil => simp [hr] at hlen
      | cons second others => rfl

theorem buildAddressTxEvents_transfer_witness :
    sampleTransferResult.Deploy = none ∧ sampleTransferResult.Mint = none ∧
    sampleTransferResult.Transfer =
      some ⟨"0xalice", [⟨"0xbob", 30, true⟩, ⟨"0xcarol", 20, false⟩]⟩ ∧
    ∃ senderRow,
      BuildAddressTxEvents sampleTransferResult = senderRow ::
        [(⟨"0xbob", 30, true⟩ : Receive), ⟨"0xcarol", 20, false⟩].map
          (fun item => (⟨item.Address, "0xalice", item.Amount⟩ : AddressTxEvent)) ∧
      (BuildAddressTxEvents sampleTransferResult).length = 2 + 1 ∧
      senderRow.Address = "0xalice" ∧
      senderRow.Amount =
        -([(⟨"0xbob", 30, true⟩ : Receive), ⟨"0xcarol", 20, false⟩].map
          (fun item => item.Amount)).sum ∧
      (∀ only, [(⟨"0xbob", 30, true⟩ : Receive), ⟨"0xcarol", 20, false⟩] = [only] →
        senderRow.RelatedAddress = only.Address) ∧
      ([(⟨"0xbob", 30, true⟩ : Receive), ⟨"0xcarol", 20, false⟩].length ≠ 1 →
        senderRow.RelatedAddress = "") :=
  ⟨rfl, rfl, rfl,
    buildAddressTxEvents_transfer sampleTransferResult
      ⟨"0xalice", [⟨"0xbob", 30, true⟩, ⟨"0xcarol", 20, false⟩]⟩ rfl rfl rfl⟩

/-- C22, counterexample: for a mint whose minter is `0xalice`, sent in a
transaction to `0xbob`, the row of `BuildAddressTxEvents` carries the address
`0xbob`, while the balance journal entry of the same mint credits
`0xalice`. -/
theorem buildAddressTxEvents_mint_not_minter :
    (sampleMintResult 100 false).Mint = some ⟨"0xalice", 100, false⟩ ∧
    (sampleMintResult 100 false).Tx.To = "0xbob" ∧
    BuildAddressTxEvents (sampleMintResult 100 false) = [⟨"0xbob", "", 100⟩] ∧
    BuildBalanceTxEvents (sampleCache 100 100) (sampleMintResult 100 false) =
      some [⟨.update, 1, "0xalice", 100, 100, 100⟩] :=
  ⟨rfl, rfl, by rfl, by rfl⟩

/-- C22, amended: for a result carrying only a mint effect,
`BuildAddressTxEvents` yields exactly one row, with the mint amount and no
related address, and its address is the recipient of the transaction
(`e.Tx.To`); the balance journal entry of the mint carries the minter, so the
two name the same address exactly when the minter of the result is the
recipient of the transaction. -/
theorem buildAddressTxEvents_mint_uses_tx_to (cache : CacheView) (e : TxResult) (mint : Mint)
    (balance : BalanceEntry)
    (hd : e.Deploy = none) (hm : e.Mint = some mint) (ht : e.Transfer = none)
    (hb : cache.Balance e.MD.Protocol e.MD.Tick mint.Minter = some balance) :
    ∃ row entry, BuildAddressTxEvents e = [row] ∧
      BuildBalanceTxEvents cache e = some [entry] ∧
      row.Address = e.Tx.To ∧ row.RelatedAddress = "" ∧ row.Amount = mint.Amount ∧
      entry.Address = mint.Minter ∧ entry.Amount = mint.Amount ∧
      (row.Address = entry.Address ↔ e.Tx.To = mint.Minter) :=
  ⟨_, _, buildAddressTxEvents_mint_only e mint hd hm ht,
    (buildBalanceTxEvents_cases cache e).1 mint balance hm ht hb,
    rfl, rfl, rfl, rfl, rfl, Iff.rfl⟩

theorem buildAddressTxEvents_mint_uses_tx_to_witness :
    (sampleMintResult 100 false).Deploy = none ∧
    (sampleMintResult 100 false).Mint = some ⟨"0xalice", 100, false⟩ ∧
    (sampleMintResult 100 false).Transfer = none ∧
    (sampleCache 100 100).Balance "asc-20" "dino" "0xalice" = some ⟨1, 100, 100⟩ ∧
    ∃ row entry, BuildAddressTxEvents (sampleMintResult 100 false) = [row] ∧
      BuildBalanceTxEvents (sampleCache 100 100) (sampleMintResult 100 false) = some [entry] ∧
      row.Address = (sampleMintResult 100 false).Tx.To ∧ row.RelatedAddress = "" ∧
      row.Amount = (⟨"0xalice", 100, false⟩ : Mint).Amount ∧
      entry.Address = (⟨"0xalice", 100, false⟩ : Mint).Minter ∧
      entry.Amount = (⟨"0xalice", 100, false⟩ : Mint).Amount ∧
      (row.Address = entry.Address ↔
        (sampleMintResult 100 false).Tx.To = (⟨"0xalice", 100, false⟩ : Mint).Minter) :=
  ⟨rfl, rfl, rfl, rfl,
    buildAddressTxEvents_mint_uses_tx_to (sampleCache 100 100) (sampleMintResult 100 false)
      ⟨"0xalice", 100, false⟩ ⟨1, 100, 100⟩ rfl rfl rfl rfl⟩

/-! ## Builders: transaction row -/

/-- The read `Int64()` of a big integer in the range of `int64` is the
integer. -/
theorem bigInt64_of_range (x : Int) (h0 : -2 ^ 63 ≤ x) (h1 : x < 2 ^ 63) : bigInt64 x = x := by
  unfold bigInt64 bigUint64 toInt64 toUint64
  simp only
  split_ifs <;> omega

/-- The read `Int64()` of a big integer is in the range of `int64`. -/
theorem bigInt64_range (x : Int) : -2 ^ 63 ≤ bigInt64 x ∧ bigInt64 x < 2 ^ 63 := by
  unfold bigInt64 bigUint64 toInt64 toUint64
  simp only
  split_ifs <;> omega

/-- The chain id of the row of `BuildTx`. -/
theorem buildTx_chainId (e : TxResult) :
    (BuildTx e).ChainId =
      match e.Tx.ChainID with
      | none => 0
      | some chainID => bigInt64 chainID := by
  cases hc : e.Tx.ChainID <;>
    (simp only [BuildTx, hc]
     split_ifs <;> (try split) <;> rfl)

/-- C23, counterexample: for a transaction whose chain id is 2^64 + 1, the row
of `BuildTx` has chain id 1, not the chain id of the transaction. -/
theorem buildTx_chainId_truncated :
    sampleBigChainResult.Tx.ChainID = some 18446744073709551617 ∧
    (BuildTx sampleBigChainResult).ChainId = 1 ∧
    (BuildTx sampleBigChainResult).ChainId ≠ 18446744073709551617 := by
  have h : (BuildTx sampleBigChainResult).ChainId = 1 := by
    rw [buildTx_chainId]
    decide
  exact ⟨rfl, h, by rw [h]; decide⟩

/-- C23, amended: the transaction row of `BuildTx` has amount zero for the
operate deploy, the mint amount for the operate mint with a mint effect, and
the sum of the receive amounts for the operate transfer with a transfer
effect; its chain id is 0 when the transaction has none and `ChainID.Int64()`
otherwise, a signed 64-bit value that is the chain id of the transaction
whenever that chain id is in the range of `int64`. -/
theorem buildTx_amount_chainId (e : TxResult) :
    (e.MD.Operate = OperateDeploy → (BuildTx e).Amount = 0) ∧
    (∀ mint, e.MD.Operate = OperateMint → e.Mint = some mint →
      (BuildTx e).Amount = mint.Amount) ∧
    (∀ transfer, e.MD.Operate = OperateTransfer → e.Transfer = some transfer →
      (BuildTx e).Amount = (transfer.Receives.map (fun item => item.Amount)).sum) ∧
    (e.Tx.ChainID = none → (BuildTx e).ChainId = 0) ∧
    (∀ chainID, e.Tx.ChainID = some chainID →
      (BuildTx e).ChainId = bigInt64 chainID ∧
      -2 ^ 63 ≤ (BuildTx e).ChainId ∧ (BuildTx e).ChainId < 2 ^ 63 ∧
      (-2 ^ 63 ≤ chainID → chainID < 2 ^ 63 → (BuildTx e).ChainId = chainID)) := by
  have hdm : ¬ OperateDeploy = OperateMint := by decide
  have htm : ¬ OperateTransfer = OperateMint := by decide
  have htd : ¬ OperateTransfer = OperateDeploy := by decide
  refine ⟨?_, ?_, ?_, ?_, ?_⟩
  · intro hop
    cases hc : e.Tx.ChainID <;> simp [BuildTx, hc, hop, hdm]
  · intro mint hop hm
    cases hc : e.Tx.ChainID <;> simp [BuildTx, hc, hop, hm]
  · intro transfer hop ht
    cases hc : e.Tx.ChainID <;> simp [BuildTx, hc, hop, ht, htm, htd, sendTotal_eq]
  · intro hc
    rw [buildTx_chainId, hc]
  · intro chainID hc
    have h : (BuildTx e).ChainId = bigInt64 chainID := by rw [buildTx_chainId, hc]
    rw [h]
    exact ⟨rfl, (bigInt64_range chainID).1, (bigInt64_range chainID).2,
      fun h0 h1 => bigInt64_of_range chainID h0 h1⟩

theorem buildTx_amount_chainId_witness :
    (sampleDeployResult.MD.Operate = OperateDeploy ∧ sampleDeployResult.Tx.ChainID = none ∧
      (BuildTx sampleDeployResult).Amount = 0 ∧ (BuildTx sampleDeployResult).ChainId = 0) ∧
    ((sampleMintResult 100 false).MD.Operate = OperateMint ∧
      (sampleMintResult 100 false).Tx.ChainID = some 1 ∧
      (BuildTx (sampleMintResult 100 false)).Amount = 100 ∧
      (BuildTx (sampleMintResult 100 false)).ChainId = 1) ∧
    (sampleTransferResult.MD.Operate = OperateTransfer ∧
      (BuildTx sampleTransferResult).Amount =
        ([(⟨"0xbob", 30, true⟩ : Receive), ⟨"0xcarol", 20, false⟩].map
          (fun item => item.Amount)).sum) :=
  ⟨⟨rfl, rfl, (buildTx_amount_chainId sampleDeployResult).1 rfl,
      (buildTx_amount_chainId sampleDeployResult).2.2.2.1 rfl⟩,
    ⟨rfl, rfl, (buildTx_amount_chainId (sampleMintResult 100 false)).2.1 _ rfl rfl,
      ((buildTx_amount_chainId (sampleMintResult 100 false)).2.2.2.2 1 rfl).2.2.2
        (by decide) (by decide)⟩,
    ⟨rfl, (buildTx_amount_chainId sampleTransferResult).2.2.1 _ rfl rfl⟩⟩

/-! ## Builders: inscription record -/

/-- C24: `BuildInscription` returns no record for a result without deploy
effect; for a deploy whose inscription is in the cache it returns one record,
under the create action, with the sid of the cache and the chain, protocol,
tick, name, limit per mint, total supply, decimals, deployer, deploy hash and
deploy time of the deploy, while its transfer type is left at zero, which is
neither `TransferTypeHash` nor `TransferTypeBalance`. -/
theorem buildInscription_transfer_type_unset (cache : CacheView) (e : TxResult) :
    (e.Deploy = none → BuildInscription cache e = some { create := none, update := none }) ∧
    (∀ deploy d, e.Deploy = some deploy →
      cache.Inscription e.MD.Protocol e.MD.Tick = some d →
      ∃ record, BuildInscription cache e = some { create := some record, update := none } ∧
        record.SID = d.SID ∧ record.Chain = e.MD.Chain ∧ record.Protocol = e.MD.Protocol ∧
        record.Tick = e.MD.Tick ∧ record.Name = deploy.Name ∧
        record.LimitPerMint = deploy.MintLimit ∧ record.TotalSupply = deploy.MaxSupply ∧
        record.Decimals = deploy.Decimal ∧ record.DeployBy = e.Tx.From ∧
        record.DeployHash = e.Tx.Hash ∧ record.DeployTime = timeUnix e.Block.Time ∧
        record.TransferType = 0 ∧ record.TransferType ≠ TransferTypeHash ∧
        record.TransferType ≠ TransferTypeBalance) := by
  refine ⟨?_, ?_⟩
  · intro hd
    simp [BuildInscription, hd]
  · intro deploy d hd hc
    have hrec : BuildInscription cache e = some
        { create := some
            { SID := d.SID
              Chain := e.MD.Chain
              Protocol := e.MD.Protocol
              Tick := e.MD.Tick
              Name := deploy.Name
              LimitPerMint := deploy.MintLimit
              TotalSupply := deploy.MaxSupply
              DeployBy := e.Tx.From
              DeployHash := e.Tx.Hash
              DeployTime := timeUnix e.Block.Time
              TransferType := 0
              Decimals := deploy.Decimal }
          update := none } := by
      simp only [BuildInscription, hd, hc]
    have h1 : (0 : Int) ≠ TransferTypeHash := by decide
    have h2 : (0 : Int) ≠ TransferTypeBalance := by decide
    exact ⟨_, hrec, rfl, rfl, rfl, rfl, rfl, rfl, rfl, rfl, rfl, rfl, rfl, rfl, h1, h2⟩

theorem buildInscription_transfer_type_unset_witness :
    sampleDeployResult.Deploy = some ⟨"Dino", 1000, 100, 8⟩ ∧
    (sampleCache 0 0).Inscription sampleDeployResult.MD.Protocol sampleDeployResult.MD.Tick =
      some ⟨7, 1000⟩ ∧
    ∃ record, BuildInscription (sampleCache 0 0) sampleDeployResult =
        some { create := some record, update := none } ∧
      record.SID = 7 ∧ record.Chain = "avalanche" ∧ record.Protocol = "asc-20" ∧
      record.Tick = "dino" ∧ record.Name = "Dino" ∧ record.LimitPerMint = 100 ∧
      record.TotalSupply = 1000 ∧ record.Decimals = 8 ∧ record.DeployBy = "0xbob" ∧
      record.DeployHash = "0xb2" ∧ record.DeployTime = timeUnix 1700000000 ∧
      record.TransferType = 0 ∧ record.TransferType ≠ TransferTypeHash ∧
      record.TransferType ≠ TransferTypeBalance :=
  ⟨rfl, rfl,
    (buildInscription_transfer_type_unset (sampleCache 0 0) sampleDeployResult).2
      ⟨"Dino", 1000, 100, 8⟩ ⟨7, 1000⟩ rfl rfl⟩

/-! ## Builders: statistics entry and event codes -/

/-- The conversion `uint64(x)` keeps a value of the range of `uint64`. -/
theorem toUint64_of_range (i : Int) (h0 : 0 ≤ i) (h1 : i < 2 ^ 64) :
    ((toUint64 i : Nat) : Int) = i := by
  unfold toUint64
  rw [Int.emod_eq_of_lt h0 h1]
  exact Int.toNat_of_nonneg h0

/-- C25: when the tick of a result has a statistics entry in the cache (with a
holder count that is not negative, and for a mint the inscription entry the
builder reads), `BuildInscriptionStat` returns a map with one entry, under the
create action for a deploy and under the update action otherwise, whose sid,
minted total, holder count and transaction count are those of the cached
entry. -/
theorem buildInscriptionStat_entry (cache : CacheView) (e : TxResult) (d : StatsEntry)
    (hd : cache.InscriptionStats e.MD.Protocol e.MD.Tick = some d)
    (h0 : 0 ≤ d.Holders) (h1 : d.Holders < 2 ^ 64)
    (hi : ∀ mint, e.Mint = some mint →
      ∃ inscription, cache.Inscription e.MD.Protocol e.MD.Tick = some inscription) :
    ∃ data,
      (∀ deploy, e.Deploy = some deploy →
        BuildInscriptionStat cache e = some { create := some data, update := none }) ∧
      (e.Deploy = none →
        BuildInscriptionStat cache e = some { create := none, update := some data }) ∧
      data.SID = d.SID ∧ data.Minted = d.Minted ∧ (data.Holders : Int) = d.Holders ∧
      data.TxCnt = d.TxCnt := by
  have hmap : ∀ data : InscriptionsStats,
      (∀ deploy, e.Deploy = some deploy →
        some (statsMap e data) = some { create := some data, update := none }) ∧
      (e.Deploy = none →
        some (statsMap e data) = some { create := none, update := some data }) := by
    intro data
    constructor
    · intro deploy hdep
      simp [statsMap, hdep]
    · intro hdep
      simp [statsMap, hdep]
  have hholders : ((baseStats e d).Holders : Int) = d.Holders := toUint64_of_range _ h0 h1
  rw [buildInscriptionStat_eq cache e d hd]
  cases hm : e.Mint with
  | none =>
    exact ⟨baseStats e d, (hmap _).1, (hmap _).2, rfl, rfl, hholders, rfl⟩
  | some mint =>
    obtain ⟨inscription, hins⟩ := hi mint hm
    simp only [hins]
    exact ⟨_, (hmap _).1, (hmap _).2, rfl, rfl, hholders, rfl⟩

theorem buildInscriptionStat_entry_witness :
    (sampleCache 100 100).InscriptionStats (sampleMintResult 100 false).MD.Protocol
      (sampleMintResult 100 false).MD.Tick = some ⟨7, 100, 2, 5⟩ ∧
    ∃ data,
      (∀ deploy, (sampleMintResult 100 false).Deploy = some deploy →
        BuildInscriptionStat (sampleCache 100 100) (sampleMintResult 100 false) =
          some { create := some data, update := none }) ∧
      ((sampleMintResult 100 false).Deploy = none →
        BuildInscriptionStat (sampleCache 100 100) (sampleMintResult 100 false) =
          some { create := none, update := some data }) ∧
      data.SID = 7 ∧ data.Minted = 100 ∧ (data.Holders : Int) = 2 ∧ data.TxCnt = 5 :=
  ⟨rfl,
    buildInscriptionStat_entry (sampleCache 100 100) (sampleMintResult 100 false) ⟨7, 100, 2, 5⟩
      rfl (by decide) (by decide) (fun _ _ => ⟨⟨7, 1000⟩, rfl⟩)⟩

/-- C26: `getEventByOperate` maps deploy to 1, mint to 2, transfer to 3, list
to 4, delist to 5 and exchange to 6, and every other operate to 0; the six
codes are pairwise distinct and none is zero. -/
theorem getEventByOperate_codes :
    getEventByOperate OperateDeploy = 1 ∧ getEventByOperate OperateMint = 2 ∧
    getEventByOperate OperateTransfer = 3 ∧ getEventByOperate OperateList = 4 ∧
    getEventByOperate OperateDelist = 5 ∧ getEventByOperate OperateExchange = 6 ∧
    (∀ operate, operate ∉ [OperateDeploy, OperateMint, OperateTransfer, OperateList,
        OperateDelist, OperateExchange] → getEventByOperate operate = 0) ∧
    ([OperateDeploy, OperateMint, OperateTransfer, OperateList, OperateDelist,
      OperateExchange].map getEventByOperate).Nodup ∧
    (0 : Int) ∉ [OperateDeploy, OperateMint, OperateTransfer, OperateList, OperateDelist,
      OperateExchange].map getEventByOperate := by
  refine ⟨by decide, by decide, by decide, by decide, by decide, by decide, ?_, by decide,
    by decide⟩
  intro operate hop
  simp only [List.mem_cons, List.mem_singleton, List.not_mem_nil, or_false, not_or] at hop
  obtain ⟨h1, h2, h3, h4, h5, h6⟩ := hop
  simp [getEventByOperate, h1, h2, h3, h4, h5, h6]

/-! ## UTXO store: properties -/

/-- Overwriting the value found under a key by one with the same projection
leaves the projected map as it was. -/
theorem map_mapSet_of_get {K V W : Type} [DecidableEq K] (f : V → W) (m : List (K × V))
    (k : K) (v v1 : V) (hget : mapGet m k = some v) (hf : f v1 = f v) :
    (mapSet m k v1).map (fun p => (p.1, f p.2)) = m.map (fun p => (p.1, f p.2)) := by
  induction m with
  | nil => simp [mapGet] at hget
  | cons p rest ih =>
    obtain ⟨k2, v2⟩ := p
    by_cases h2 : k2 = k
    · subst h2
      simp only [mapGet, if_true, Option.some.injEq] at hget
      subst hget
      simp [mapSet, hf]
    · simp only [mapGet, h2, if_false] at hget
      simp [mapSet, h2, ih hget]

/-- The keys and a projection of the values, read off the projected map. -/
theorem map_of_projected {K V W : Type} (f : V → W) (m m1 : List (K × V))
    (h : m1.map (fun p => (p.1, f p.2)) = m.map (fun p => (p.1, f p.2))) :
    m1.map Prod.fst = m.map Prod.fst ∧ m1.map (fun p => f p.2) = m.map (fun p => f p.2) := by
  have hk := congrArg (List.map Prod.fst) h
  have hv := congrArg (List.map Prod.snd) h
  simp only [List.map_map] at hk hv
  exact ⟨hk, hv⟩

/-- The store after `Transfer`, projected to the key, protocol, tick and
amount of each note, is the store before. -/
theorem utxo_transfer_projected (d : List (String × UTXOItem)) (sn o : String) :
    (UTXO.Transfer d sn o).map (fun p => (p.1, (p.2.Protocol, p.2.Tick, p.2.Amount))) =
      d.map (fun p => (p.1, (p.2.Protocol, p.2.Tick, p.2.Amount))) := by
  unfold UTXO.Transfer
  cases hget : UTXO.Get d sn with
  | none => rfl
  | some item =>
    exact map_mapSet_of_get (fun item : UTXOItem => (item.Protocol, item.Tick, item.Amount))
      d (UTXO.idx sn) item _ hget rfl

/-- C27: if a note with serial number `sn` exists, after `Transfer(sn, o)` the
lookup of `sn` still finds it, owned by `o`, with its protocol, tick and amount
unchanged; if none exists, `Transfer` leaves the store unchanged. In both cases
every other note is unchanged, the serial numbers of the store are the same,
and the sum of the note amounts is preserved. -/
theorem utxo_transfer_frame (d : List (String × UTXOItem)) (sn o : String) :
    (∀ item, UTXO.Get d sn = some item →
      UTXO.Get (UTXO.Transfer d sn o) sn =
        some ⟨item.Protocol, item.Tick, item.Amount, o⟩) ∧
    (UTXO.Get d sn = none → UTXO.Transfer d sn o = d) ∧
    (∀ other, other ≠ sn → UTXO.Get (UTXO.Transfer d sn o) other = UTXO.Get d other) ∧
    (UTXO.Transfer d sn o).map Prod.fst = d.map Prod.fst ∧
    ((UTXO.Transfer d sn o).map (fun p => p.2.Amount)).sum =
      (d.map (fun p => p.2.Amount)).sum := by
  refine ⟨?_, ?_, ?_, ?_, ?_⟩
  · intro item hget
    simp only [UTXO.Transfer, hget]
    simp [UTXO.Get, mapGet_mapSet]
  · intro hget
    simp only [UTXO.Transfer, hget]
  · intro other hne
    unfold UTXO.Transfer
    cases hget : UTXO.Get d sn with
    | none => rfl
    | some item =>
      have hne1 : ¬ sn = other := fun h => hne h.symm
      simp [UTXO.Get, UTXO.idx, mapGet_mapSet, hne1]
  · exact (map_of_projected (fun item : UTXOItem => (item.Protocol, item.Tick, item.Amount))
      _ _ (utxo_transfer_projected d sn o)).1
  · have h := (map_of_projected (fun item : UTXOItem => (item.Protocol, item.Tick, item.Amount))
      _ _ (utxo_transfer_projected d sn o)).2
    have h2 := congrArg (List.map (fun t : String × String × Decimal => t.2.2)) h
    simp only [List.map_map] at h2
    exact congrArg List.sum h2

theorem utxo_transfer_frame_witness :
    (UTXO.Get sampleUtxo "0xMINT1" = some ⟨"asc-20", "dino", 40, "0xalice"⟩ ∧
      UTXO.Get (UTXO.Transfer sampleUtxo "0xMINT1" "0xbob") "0xMINT1" =
        some ⟨"asc-20", "dino", 40, "0xbob"⟩) ∧
    (UTXO.Get sampleUtxo "0xMINT9" = none ∧
      UTXO.Transfer sampleUtxo "0xMINT9" "0xbob" = sampleUtxo) ∧
    ("0xMINT2" ≠ "0xMINT1" ∧
      UTXO.Get (UTXO.Transfer sampleUtxo "0xMINT1" "0xbob") "0xMINT2" =
        UTXO.Get sampleUtxo "0xMINT2") :=
  ⟨⟨by rfl, (utxo_transfer_frame sampleUtxo "0xMINT1" "0xbob").1 _ (by rfl)⟩,
    ⟨by rfl, (utxo_transfer_frame sampleUtxo "0xMINT9" "0xbob").2.1 (by rfl)⟩,
    ⟨by decide, (utxo_transfer_frame sampleUtxo "0xMINT1" "0xbob").2.2.1 _ (by decide)⟩⟩

/-- C28, counterexample: a note added under the serial number `0xMINT1` is not
found under `0xmint1`, which differs from it only in letter case, and a
transfer addressed to `0xmint1` leaves its owner as it was. -/
theorem utxo_not_case_insensitive :
    asciiEqualFold "0xMINT1" "0xmint1" = true ∧
    UTXO.Get (UTXO.Add [] "asc-20" "dino" "0xMINT1" "0xalice" 40) "0xmint1" = none ∧
    UTXO.Get (UTXO.Transfer (UTXO.Add [] "asc-20" "dino" "0xMINT1" "0xalice" 40)
      "0xmint1" "0xbob") "0xMINT1" = some ⟨"asc-20", "dino", 40, "0xalice"⟩ :=
  ⟨by rfl, by rfl, by rfl⟩

/-- C28, amended: the store is keyed by the serial number as written. After
`Add` under `sn`, the lookup of `sn` finds that note and `Transfer(sn, o)`
reassigns its owner; under every other string, also one that differs from `sn`
only in letter case, the store holds what it held before the `Add`, and a
transfer addressed to such a string leaves the note under `sn` as it was. -/
theorem utxo_keyed_by_exact_sn (d : List (String × UTXOItem))
    (protocol tick sn address : String) (amount : Decimal) :
    UTXO.Get (UTXO.Add d protocol tick sn address amount) sn =
      some ⟨protocol, tick, amount, address⟩ ∧
    (∀ o, UTXO.Get (UTXO.Transfer (UTXO.Add d protocol tick sn address amount) sn o) sn =
      some ⟨protocol, tick, amount, o⟩) ∧
    (∀ other, other ≠ sn →
      UTXO.Get (UTXO.Add d protocol tick sn address amount) other = UTXO.Get d other) ∧
    (∀ other o, other ≠ sn →
      UTXO.Get (UTXO.Transfer (UTXO.Add d protocol tick sn address amount) other o) sn =
        some ⟨protocol, tick, amount, address⟩) := by
  have hget : UTXO.Get (UTXO.Add d protocol tick sn address amount) sn =
      some ⟨protocol, tick, amount, address⟩ := by
    simp [UTXO.Get, UTXO.Add, mapGet_mapSet]
  refine ⟨hget, ?_, ?_, ?_⟩
  · intro o
    simp only [UTXO.Transfer, hget]
    simp [UTXO.Get, mapGet_mapSet]
  · intro other hne
    have hne1 : ¬ sn = other := fun h => hne h.symm
    simp [UTXO.Get, UTXO.Add, UTXO.idx, mapGet_mapSet, hne1]
  · intro other o hne
    unfold UTXO.Transfer
    cases hother : UTXO.Get (UTXO.Add d protocol tick sn address amount) other with
    | none => exact hget
    | some item =>
      have hne1 : ¬ other = sn := hne
      have h := hget
      simp only [UTXO.Get, UTXO.idx] at h ⊢
      rw [mapGet_mapSet, if_neg hne1]
      exact h

theorem utxo_keyed_by_exact_sn_witness :
    UTXO.Get (UTXO.Add sampleUtxo "asc-20" "dino" "0xMINT3" "0xalice" 5) "0xMINT3" =
      some ⟨"asc-20", "dino", 5, "0xalice"⟩ ∧
    ("0xmint3" ≠ "0xMINT3" ∧
      UTXO.Get (UTXO.Add sampleUtxo "asc-20" "dino" "0xMINT3" "0xalice" 5) "0xmint3" =
        UTXO.Get sampleUtxo "0xmint3") :=
  ⟨(utxo_keyed_by_exact_sn sampleUtxo "asc-20" "dino" "0xMINT3" "0xalice" 5).1,
    by decide,
    (utxo_keyed_by_exact_sn sampleUtxo "asc-20" "dino" "0xMINT3" "0xalice" 5).2.2.1 _
      (by decide)⟩

/-! ## Flush batch: domain -/

/-- C29: `BuildDBUpdateModel` produces a flattened batch for every non-empty
window of block events, and none for the empty window, where the index of the
last block event is out of range. -/
theorem buildDBUpdateModel_nonempty_only :
    BuildDBUpdateModel [] = none ∧
    (∀ (blockEvent : Event DBModelEvent) (rest : List (Event DBModelEvent)),
      ∃ dmf, BuildDBUpdateModel (blockEvent :: rest) = some dmf) ∧
    (∀ blocksEvents : List (Event DBModelEvent),
      (BuildDBUpdateModel blocksEvents).isSome = true ↔ blocksEvents ≠ []) := by
  refine ⟨rfl, ?_, ?_⟩
  · intro blockEvent rest
    exact buildDBUpdateModel_total _ (List.cons_ne_nil _ _)
  · intro blocksEvents
    constructor
    · intro hsome hnil
      rw [hnil] at hsome
      exact absurd hsome (by decide)
    · intro hne
      obtain ⟨dmf, hdmf⟩ := buildDBUpdateModel_total blocksEvents hne
      rw [hdmf]
      rfl

/-! ## Read service: properties -/

/-- The cache key of `GetAddressBalance` does not depend on the address: a
call that finds a cached response returns it for every address. -/
theorem getAddressBalance_hit {C : Type} (s : Service C) (cache : C)
    (protocol chain tick address : String) (resp : BalanceBrief)
    (hget : s.CacheGet cache
      ("addr_balance_" ++ chain ++ "_" ++ s.ToLower protocol ++ "_" ++ s.ToLower tick) =
        some (.balanceBrief resp)) :
    GetAddressBalance s cache protocol chain tick address = (cache, [], .ok resp) := by
  simp only [GetAddressBalance, hget]

/-- A successful `GetAddressBalance` leaves its response in the cache under the
key of chain, protocol and tick, when the cache returns what was last stored
under a key. -/
theorem getAddressBalance_stores {C : Type} (s : Service C) (cache cache1 : C)
    (protocol chain tick address : String) (queries : List DBQuery) (resp : BalanceBrief)
    (hset : ∀ c key v, s.CacheGet (s.CacheSet c key v) key = some v)
    (hcall : GetAddressBalance s cache protocol chain tick address = (cache1, queries, .ok resp)) :
    s.CacheGet cache1
      ("addr_balance_" ++ chain ++ "_" ++ s.ToLower protocol ++ "_" ++ s.ToLower tick) =
        some (.balanceBrief resp) := by
  have hmiss : ∀ key, addressBalanceMiss s cache key (s.ToLower protocol) chain (s.ToLower tick)
      address = (cache1, queries, .ok resp) → s.CacheGet cache1 key = some (.balanceBrief resp) := by
    intro key hm
    unfold addressBalanceMiss at hm
    split at hm
    · simp at hm
    · simp at hm
    · split at hm
      · simp at hm
      · simp at hm
      · split_ifs at hm
        · split at hm
          · simp at hm
          · simp only [Prod.mk.injEq, RpcResult.ok.injEq] at hm
            obtain ⟨hc, _, hr⟩ := hm
            rw [← hc, ← hr]
            exact hset _ _ _
        · simp only [Prod.mk.injEq, RpcResult.ok.injEq] at hm
          obtain ⟨hc, _, hr⟩ := hm
          rw [← hc, ← hr]
          exact hset _ _ _
  unfold GetAddressBalance at hcall
  simp only at hcall
  split at hcall
  · rename_i allIns hhit
    simp only [Prod.mk.injEq, RpcResult.ok.injEq] at hcall
    obtain ⟨hc, _, hr⟩ := hcall
    rw [← hc, ← hr]
    exact hhit
  · exact hmiss _ hcall

/-- C30: the cache key of `GetAddressBalance` is built from chain, protocol and
tick only. After a successful call for an address `a` (which leaves its
response in the cache), a call with the same protocol, chain and tick for any
address `b` returns that same response, and makes no query on the store. -/
theorem getAddressBalance_cache_ignores_address {C : Type} (s : Service C) (cache cache1 : C)
    (protocol chain tick a b : String) (queries : List DBQuery) (resp : BalanceBrief)
    (hset : ∀ c key v, s.CacheGet (s.CacheSet c key v) key = some v)
    (hcall : GetAddressBalance s cache protocol chain tick a = (cache1, queries, .ok resp)) :
    GetAddressBalance s cache1 protocol chain tick b = (cache1, [], .ok resp) :=
  getAddressBalance_hit s cache1 protocol chain tick b resp
    (getAddressBalance_stores s cache cache1 protocol chain tick a queries resp hset hcall)

theorem getAddressBalance_cache_ignores_address_witness :
    (∀ (c : List (String × CacheValue)) key v,
      sampleService.CacheGet (sampleService.CacheSet c key v) key = some v) ∧
    GetAddressBalance sampleService [] "ASC-20" "avalanche" "Dino" "0xalice" =
      ([("addr_balance_avalanche_asc-20_dino", .balanceBrief sampleBrief)],
        [.findInscriptionByTick "avalanche" "asc-20" "dino",
          .findUserBalanceByTick "avalanche" "asc-20" "dino" "0xalice",
          .getUtxosByAddress "0xalice" "avalanche" "asc-20" "dino"],
        .ok sampleBrief) ∧
    GetAddressBalance sampleService
        [("addr_balance_avalanche_asc-20_dino", .balanceBrief sampleBrief)]
        "ASC-20" "avalanche" "Dino" "0xbob" =
      ([("addr_balance_avalanche_asc-20_dino", .balanceBrief sampleBrief)], [],
        .ok sampleBrief) :=
  ⟨fun c key v => by simp [sampleService, mapGet_mapSet], by rfl,
    getAddressBalance_cache_ignores_address sampleService [] _ "ASC-20" "avalanche" "Dino"
      "0xalice" "0xbob" _ sampleBrief (fun c key v => by simp [sampleService, mapGet_mapSet])
      (by rfl)⟩

end Indexer
